import Mathlib

/-!
# cproto connection: request table, sequence numbers, read loop, deadline ticker

A shallow embedding of `bindings/cproto/connection.go` (and the part of
`netbuf.go` it uses).  Machine integers are natural numbers reduced modulo
`2^32` where the Go code computes in `uint32`.  Goroutines are modelled by
atomic steps on one `connection` value: every function below is one such step
and takes the scheduler's choices (which ready `select` case fires, what the
wall clock reads) as explicit arguments.
-/

namespace Cproto

/-! ## Constants (connection.go 26-39) -/

def bufsCap : Nat := 16 * 1024
def queueSize : Nat := 512
def maxSeqNum : Nat := queueSize * 1000000

def cprotoMagic : Nat := 0xEEDD1132
def cprotoVersion : Nat := 0x103
def cprotoMinCompatVersion : Nat := 0x101
def cprotoMinSnappyVersion : Nat := 0x103

def cprotoVersionCompressionFlag : Nat := 1 <<< 10
def cprotoVersionMask : Nat := 0x3FF

def cprotoHdrLen : Nat := 16
def deadlineCheckPeriodSec : Nat := 1

def cmdLogin : Nat := 1

/-- Modulus of `uint32` arithmetic. -/
def u32 : Nat := 2 ^ 32

/-- Nanoseconds in `time.Second`. -/
def second : Int := 1000000000

/-! ## Sequence numbers (connection.go 145-150, 350-356) -/

def seqNumIsValid (seqNum : Nat) : Bool :=
  if seqNum < maxSeqNum then true else false

/-- `nextSeqNum` on `uint32`: the addition and the subtraction both wrap modulo `2^32`. -/
def nextSeqNum (seqNum : Nat) : Nat :=
  let seqNum := (seqNum + queueSize) % u32
  if seqNum < maxSeqNum then seqNum
  else (seqNum + u32 - maxSeqNum) % u32

/-- Iterated successor: `nextSeqNum` applied `k` times. -/
def nextSeqNumIter : Nat → Nat → Nat
  | 0, seqNum => seqNum
  | k + 1, seqNum => nextSeqNumIter k (nextSeqNum seqNum)

/-! ## Errors, buffers, contexts -/

/-- The error values the transport produces or passes on. -/
inductive Err where
  | canceled
  | deadlineExceeded
  | eof
  | unexpectedEOF
  | invalidMagic (magic : Nat)
  | unsupportedVersion (version : Nat)
  | invalidSeqNum (rseq : Nat)
  | unexpectedAnswer
  | remote (code : Nat)
  | dial (code : Nat)
  | io (code : Nat)
  deriving DecidableEq

/-- Reply buffer of `netbuf.go`: the payload read from the wire; `decoded` records that
`decompress` (snappy, an external library) was run on it. -/
structure NetBuffer where
  buf : List Nat
  decoded : Bool
  deriving DecidableEq

structure bufPtr where
  rseq : Nat
  buf : NetBuffer
  deriving DecidableEq

/-- What a completion is called with: `cmpl(answ, answ.parseArgs())` or `cmpl(nil, err)`. -/
inductive Outcome where
  | answer (buf : NetBuffer)
  | failed (e : Err)
  deriving DecidableEq

/-- One invocation of a completion; completions (Go closures) are identified by a number. -/
structure Invocation where
  cmpl : Nat
  outcome : Outcome
  deriving DecidableEq

/-- A `context.Context` as the transport observes it during one call: `Err()` and
`Deadline()` (wall-clock nanoseconds).  `Done()` is ready exactly when `err` is set. -/
structure Context where
  err : Option Err
  deadline : Option Int
  deriving DecidableEq

/-- Go's `context.WithTimeout(ctx, d)` evaluated at wall-clock time `now`. -/
def withTimeout (ctx : Context) (d : Int) (now : Int) : Context :=
  let dl := now + d
  let fresh : Context :=
    { err := match ctx.err with
             | some e => some e
             | none => if d ≤ 0 then some Err.deadlineExceeded else none
      deadline := some dl }
  match ctx.deadline with
  | some cur => if cur < dl then ctx else fresh
  | none => fresh

/-- `applyTimeout` (connection.go 413-418); `timeout` is in seconds. -/
def applyTimeout (ctx : Context) (timeout : Nat) (now : Int) : Context :=
  if timeout = 0 then ctx
  else withTimeout ctx (second * (timeout : Int)) now

/-- Arguments accepted by `packRPC`. -/
inductive Arg where
  | bool (b : Bool)
  | int (i : Int)
  | int64 (i : Int)
  | string (s : String)
  | bytes (b : List Nat)
  | int32Arr (a : List Int)
  deriving DecidableEq

/-- Modelled from the spec: the RPC encoder (`newRPCEncoder`) is not among the sources; a frame
queued on the write buffer is kept as the values `packRPC` hands to the encoder. -/
structure OutFrame where
  cmd : Nat
  seq : Nat
  snappy : Bool
  args : List Arg
  execTimeout : Int
  deriving DecidableEq

/-! ## Request table and connection (connection.go 77-109) -/

/-- One request slot.  `repl` is the slot's unbuffered channel: `none` is a nil channel,
`some q` holds the values the read loop has handed over and no caller has received yet.
`cmpl` is the completion (`none` is nil). -/
structure requestInfo where
  seqNum : Nat
  repl : Option (List bufPtr)
  deadline : Nat
  isAsync : Int
  cmpl : Option Nat
  deriving DecidableEq

/-- State of the socket `c.conn`. -/
inductive Sock where
  | isNil
  | isOpen
  | closed
  deriving DecidableEq

/-- The connection.  `rdBuf` is the unread part of the inbound byte stream, `seqs` the free
pool (a FIFO channel, head first), `errCh` and `termCh` say whether the channel is closed,
`requests i` is slot `i` (only `i < queueSize` exists), `enableCompression` is the owner's
`compression.EnableCompression`, and `calls` lists the completion invocations made so far. -/
structure connection where
  conn : Sock
  wrBuf : List OutFrame
  wrBuf2 : List OutFrame
  wrKick : Bool
  rdBuf : List Nat
  seqs : List Nat
  err : Option Err
  errCh : Bool
  now : Nat
  termCh : Bool
  requests : Nat → requestInfo
  enableSnappy : Int
  isServerChanged : Bool
  enableCompression : Bool
  calls : List Invocation

/-- Replace slot `i` of the request table. -/
def connection.setReq (c : connection) (i : Nat) (r : requestInfo) : connection :=
  { c with requests := Function.update c.requests i r }

/-- The zero-valued slot with its reply channel made (connection.go 123). -/
def emptyRequest : requestInfo :=
  { seqNum := 0, repl := some [], deadline := 0, isAsync := 0, cmpl := none }

/-- The struct literal and the initialisation loop of `newConnection` (connection.go 112-124). -/
def initConnection (enableCompression : Bool) : connection :=
  { conn := Sock.isNil
    wrBuf := []
    wrBuf2 := []
    wrKick := false
    rdBuf := []
    seqs := List.range queueSize
    err := none
    errCh := false
    now := 0
    termCh := false
    requests := fun _ => emptyRequest
    enableSnappy := 0
    isServerChanged := false
    enableCompression := enableCompression
    calls := [] }

/-- First statement of the ticker goroutine: `atomic.StoreUint32(&c.now, 1)` (connection.go 155). -/
def deadlineTickerStart (c : connection) : connection :=
  { c with now := 1 }

/-! ## Deadline ticker (connection.go 156-188) -/

/-- Body of the ticker's loop over the slots, for slot `i`, with `now` the new clock value. -/
def tickSlot (now : Nat) (c : connection) (i : Nat) : connection :=
  let r := c.requests i
  if !seqNumIsValid r.seqNum then c
  else
    let deadline := r.deadline
    if deadline ≠ 0 ∧ now ≥ deadline ∧ r.isAsync ≠ 0 then
      match r.cmpl with
      | some cmpl =>
        -- the compare-and-swap of the deadline succeeds: the step is atomic
        let seqNum := r.seqNum
        let c1 := c.setReq i { r with deadline := 0, cmpl := none, seqNum := maxSeqNum, isAsync := 0 }
        { c1 with seqs := c1.seqs ++ [nextSeqNum seqNum]
                  calls := c1.calls ++ [⟨cmpl, Outcome.failed Err.deadlineExceeded⟩] }
      | none => c
    else c

/-- One wake-up of the ticker: it returns when `errCh` or `termCh` is closed, otherwise it
advances `now` and visits every slot. -/
def deadlineTick (c : connection) : connection :=
  if c.errCh ∨ c.termCh then c
  else
    let now := (c.now + deadlineCheckPeriodSec) % u32
    (List.range queueSize).foldl (tickSlot now) { c with now := now }

/-! ## Error fan-out (connection.go 516-548) -/

/-- Body of `onError`'s loop over the slots, for slot `i`. -/
def onErrorSlot (err : Err) (c : connection) (i : Nat) : connection :=
  let r := c.requests i
  if r.isAsync ≠ 0 then
    match r.cmpl with
    | some cmpl =>
      let seqNum := r.seqNum
      let c1 := c.setReq i { r with cmpl := none, seqNum := maxSeqNum, isAsync := 0 }
      { c1 with seqs := c1.seqs ++ [nextSeqNum seqNum]
                calls := c1.calls ++ [⟨cmpl, Outcome.failed err⟩] }
    | none => c
  else c

/-- `c.conn.Close()` when the socket is not nil. -/
def closeSock : Sock → Sock
  | Sock.isNil => Sock.isNil
  | _ => Sock.closed

def onError (c : connection) (err : Err) : connection :=
  match c.err with
  | none =>
    let c1 := { c with err := some err, conn := closeSock c.conn, errCh := true }
    (List.range queueSize).foldl (onErrorSlot err) c1
  | some _ => c

/-! ## Read loop (connection.go 233-311) -/

/-- Modelled from the spec: the header reader (`cjson.Serializer.GetUInt16` / `GetUInt32`) is not
among the sources; the spec fixes the header fields as little-endian.  Value of the bytes
`bs`, least significant first. -/
def leNat : List Nat → Nat
  | [] => 0
  | b :: bs => b % 256 + 256 * leNat bs

/-- Field of `n` bytes at offset `off` of a header. -/
def field (hdr : List Nat) (off n : Nat) : Nat :=
  leNat ((hdr.drop off).take n)

/-- `io.ReadFull` on the unread stream: the `n` bytes and the rest, or `EOF` when nothing
could be read and `ErrUnexpectedEOF` when the stream ends early. -/
def readFull (rd : List Nat) (n : Nat) : Except Err (List Nat) × List Nat :=
  if n ≤ rd.length then (Except.ok (rd.take n), rd.drop n)
  else if rd.isEmpty then (Except.error Err.eof, [])
  else (Except.error Err.unexpectedEOF, [])

/-- `atomic.StoreInt32(&c.enableSnappy, 1)` when compression is on and the server is new enough. -/
def noteSnappy (c : connection) (version : Nat) : connection :=
  if c.enableCompression ∧ version ≥ cprotoMinSnappyVersion then { c with enableSnappy := 1 }
  else c

/-- Delivery of a matching reply `answ` with sequence number `rseq` (connection.go 292-310). -/
def deliverReply (c : connection) (rseq : Nat) (answ : NetBuffer) : Option Err × connection :=
  let reqID := rseq % queueSize
  let r := c.requests reqID
  if r.isAsync ≠ 0 then
    match r.cmpl with
    | some cmpl =>
      if r.seqNum = rseq then
        let c1 := c.setReq reqID { r with cmpl := none, seqNum := maxSeqNum, isAsync := 0 }
        (none, { c1 with seqs := c1.seqs ++ [nextSeqNum rseq]
                         calls := c1.calls ++ [⟨cmpl, Outcome.answer answ⟩] })
      else (none, c)
    | none => (none, c)
  else
    match r.repl with
    | some q => (none, c.setReq reqID { r with repl := some (q ++ [⟨rseq, answ⟩]) })
    | none => (some Err.unexpectedAnswer, c)

/-- One call of `readReply`: the error it returns and the connection afterwards. -/
def readReply (c : connection) : Option Err × connection :=
  match readFull c.rdBuf cprotoHdrLen with
  | (Except.error e, rest) => (some e, { c with rdBuf := rest })
  | (Except.ok hdr, rest) =>
    let c := { c with rdBuf := rest }
    let magic := field hdr 0 4
    if magic ≠ cprotoMagic then (some (Err.invalidMagic magic), c)
    else
      let version := field hdr 4 2
      let size := field hdr 8 4
      let rseq := field hdr 12 4
      let compressed := (version &&& cprotoVersionCompressionFlag) ≠ 0
      let version := version &&& cprotoVersionMask
      if version < cprotoMinCompatVersion then (some (Err.unsupportedVersion version), c)
      else
        let c := noteSnappy c version
        if !seqNumIsValid rseq then (some (Err.invalidSeqNum rseq), c)
        else
          let reqID := rseq % queueSize
          if (c.requests reqID).seqNum ≠ rseq then
            -- io.CopyN(ioutil.Discard, c.rdBuf, size), its error ignored
            (none, { c with rdBuf := c.rdBuf.drop size })
          else
            match readFull c.rdBuf size with
            | (Except.error e, rest) => (some e, { c with rdBuf := rest })
            | (Except.ok payload, rest) =>
              deliverReply { c with rdBuf := rest } rseq ⟨payload, decide compressed⟩

/-- One iteration of `readLoop`: an error of `readReply` goes to `onError`. -/
def readLoopStep (c : connection) : connection :=
  match readReply c with
  | (some e, c1) => onError c1 e
  | (none, c1) => c1

/-! ## Acquiring a sequence number (connection.go 387-411) -/

/-- What `awaitSeqNum` returns. -/
structure Acquired where
  seq : Nat
  remainingTimeout : Int
  err : Option Err
  deriving DecidableEq

/-- The function `awaitSeqNum`.  `now` is `time.Now()`; `pickSeqs` is the scheduler's choice in
the second `select` when both the pool and `ctx.Done()` are ready.  `none`: the caller
blocks (empty pool, context not done). -/
def awaitSeqNum (c : connection) (ctx : Context) (now : Int) (pickSeqs : Bool) :
    Option (Acquired × connection) :=
  -- The first select only assigns `err = ctx.Err()` when the context is done and does not
  -- return; the second select runs in either case and assigns `err` again on each branch.
  match c.seqs with
  | [] =>
    match ctx.err with
    | none => none
    | some e => some (⟨0, 0, some e⟩, c)
  | seq :: rest =>
    if ctx.err.isSome ∧ pickSeqs = false then
      -- case <-ctx.Done()
      some (⟨0, 0, ctx.err⟩, c)
    else
      -- case seq = <-c.seqs
      let c1 := { c with seqs := rest }
      match ctx.err with
      | some e => some (⟨seq, 0, some e⟩, { c1 with seqs := c1.seqs ++ [seq] })
      | none =>
        match ctx.deadline with
        | some execDeadline =>
          let remainingTimeout := execDeadline - now
          if remainingTimeout ≤ 0 then
            some (⟨seq, remainingTimeout, some Err.deadlineExceeded⟩,
                  { c1 with seqs := c1.seqs ++ [seq] })
          else some (⟨seq, remainingTimeout, none⟩, c1)
        | none => some (⟨seq, 0, none⟩, c1)

/-! ## Sending (connection.go 313-321, 358-385) -/

/-- The method `write`: append under the lock, then kick the writer without blocking. -/
def write (c : connection) (f : OutFrame) : connection :=
  { c with wrBuf := c.wrBuf ++ [f], wrKick := true }

def packRPC (c : connection) (cmd : Nat) (seq : Nat) (execTimeout : Int) (args : List Arg) :
    connection :=
  write c ⟨cmd, seq, decide (c.enableSnappy ≠ 0), args, execTimeout⟩

/-- `timeout.Milliseconds()` of a duration in nanoseconds (the calls pass durations that are
not negative). -/
def milliseconds (d : Int) : Int := d / 1000000

/-- `uint32(timeout.Seconds())`: `Seconds()` is the `float64` sum of the whole seconds and
`nanoseconds / 1e9`, and the conversion truncates it, which gives the whole seconds of the
duration (exactly so for durations below `2^24` seconds), reduced to `uint32`. -/
def secondsU32 (d : Int) : Nat := (d / second).toNat % u32

/-! ## Asynchronous call (connection.go 420-451) -/

/-- The locked section of `rpcCallAsync` (connection.go 436-446). -/
def registerAsync (c : connection) (seq : Nat) (timeout : Int) (cmpl : Nat) : connection :=
  let reqID := seq % queueSize
  let r := c.requests reqID
  let deadline := if timeout = 0 then 0 else (c.now + secondsU32 timeout) % u32
  c.setReq reqID { r with cmpl := some cmpl, deadline := deadline, isAsync := 1, seqNum := seq }

/-- The function `rpcCallAsync` run as one step.  `t0` is the wall clock read by
`applyTimeout`, `t1` the one read by `awaitSeqNum`.  `none`: the caller blocks in
`awaitSeqNum`.  `rpcCallAsyncRacing` below lets other goroutines act between the `curError`
check, `awaitSeqNum` and the locked registration. -/
def rpcCallAsync (c : connection) (ctx : Context) (t0 t1 : Int) (pickSeqs : Bool)
    (cmd netTimeout : Nat) (cmpl : Nat) (args : List Arg) : Option connection :=
  match c.err with
  | some err => some { c with calls := c.calls ++ [⟨cmpl, Outcome.failed err⟩] }
  | none =>
    let intCtx := applyTimeout ctx netTimeout t0
    match awaitSeqNum c intCtx t1 pickSeqs with
    | none => none
    | some (a, c1) =>
      match a.err with
      | some err => some { c1 with calls := c1.calls ++ [⟨cmpl, Outcome.failed err⟩] }
      | none =>
        let c2 := registerAsync c1 a.seq a.remainingTimeout cmpl
        some (packRPC c2 cmd a.seq (milliseconds a.remainingTimeout) args)

/-! ## Synchronous call (connection.go 453-508) -/

/-- Modelled from the spec: the reply decoder (`newRPCDecoder`) and the error codes of package
`bindings` are not among the sources.  `errCode` is the error code a payload starts with
(`none` for success), `startTS` the second reply argument when there is one. -/
structure Decoder where
  errCode : List Nat → Option Nat
  startTS : List Nat → Option Int
  errTimeout : Nat
  errCanceled : Nat

/-- `NetBuffer.parseArgs` (netbuf.go 64-86): the error it returns. -/
def parseArgs (dec : Decoder) (buf : NetBuffer) : Option Err :=
  match dec.errCode buf.buf with
  | some code =>
    if code = dec.errTimeout then some Err.deadlineExceeded
    else if code = dec.errCanceled then some Err.canceled
    else some (Err.remote code)
  | none => none

/-- What happens while a synchronous caller waits: a `select` case of the caller fires
(`recv`, `errSignal`, `ctxDone`), or another goroutine takes a step. -/
inductive Sched where
  | recv
  | errSignal
  | ctxDone (e : Err)
  | arrive (bytes : List Nat)
  | readLoop
  | tick
  | fail (e : Err)
  deriving DecidableEq

/-- The `for_loop` of `rpcCall` on slot `reqID` for sequence number `seq`: the buffer and the
error it leaves with.  A `select` case that is not ready does not fire.  `none`: the
schedule ended with the caller still waiting. -/
def waitReply (seq reqID : Nat) : List Sched → connection →
    Option ((Option NetBuffer × Option Err) × connection)
  | [], _ => none
  | Sched.recv :: rest, c =>
    match (c.requests reqID).repl with
    | some (b :: q) =>
      let c1 := c.setReq reqID { c.requests reqID with repl := some q }
      if b.rseq = seq then some ((some b.buf, none), c1)
      else waitReply seq reqID rest c1
    | _ => waitReply seq reqID rest c
  | Sched.errSignal :: rest, c =>
    if c.errCh then some ((none, c.err), c) else waitReply seq reqID rest c
  | Sched.ctxDone e :: _, c => some ((none, some e), c)
  | Sched.arrive bytes :: rest, c => waitReply seq reqID rest { c with rdBuf := c.rdBuf ++ bytes }
  | Sched.readLoop :: rest, c => waitReply seq reqID rest (readLoopStep c)
  | Sched.tick :: rest, c => waitReply seq reqID rest (deadlineTick c)
  | Sched.fail e :: rest, c => waitReply seq reqID rest (onError c e)

/-- End of `rpcCall` (connection.go 490-498): stamp the slot idle, drain one late reply,
return the successor to the pool. -/
def release (c : connection) (seq : Nat) : connection :=
  let reqID := seq % queueSize
  let c1 := c.setReq reqID { c.requests reqID with seqNum := maxSeqNum }
  let r := c1.requests reqID
  let c2 := match r.repl with
    | some (_ :: q) => c1.setReq reqID { r with repl := some q }
    | _ => c1
  { c2 with seqs := c2.seqs ++ [nextSeqNum seq] }

/-- The function `rpcCall`: the buffer and error returned and the connection afterwards.
`none`: the caller blocks (in `awaitSeqNum`, or the schedule ends while it waits). -/
def rpcCall (dec : Decoder) (c : connection) (ctx : Context) (t0 t1 : Int) (pickSeqs : Bool)
    (sched : List Sched) (cmd netTimeout : Nat) (args : List Arg) :
    Option ((Option NetBuffer × Option Err) × connection) :=
  let intCtx := applyTimeout ctx netTimeout t0
  match awaitSeqNum c intCtx t1 pickSeqs with
  | none => none
  | some (a, c1) =>
    match a.err with
    | some err => some ((none, some err), c1)
    | none =>
      let seq := a.seq
      let reqID := seq % queueSize
      let c2 := c1.setReq reqID { c1.requests reqID with seqNum := seq }
      let c3 := packRPC c2 cmd seq (milliseconds a.remainingTimeout) args
      match waitReply seq reqID sched c3 with
      | none => none
      | some ((buf, err), c4) =>
        let c5 := release c4 seq
        match err with
        | some e => some ((none, some e), c5)
        | none =>
          match buf with
          | some b =>
            match parseArgs dec b with
            | some e => some ((none, some e), c5)
            | none => some ((some b, none), c5)
          | none => some ((none, none), c5)

/-! ## Dial and login (connection.go 111-143, 191-231) -/

/-- The method `connect`; `dial` is the error of `DialContext` (`none`: the socket is open). -/
def connect (c : connection) (dial : Option Err) : Option Err × connection :=
  match dial with
  | some e => (some e, c)
  | none => (none, { c with conn := Sock.isOpen, rdBuf := [] })

/-- The method `login`.  `oldStart` is the owner's previous `serverStartTime`. -/
def login (dec : Decoder) (c : connection) (ctx : Context) (t0 t1 : Int) (pickSeqs : Bool)
    (sched : List Sched) (loginArgs : List Arg) (oldStart : Int) :
    Option (Option Err × connection) :=
  match rpcCall dec c ctx t0 t1 pickSeqs sched cmdLogin 0 loginArgs with
  | none => none
  | some ((_, some err), c1) => some (some err, { c1 with err := some err })
  | some ((buf, none), c1) =>
    match buf.bind (fun b => dec.startTS b.buf) with
    | some serverStartTS =>
      if oldStart ≠ 0 ∧ oldStart ≠ serverStartTS then
        some (none, { c1 with isServerChanged := true })
      else some (none, c1)
    | none => some (none, c1)

/-- The function `newConnection`: the connection it leaves and the error it returns.
`loginTimeout` is `owner.timeouts.LoginTimeout` in seconds. -/
def newConnection (dec : Decoder) (enableCompression : Bool) (loginTimeout : Nat)
    (ctx : Context) (dial : Option Err) (t0 t1 : Int) (pickSeqs : Bool)
    (sched : List Sched) (loginArgs : List Arg) (oldStart : Int) :
    Option (connection × Option Err) :=
  let c := deadlineTickerStart (initConnection enableCompression)
  let intCtx := applyTimeout ctx loginTimeout t0
  match connect c dial with
  | (some err, c1) => some (onError c1 err, some err)
  | (none, c1) =>
    match login dec c1 intCtx t0 t1 pickSeqs sched loginArgs oldStart with
    | none => none
    | some (some err, c2) => some (onError c2 err, some err)
    | some (none, c2) => some (c2, none)

/-! ## The connection with its callers -/

/-- A connection together with the sequence numbers its callers hold: those a caller has
taken with `awaitSeqNum` and neither released (`rpcCall`) nor handed to a slot with a
completion (`rpcCallAsync`). -/
structure Sys where
  c : connection
  held : List Nat

/-- The operations on the request table, each one atomic step of some goroutine. -/
inductive Op where
  | acquire (ctx : Context) (now : Int) (pickSeqs : Bool)
  | stampSync (seq : Nat) (cmd : Nat) (execTimeout : Int) (args : List Arg)
  | recvSync (seq : Nat)
  | releaseSync (seq : Nat)
  | registerAsync (seq : Nat) (timeout : Int) (cmpl : Nat) (cmd : Nat) (args : List Arg)
  | arrive (bytes : List Nat)
  | readLoop
  | tick
  | fail (e : Err)

/-- Receive of one value from the reply channel of the slot of `seq` (connection.go 472). -/
def recvReply (c : connection) (seq : Nat) : connection :=
  let reqID := seq % queueSize
  match (c.requests reqID).repl with
  | some (_ :: q) => c.setReq reqID { c.requests reqID with repl := some q }
  | _ => c

/-- Effect of one operation.  A caller acts only on a sequence number it holds. -/
def Op.run : Op → Sys → Sys
  | Op.acquire ctx now pickSeqs, s =>
    match awaitSeqNum s.c ctx now pickSeqs with
    | none => s
    | some (a, c1) =>
      match a.err with
      | some _ => { s with c := c1 }
      | none => { c := c1, held := a.seq :: s.held }
  | Op.stampSync seq cmd execTimeout args, s =>
    if seq ∈ s.held then
      let reqID := seq % queueSize
      let c2 := s.c.setReq reqID { s.c.requests reqID with seqNum := seq }
      { s with c := packRPC c2 cmd seq execTimeout args }
    else s
  | Op.recvSync seq, s =>
    if seq ∈ s.held then { s with c := recvReply s.c seq } else s
  | Op.releaseSync seq, s =>
    if seq ∈ s.held then { c := release s.c seq, held := s.held.erase seq } else s
  | Op.registerAsync seq timeout cmpl cmd args, s =>
    if seq ∈ s.held then
      { c := packRPC (Cproto.registerAsync s.c seq timeout cmpl) cmd seq (milliseconds timeout) args
        held := s.held.erase seq }
    else s
  | Op.arrive bytes, s => { s with c := { s.c with rdBuf := s.c.rdBuf ++ bytes } }
  | Op.readLoop, s => { s with c := readLoopStep s.c }
  | Op.tick, s => { s with c := deadlineTick s.c }
  | Op.fail e, s => { s with c := onError s.c e }

/-- Run a sequence of operations. -/
def runOps (ops : List Op) (s : Sys) : Sys :=
  ops.foldl (fun s op => op.run s) s

/-- Sequence numbers held by slots with a registered completion. -/
def asyncHeld (c : connection) : List Nat :=
  (List.range queueSize).filterMap
    (fun i => if (c.requests i).cmpl.isSome then some (c.requests i).seqNum else none)

/-- Slot indices of all sequence numbers that exist: pool, callers, registered slots. -/
def ownedSlots (s : Sys) : List Nat :=
  (s.c.seqs ++ s.held ++ asyncHeld s.c).map (· % queueSize)

/-- A new connection, no caller yet. -/
def newSys (enableCompression : Bool) : Sys :=
  { c := initConnection enableCompression, held := [] }

/-! ## Delivery of completions -/

/-- Steps that can deliver a registered completion: bytes arrive from the server, the read
loop runs once (a matching reply, or an error that goes to `onError`), the ticker fires,
the write loop reports an error to `onError`. -/
inductive Delivery where
  | arrive (bytes : List Nat)
  | readLoop
  | tick
  | fail (e : Err)
  deriving DecidableEq

def Delivery.run : Delivery → connection → connection
  | Delivery.arrive bytes, c => { c with rdBuf := c.rdBuf ++ bytes }
  | Delivery.readLoop, c => readLoopStep c
  | Delivery.tick, c => deadlineTick c
  | Delivery.fail e, c => onError c e

def runDelivery (steps : List Delivery) (c : connection) : connection :=
  steps.foldl (fun c d => d.run c) c

/-- How many times completion `k` has been invoked. -/
def invocations (k : Nat) (c : connection) : Nat :=
  (c.calls.filter (fun x => x.cmpl = k)).length

/-- How many slots hold completion `k`. -/
def pending (k : Nat) (c : connection) : Nat :=
  ((List.range queueSize).filter (fun i => (c.requests i).cmpl = some k)).length

/-! ## Wall clock and ticker -/

/-- Ticks fired by wall-clock time `t` (nanoseconds after the ticker started): the ticker
fires every `deadlineCheckPeriodSec` seconds. -/
def ticksBy (t : Int) : Nat := (t / (second * deadlineCheckPeriodSec)).toNat

/-- Wall-clock time of the `j`-th tick. -/
def tickTime (j : Nat) : Int := second * deadlineCheckPeriodSec * j

/-- The ticker fires `n` times, nothing else happens. -/
def runTicks : Nat → connection → connection
  | 0, c => c
  | n + 1, c => runTicks n (deadlineTick c)

/-- Asynchronous call with `net_timeout = 1` and a background context on a connection whose
ticker started at wall-clock time 0, the server staying silent: the call starts at `t0`,
`awaitSeqNum` reads the clock at `t1`, and the result is the connection at time `t`. -/
def silentAsyncCall (c : connection) (t0 t1 t : Int) (cmd cmpl : Nat) (args : List Arg) :
    Option connection :=
  (rpcCallAsync (runTicks (ticksBy t1) c) ⟨none, none⟩ t0 t1 true cmd 1 cmpl args).map
    (runTicks (ticksBy t - ticksBy t1))

/-- Whether completion `k` has been called with `DeadlineExceeded`. -/
def timedOut (k : Nat) (c : connection) : Bool :=
  decide (⟨k, Outcome.failed Err.deadlineExceeded⟩ ∈ c.calls)

/-! ## Invariant of the request table -/

/-- The transition the three delivery sites share: slot `i` gives up completion `cmpl`, is
stamped idle, and the successor of its stamp goes back to the pool. -/
def claimSlot (c : connection) (i : Nat) (deadline : Nat) (cmpl : Nat) (out : Outcome) :
    connection :=
  { c with
    requests := Function.update c.requests i
      { c.requests i with deadline := deadline, cmpl := none, seqNum := maxSeqNum, isAsync := 0 }
    seqs := c.seqs ++ [nextSeqNum (c.requests i).seqNum]
    calls := c.calls ++ [⟨cmpl, out⟩] }

/-- Invariant of the request table, given the sequence numbers `held` by callers: every slot
index is owned once, pooled and held numbers are valid, and a slot with a completion is
asynchronous and stamped with a valid number of its own index. -/
def TableInv (c : connection) (held : List Nat) : Prop :=
  ((c.seqs ++ held ++ asyncHeld c).map (· % queueSize)).Perm (List.range queueSize) ∧
  (∀ x, x ∈ c.seqs ++ held → x < maxSeqNum) ∧
  (∀ i, i < queueSize → ∀ k, (c.requests i).cmpl = some k →
    (c.requests i).isAsync ≠ 0 ∧ (c.requests i).seqNum < maxSeqNum ∧
      (c.requests i).seqNum % queueSize = i)

/-- Two connections that agree on everything the table invariant and the delivery count
read: the pool, the invocations, and per slot the completion and, where there is one, the
stamp and the asynchronous flag. -/
def SameTable (c c2 : connection) : Prop :=
  c2.seqs = c.seqs ∧ c2.calls = c.calls ∧ ∀ i, i < queueSize →
    (c2.requests i).cmpl = (c.requests i).cmpl ∧
    ((c.requests i).cmpl ≠ none → (c2.requests i).seqNum = (c.requests i).seqNum ∧
      (c2.requests i).isAsync = (c.requests i).isAsync)

/-- Reachability by steps that either leave the table as it is (`SameTable`) or let one slot
give up its completion (`claimSlot`). -/
inductive Chain : connection → connection → Prop where
  | same (c c2 : connection) : SameTable c c2 → Chain c c2
  | claim (c : connection) (i d k : Nat) (out : Outcome) :
      i < queueSize → (c.requests i).cmpl = some k → (c.requests i).isAsync ≠ 0 →
      Chain c (claimSlot c i d k out)
  | trans (c c2 c3 : connection) : Chain c c2 → Chain c2 c3 → Chain c c3

/-- Slots holding completion `k` are marked asynchronous. -/
def MarkedAsync (k : Nat) (c : connection) : Prop :=
  ∀ i, i < queueSize → (c.requests i).cmpl = some k → (c.requests i).isAsync ≠ 0

/-- The part of a connection the ticker needs in order to run and that it leaves alone: no
error, both signal channels open, the clock at `n`, and `seq` at the head of the pool. -/
def Serving (n seq : Nat) (c : connection) : Prop :=
  c.err = none ∧ c.errCh = false ∧ c.termCh = false ∧ c.now = n ∧ c.seqs.head? = some seq

/-! ## Inside the loops over the slots -/

/-- A step inside a run of the ticker or of `onError`: the ticker has passed its `select`
and advanced `now`; the ticker's loop body visits slot `i` (with the clock value it has
stored); `onError` has recorded the error, closed the socket and `errCh`; the loop body of
`onError` visits slot `i`.  Both loops range over the `queueSize` slots only. -/
inductive Visit where
  | tickBegin
  | tickSlot (i : Nat)
  | fanOutBegin (e : Err)
  | fanOutSlot (e : Err) (i : Nat)

def Visit.run : Visit → connection → connection
  | Visit.tickBegin, c => { c with now := (c.now + deadlineCheckPeriodSec) % u32 }
  | Visit.tickSlot i, c => if i < queueSize then Cproto.tickSlot c.now c i else c
  | Visit.fanOutBegin e, c =>
    { c with err := some e, conn := closeSock c.conn, errCh := true }
  | Visit.fanOutSlot e i, c => if i < queueSize then onErrorSlot e c i else c

def runVisits (vs : List Visit) (c : connection) : connection :=
  vs.foldl (fun c v => v.run c) c

/-- Whether a step of a schedule is a `select` case of the waiting caller itself. -/
def Sched.isOwn : Sched → Bool
  | Sched.recv => true
  | Sched.errSignal => true
  | Sched.ctxDone _ => true
  | _ => false

/-! ## A tick as the specification describes it -/

/-- The expiry condition in the specification's words: the stamp is valid, the deadline is
not zero, the clock value `now` has reached it, the slot is asynchronous and a completion
is present. -/
def expiresBySpec (now : Nat) (r : requestInfo) : Bool :=
  seqNumIsValid r.seqNum && decide (r.deadline ≠ 0) && decide (now ≥ r.deadline) &&
    decide (r.isAsync ≠ 0) && r.cmpl.isSome

/-- An expired slot in the specification's words: deadline 0, completion cleared, stamp
`maxSeqNum`, asynchronous flag cleared. -/
def expiredSlot (r : requestInfo) : requestInfo :=
  { r with deadline := 0, cmpl := none, seqNum := maxSeqNum, isAsync := 0 }

/-- One tick in the specification's words: the clock advances by one (in `uint32`), every
slot that meets the expiry condition with the new clock value becomes an expired slot, the
successor of its stamp goes to the pool and its completion is called with
`DeadlineExceeded`; nothing else changes. -/
def tickBySpec (c : connection) : connection :=
  let now := (c.now + 1) % u32
  let expired := (List.range queueSize).filter (fun i => expiresBySpec now (c.requests i))
  { c with
    now := now
    requests := fun i =>
      if i < queueSize ∧ expiresBySpec now (c.requests i) = true then expiredSlot (c.requests i)
      else c.requests i
    seqs := c.seqs ++ expired.map (fun i => nextSeqNum (c.requests i).seqNum)
    calls := c.calls ++ expired.filterMap (fun i =>
      (c.requests i).cmpl.map (fun k => ⟨k, Outcome.failed Err.deadlineExceeded⟩)) }

/-! ## Asynchronous call with other goroutines in between -/

/-- The function `rpcCallAsync` together with the steps other goroutines take while it
runs: `between1` after the `curError` check (connection.go 421) and before `awaitSeqNum`
(431), `between2` after `awaitSeqNum` and before the locked registration (437-446),
`between3` after the registration and before `packRPC` (448).  The registration reads the
clock `now` of the state it runs in.  With the three lists empty it is `rpcCallAsync`. -/
def rpcCallAsyncRacing (c : connection) (ctx : Context) (t0 t1 : Int) (pickSeqs : Bool)
    (cmd netTimeout : Nat) (cmpl : Nat) (args : List Arg)
    (between1 between2 between3 : List Delivery) : Option connection :=
  match c.err with
  | some err => some { c with calls := c.calls ++ [⟨cmpl, Outcome.failed err⟩] }
  | none =>
    let intCtx := applyTimeout ctx netTimeout t0
    match awaitSeqNum (runDelivery between1 c) intCtx t1 pickSeqs with
    | none => none
    | some (a, c1) =>
      match a.err with
      | some err => some { c1 with calls := c1.calls ++ [⟨cmpl, Outcome.failed err⟩] }
      | none =>
        let c2 := registerAsync (runDelivery between2 c1) a.seq a.remainingTimeout cmpl
        some (packRPC (runDelivery between3 c2) cmd a.seq (milliseconds a.remainingTimeout) args)

/-! ## Which case wakes a synchronous caller -/

/-- The `select` case that ends the `for_loop` of `rpcCall` under a schedule: `recv` when
the matching reply is received, `errSignal` when `errCh` is closed as that case is tried,
`ctxDone e` when the context is done.  It follows `waitReply` step by step. -/
def waitWake (seq reqID : Nat) : List Sched → connection → Option Sched
  | [], _ => none
  | Sched.recv :: rest, c =>
    match (c.requests reqID).repl with
    | some (b :: q) =>
      let c1 := c.setReq reqID { c.requests reqID with repl := some q }
      if b.rseq = seq then some Sched.recv
      else waitWake seq reqID rest c1
    | _ => waitWake seq reqID rest c
  | Sched.errSignal :: rest, c =>
    if c.errCh then some Sched.errSignal else waitWake seq reqID rest c
  | Sched.ctxDone e :: _, _ => some (Sched.ctxDone e)
  | Sched.arrive bytes :: rest, c => waitWake seq reqID rest { c with rdBuf := c.rdBuf ++ bytes }
  | Sched.readLoop :: rest, c => waitWake seq reqID rest (readLoopStep c)
  | Sched.tick :: rest, c => waitWake seq reqID rest (deadlineTick c)
  | Sched.fail e :: rest, c => waitWake seq reqID rest (onError c e)

/-- The `select` case that wakes an `rpcCall`; `none` when the call does not get as far as
its wait or is still waiting when the schedule ends. -/
def rpcCallWake (c : connection) (ctx : Context) (t0 t1 : Int) (pickSeqs : Bool)
    (sched : List Sched) (cmd netTimeout : Nat) (args : List Arg) : Option Sched :=
  match awaitSeqNum c (applyTimeout ctx netTimeout t0) t1 pickSeqs with
  | none => none
  | some (a, c1) =>
    match a.err with
    | some _ => none
    | none =>
      let reqID := a.seq % queueSize
      let c2 := c1.setReq reqID { c1.requests reqID with seqNum := a.seq }
      waitWake a.seq reqID sched (packRPC c2 cmd a.seq (milliseconds a.remainingTimeout) args)

/-! ## Write loop (connection.go 323-348) -/

/-- Result of one pass of the write loop: the frames written to the socket, whether the
loop goes on, and the connection afterwards. -/
structure WritePass where
  sent : List OutFrame
  running : Bool
  c : connection

/-- One pass of `writeLoop`.  `pickKick` is the scheduler's choice when both `errCh` and
`wrKick` are ready.  `writeErr` is the outcome of `WriteTo` on an open socket: `none` when
all of the buffer was written, `some (n, e)` when the write failed with `e` after `n`
frames.  `closedErr` is the error `WriteTo` returns at once on a socket that has been
closed.  The loop is started only after a successful dial (connection.go 199), so the
socket is not nil in a pass; the nil case is given the result of the closed one. -/
def writeLoopPass (c : connection) (pickKick : Bool) (writeErr : Option (Nat × Err))
    (closedErr : Err) : WritePass :=
  if c.errCh = true ∧ (c.wrKick = false ∨ pickKick = false) then
    -- case <-c.errCh: return
    ⟨[], false, c⟩
  else if c.wrKick = false then
    -- neither case is ready: the loop stays in its select
    ⟨[], true, c⟩
  else
    -- case <-c.wrKick
    let c1 := { c with wrKick := false }
    if c1.wrBuf.isEmpty then
      match c1.err with
      | none => ⟨[], true, c1⟩
      | some _ => ⟨[], false, c1⟩
    else
      let c2 := { c1 with wrBuf := c1.wrBuf2, wrBuf2 := c1.wrBuf }
      match c2.conn with
      | Sock.isOpen =>
        match writeErr with
        | none => ⟨c2.wrBuf2, true, { c2 with wrBuf2 := [] }⟩
        | some (n, e) =>
          ⟨c2.wrBuf2.take n, false, onError { c2 with wrBuf2 := c2.wrBuf2.drop n } e⟩
      | _ => ⟨[], false, onError c2 closedErr⟩

/-- A step of the connection as a whole: an operation on the request table (the atomic
steps of `rpcCall`, of `rpcCallAsync` and of the read loop, the ticker and `onError`), or
one pass of the write loop. -/
inductive Act where
  | table (o : Op)
  | writePass (pickKick : Bool) (writeErr : Option (Nat × Err)) (closedErr : Err)

/-- The connection with its callers, and the frames written to the socket so far. -/
structure Wire where
  s : Sys
  sent : List OutFrame

def Act.run : Act → Wire → Wire
  | Act.table o, w => { w with s := o.run w.s }
  | Act.writePass pickKick writeErr closedErr, w =>
    let p := writeLoopPass w.s.c pickKick writeErr closedErr
    { s := { w.s with c := p.c }, sent := w.sent ++ p.sent }

def runActs (acts : List Act) (w : Wire) : Wire :=
  acts.foldl (fun w a => a.run w) w

/-! ## Sample values -/

/-- A decoder that takes the error code from the first payload byte (0 is success). -/
def sampleDecoder : Decoder :=
  { errCode := fun b => match b with
      | [] => none
      | x :: _ => if x = 0 then none else some x
    startTS := fun _ => none
    errTimeout := 19
    errCanceled := 20 }

/-- A connection that has dialled: the ticker has started and the socket is open. -/
def dialled : connection :=
  (connect (deadlineTickerStart (initConnection false)) none).2

/-- The connection `dialled` after `rpcCallAsync` registered completion 7 with sequence
number 0 and no deadline. -/
def registeredSample : connection :=
  packRPC (registerAsync { dialled with seqs := (List.range queueSize).tail } 0 0 7) 0 0
    (milliseconds 0) []

/-- A reply frame for sequence number 0 whose one-byte payload is the error code 5. -/
def loginRefused : List Nat :=
  [0x32, 0x11, 0xDD, 0xEE, 0x03, 0x01, 0, 0, 1, 0, 0, 0, 0, 0, 0, 0, 5]

/-- A header with the right magic, version `0x103`, size 0 and sequence number 512000001. -/
def headerSeqBeyond : List Nat :=
  [0x32, 0x11, 0xDD, 0xEE, 0x03, 0x01, 0, 0, 0, 0, 0, 0, 0x01, 0x80, 0x84, 0x1E]

/-- A header with the right magic, version `0x103`, size 2 and sequence number 5. -/
def headerSeqFive : List Nat :=
  [0x32, 0x11, 0xDD, 0xEE, 0x03, 0x01, 0, 0, 2, 0, 0, 0, 5, 0, 0, 0]

/-- A header with a wrong magic. -/
def headerBadMagic : List Nat :=
  [0x00, 0x11, 0xDD, 0xEE, 0x03, 0x01, 0, 0, 2, 0, 0, 0, 5, 0, 0, 0]

/-- A reply frame for sequence number 0 whose one-byte payload is 0. -/
def replySeqZero : List Nat :=
  [0x32, 0x11, 0xDD, 0xEE, 0x03, 0x01, 0, 0, 1, 0, 0, 0, 0, 0, 0, 0, 0]

/-- The connection `dialled` after an `rpcCall` without deadline took sequence number 0,
stamped slot 0, queued its frame and released the slot again. -/
def releasedSample : connection :=
  release
    (packRPC ({ dialled with seqs := (List.range queueSize).tail }.setReq 0
      { dialled.requests 0 with seqNum := 0 }) 0 0 (milliseconds 0) []) 0

/-- The connection `dialled` after an `rpcCallAsync` registered completion 7 with sequence
number 0 and no deadline while the bytes 1, 2 and 3 arrived: one before `awaitSeqNum`, one
before the registration, one before `packRPC`. -/
def racedSample : connection :=
  packRPC
    { registerAsync { dialled with seqs := (List.range queueSize).tail, rdBuf := [1, 2] }
        0 0 7 with rdBuf := [1, 2, 3] }
    0 0 (milliseconds 0) []

/-! # Theorems -/

set_option maxRecDepth 4000

/-! ## Sequence numbers and header checks -/

theorem nextSeqNum_eq (seq : Nat) (h : seq < maxSeqNum) :
    nextSeqNum seq = (seq + queueSize) % maxSeqNum := by
  unfold nextSeqNum
  simp only [maxSeqNum, queueSize, u32] at *
  split <;> omega

theorem nextSeqNum_lt (seq : Nat) (h : seq < maxSeqNum) : nextSeqNum seq < maxSeqNum := by
  rw [nextSeqNum_eq seq h]
  exact Nat.mod_lt _ (by decide)

theorem nextSeqNum_mod (seq : Nat) (h : seq < maxSeqNum) :
    nextSeqNum seq % queueSize = seq % queueSize := by
  rw [nextSeqNum_eq seq h]
  simp only [maxSeqNum, queueSize] at *
  omega

theorem nextSeqNumIter_eq (k seq : Nat) (h : seq < maxSeqNum) :
    nextSeqNumIter k seq = (seq + k * queueSize) % maxSeqNum := by
  induction k generalizing seq with
  | zero => simp [nextSeqNumIter, Nat.mod_eq_of_lt h]
  | succ k ih =>
    rw [nextSeqNumIter, ih _ (nextSeqNum_lt seq h), nextSeqNum_eq seq h]
    rw [Nat.mod_add_mod]
    congr 1
    ring

theorem flag_mask (a : Nat) :
    (a ^^^ cprotoVersionCompressionFlag) &&& cprotoVersionMask = a &&& cprotoVersionMask := by
  apply Nat.eq_of_testBit_eq
  intro i
  have h1 : cprotoVersionMask = 2 ^ 10 - 1 := by decide
  have h2 : cprotoVersionCompressionFlag = 2 ^ 10 := by decide
  rw [h1, h2]
  simp only [Nat.testBit_and, Nat.testBit_xor, Nat.testBit_two_pow_sub_one, Nat.testBit_two_pow]
  by_cases h : i < 10
  · have : ¬ (10 = i) := by omega
    simp [h, this]
  · simp [h]

theorem readFull_append (hdr rest : List Nat) (n : Nat) (h : hdr.length = n) :
    readFull (hdr ++ rest) n = (Except.ok hdr, rest) := by
  subst h
  simp [readFull]

/-- What `readReply` does on a stream that starts with the 16 header bytes `hdr` when the
magic or the version is refused. -/
theorem readReply_reject (c : connection) (hdr rest : List Nat)
    (hlen : hdr.length = cprotoHdrLen) (hrd : c.rdBuf = hdr ++ rest)
    (hbad : field hdr 0 4 ≠ cprotoMagic ∨
      (field hdr 4 2 &&& cprotoVersionMask) < cprotoMinCompatVersion) :
    readReply c =
      (some (if field hdr 0 4 ≠ cprotoMagic then Err.invalidMagic (field hdr 0 4)
             else Err.unsupportedVersion (field hdr 4 2 &&& cprotoVersionMask)),
       { c with rdBuf := rest }) := by
  unfold readReply
  rw [hrd, readFull_append hdr rest _ hlen]
  by_cases hm : field hdr 0 4 ≠ cprotoMagic
  · simp [hm]
  · have hv : (field hdr 4 2 &&& cprotoVersionMask) < cprotoMinCompatVersion := by
      rcases hbad with h | h
      · exact absurd h hm
      · exact h
    simp only [hm, if_false, hv, if_true]

theorem noteSnappy_eq (c : connection) (v : Nat) :
    noteSnappy c v = { c with enableSnappy :=
      if c.enableCompression ∧ v ≥ cprotoMinSnappyVersion then 1 else c.enableSnappy } := by
  unfold noteSnappy
  split <;> rfl

theorem readReply_stale (c : connection) (hdr payload rest : List Nat)
    (hlen : hdr.length = cprotoHdrLen) (hrd : c.rdBuf = hdr ++ payload ++ rest)
    (hmagic : field hdr 0 4 = cprotoMagic)
    (hver : cprotoMinCompatVersion ≤ (field hdr 4 2 &&& cprotoVersionMask))
    (hsize : payload.length = field hdr 8 4)
    (hvalid : seqNumIsValid (field hdr 12 4) = true)
    (hstale : (c.requests (field hdr 12 4 % queueSize)).seqNum ≠ field hdr 12 4) :
    readReply c =
      (none, { noteSnappy c (field hdr 4 2 &&& cprotoVersionMask) with rdBuf := rest }) := by
  unfold readReply
  rw [hrd, List.append_assoc, readFull_append hdr _ _ hlen]
  have hv : ¬ (field hdr 4 2 &&& cprotoVersionMask) < cprotoMinCompatVersion := by omega
  have hdrop : (payload ++ rest).drop (field hdr 8 4) = rest := by rw [← hsize]; simp
  simp only [noteSnappy_eq, hmagic, ne_eq, not_true_eq_false, if_false, hv, hvalid, Bool.not_true,
    hstale, not_false_eq_true, if_true, hdrop]
  trivial
theorem filterMap_update_perm (l : List Nat) (hl : l.Nodup) (i : Nat) (hi : i ∈ l)
    (f g : Nat → Option Nat) (s : Nat) (hfi : f i = some s) (hgi : g i = none)
    (hfg : ∀ j, j ≠ i → g j = f j) : (l.filterMap f).Perm (s :: l.filterMap g) := by
  induction l with
  | nil => cases hi
  | cons a t ih =>
    rw [List.nodup_cons] at hl
    by_cases ha : a = i
    · subst ha
      have ht : t.filterMap g = t.filterMap f := by
        apply List.filterMap_congr
        intro j hj
        exact hfg j (fun h => hl.1 (h ▸ hj))
      rw [List.filterMap_cons_some hfi, List.filterMap_cons_none hgi, ht]
    · have hi' : i ∈ t := by
        rcases List.mem_cons.1 hi with h | h
        · exact absurd h.symm ha
        · exact h
      have ih' := ih hl.2 hi'
      have hga : g a = f a := hfg a ha
      cases hfa : f a with
      | none =>
        rw [List.filterMap_cons_none hfa, List.filterMap_cons_none (hga.trans hfa)]
        exact ih'
      | some b =>
        rw [List.filterMap_cons_some hfa, List.filterMap_cons_some (hga.trans hfa)]
        exact (List.Perm.cons b ih').trans (List.Perm.swap s b _)

theorem filter_update_length (l : List Nat) (hl : l.Nodup) (i : Nat) (hi : i ∈ l)
    (p q : Nat → Bool) (hpi : p i = true) (hqi : q i = false)
    (hpq : ∀ j, j ≠ i → q j = p j) : (l.filter p).length = (l.filter q).length + 1 := by
  induction l with
  | nil => cases hi
  | cons a t ih =>
    rw [List.nodup_cons] at hl
    by_cases ha : a = i
    · subst ha
      have ht : t.filter q = t.filter p := by
        apply List.filter_congr
        intro j hj
        exact hpq j (fun h => hl.1 (h ▸ hj))
      rw [List.filter_cons_of_pos hpi, List.filter_cons_of_neg (by simp [hqi]), ht]
      rfl
    · have hi' : i ∈ t := by
        rcases List.mem_cons.1 hi with h | h
        · exact absurd h.symm ha
        · exact h
      have ih' := ih hl.2 hi'
      have hqa : q a = p a := hpq a ha
      cases hpa : p a with
      | false =>
        rw [List.filter_cons_of_neg (by simp [hpa]), List.filter_cons_of_neg (by simp [hqa, hpa])]
        exact ih'
      | true =>
        rw [List.filter_cons_of_pos hpa, List.filter_cons_of_pos (hqa.trans hpa)]
        simp [ih']

theorem tickSlot_cases (now : Nat) (c : connection) (i : Nat) :
    tickSlot now c i = c ∨ ∃ k, (c.requests i).cmpl = some k ∧ (c.requests i).isAsync ≠ 0 ∧
      seqNumIsValid (c.requests i).seqNum = true ∧ (c.requests i).deadline ≠ 0 ∧
      now ≥ (c.requests i).deadline ∧
      tickSlot now c i = claimSlot c i 0 k (Outcome.failed Err.deadlineExceeded) := by
  unfold tickSlot
  dsimp only
  split
  · left; rfl
  · next hv =>
    split
    · next hg =>
      split
      · next k hc =>
        right
        refine ⟨k, hc, hg.2.2, ?_, hg.1, hg.2.1, rfl⟩
        simpa using hv
      · left; rfl
    · left; rfl

theorem onErrorSlot_cases (e : Err) (c : connection) (i : Nat) :
    onErrorSlot e c i = c ∨ ∃ k, (c.requests i).cmpl = some k ∧ (c.requests i).isAsync ≠ 0 ∧
      onErrorSlot e c i = claimSlot c i (c.requests i).deadline k (Outcome.failed e) := by
  unfold onErrorSlot
  dsimp only
  split
  · next hg =>
    split
    · next k hc => right; exact ⟨k, hc, hg, rfl⟩
    · left; rfl
  · left; rfl

theorem deliverReply_cases (c : connection) (rseq : Nat) (answ : NetBuffer) :
    deliverReply c rseq answ = (none, c) ∨
    deliverReply c rseq answ = (some Err.unexpectedAnswer, c) ∨
    (∃ k, (c.requests (rseq % queueSize)).cmpl = some k ∧
      (c.requests (rseq % queueSize)).isAsync ≠ 0 ∧
      (c.requests (rseq % queueSize)).seqNum = rseq ∧
      deliverReply c rseq answ = (none, claimSlot c (rseq % queueSize)
        (c.requests (rseq % queueSize)).deadline k (Outcome.answer answ))) ∨
    (∃ q, (c.requests (rseq % queueSize)).isAsync = 0 ∧
      (c.requests (rseq % queueSize)).repl = some q ∧
      deliverReply c rseq answ = (none, c.setReq (rseq % queueSize)
        { c.requests (rseq % queueSize) with repl := some (q ++ [⟨rseq, answ⟩]) })) := by
  unfold deliverReply
  dsimp only
  split
  · next hg =>
    split
    · next k hc =>
      split
      · next hs =>
        right; right; left
        refine ⟨k, hc, hg, hs, ?_⟩
        simp only [claimSlot, connection.setReq, hs]
      · left; rfl
    · left; rfl
  · next hg =>
    have hg2 : (c.requests (rseq % queueSize)).isAsync = 0 := by
      by_contra h; exact hg h
    split
    · next q hr => right; right; right; exact ⟨q, hg2, hr, rfl⟩
    · right; left; rfl

/-! ## The table invariant under delivery steps -/

theorem SameTable_refl (c : connection) : SameTable c c :=
  ⟨rfl, rfl, fun _ _ => ⟨rfl, fun _ => ⟨rfl, rfl⟩⟩⟩

theorem Chain_refl (c : connection) : Chain c c := Chain.same c c (SameTable_refl c)

theorem asyncHeld_same (c c2 : connection) (h : SameTable c c2) : asyncHeld c2 = asyncHeld c := by
  unfold asyncHeld
  apply List.filterMap_congr
  intro i hi
  have hi' : i < queueSize := List.mem_range.1 hi
  obtain ⟨hc, hs⟩ := h.2.2 i hi'
  cases hcm : (c.requests i).cmpl with
  | none => simp [hc, hcm]
  | some k =>
    have := hs (by simp [hcm])
    simp [hc, hcm, this.1]

theorem TableInv_same (c c2 : connection) (held : List Nat) (h : SameTable c c2)
    (hinv : TableInv c held) : TableInv c2 held := by
  obtain ⟨h1, h2, h3⟩ := hinv
  refine ⟨?_, ?_, ?_⟩
  · rw [asyncHeld_same c c2 h, h.1]; exact h1
  · rw [h.1]; exact h2
  · intro i hi k hk
    obtain ⟨hc, hs⟩ := h.2.2 i hi
    rw [hc] at hk
    have := hs (by simp [hk])
    rw [this.1, this.2]
    exact h3 i hi k hk

theorem asyncHeld_claim (c : connection) (i d k : Nat) (out : Outcome) (hi : i < queueSize)
    (hk : (c.requests i).cmpl = some k) :
    (asyncHeld c).Perm ((c.requests i).seqNum :: asyncHeld (claimSlot c i d k out)) := by
  unfold asyncHeld
  apply filterMap_update_perm _ (List.nodup_range _) i (List.mem_range.2 hi)
  · simp [hk]
  · simp [claimSlot]
  · intro j hj
    simp [claimSlot, Function.update_noteq hj]

theorem TableInv_claim (c : connection) (held : List Nat) (i d k : Nat) (out : Outcome)
    (hi : i < queueSize) (hk : (c.requests i).cmpl = some k) (hinv : TableInv c held) :
    TableInv (claimSlot c i d k out) held := by
  obtain ⟨h1, h2, h3⟩ := hinv
  obtain ⟨_, hlt, hmod⟩ := h3 i hi k hk
  have hp := asyncHeld_claim c i d k out hi hk
  refine ⟨?_, ?_, ?_⟩
  · refine List.Perm.trans ?_ h1
    have hp2 := hp.map (· % queueSize)
    have hseqs : (claimSlot c i d k out).seqs = c.seqs ++ [nextSeqNum (c.requests i).seqNum] := rfl
    rw [hseqs]
    rw [List.perm_iff_count] at hp2 ⊢
    intro a
    have := hp2 a
    simp only [List.map_append, List.count_append, List.map_cons, List.map_nil, List.count_cons,
      List.count_nil, nextSeqNum_mod _ hlt] at this ⊢
    omega
  · intro x hx
    have hseqs : (claimSlot c i d k out).seqs = c.seqs ++ [nextSeqNum (c.requests i).seqNum] := rfl
    rw [hseqs] at hx
    simp only [List.mem_append, List.mem_singleton] at hx
    rcases hx with (hx | hx) | hx
    · exact h2 x (List.mem_append.2 (Or.inl hx))
    · rw [hx]; exact nextSeqNum_lt _ hlt
    · exact h2 x (List.mem_append.2 (Or.inr hx))
  · intro j hj k2 hk2
    by_cases hji : j = i
    · subst hji
      simp [claimSlot] at hk2
    · have hreq : (claimSlot c i d k out).requests j = c.requests j := by
        simp [claimSlot, Function.update_noteq hji]
      rw [hreq] at hk2 ⊢
      exact h3 j hj k2 hk2

theorem TableInv_chain (c c2 : connection) (held : List Nat) (h : Chain c c2)
    (hinv : TableInv c held) : TableInv c2 held := by
  induction h with
  | same c c2 hs => exact TableInv_same c c2 held hs hinv
  | claim c i d k out hi hk _ => exact TableInv_claim c held i d k out hi hk hinv
  | trans c c2 c3 _ _ ih1 ih2 => exact ih2 (ih1 hinv)

/-- Invocations of `k` plus slots holding `k`. -/
theorem law_same (k : Nat) (c c2 : connection) (h : SameTable c c2) :
    invocations k c2 = invocations k c ∧ pending k c2 = pending k c := by
  refine ⟨by unfold invocations; rw [h.2.1], ?_⟩
  unfold pending
  apply congrArg List.length
  apply List.filter_congr
  intro i hi
  rw [(h.2.2 i (List.mem_range.1 hi)).1]

theorem law_claim (k : Nat) (c : connection) (i d k2 : Nat) (out : Outcome) (hi : i < queueSize)
    (hk : (c.requests i).cmpl = some k2) :
    invocations k (claimSlot c i d k2 out) + pending k (claimSlot c i d k2 out) =
      invocations k c + pending k c ∧ invocations k c ≤ invocations k (claimSlot c i d k2 out) := by
  have hcalls : (claimSlot c i d k2 out).calls = c.calls ++ [⟨k2, out⟩] := rfl
  by_cases hkk : k2 = k
  · subst hkk
    have hp : pending k2 c = pending k2 (claimSlot c i d k2 out) + 1 := by
      unfold pending
      apply filter_update_length _ (List.nodup_range _) i (List.mem_range.2 hi)
      · simp [hk]
      · simp [claimSlot]
      · intro j hj
        simp [claimSlot, Function.update_noteq hj]
    have hi2 : invocations k2 (claimSlot c i d k2 out) = invocations k2 c + 1 := by
      unfold invocations
      rw [hcalls]
      simp [List.filter_append]
    omega
  · have hp : pending k (claimSlot c i d k2 out) = pending k c := by
      unfold pending
      apply congrArg List.length
      apply List.filter_congr
      intro j _
      by_cases hji : j = i
      · subst hji
        simp [claimSlot, hk, hkk]
      · simp [claimSlot, Function.update_noteq hji]
    have hi2 : invocations k (claimSlot c i d k2 out) = invocations k c := by
      unfold invocations
      rw [hcalls]
      simp [List.filter_append, hkk]
    omega

theorem law_chain (k : Nat) (c c2 : connection) (h : Chain c c2) :
    invocations k c2 + pending k c2 = invocations k c + pending k c ∧
      invocations k c ≤ invocations k c2 := by
  induction h with
  | same c c2 hs =>
    obtain ⟨h1, h2⟩ := law_same k c c2 hs
    omega
  | claim c i d k2 out hi hk _ => exact law_claim k c i d k2 out hi hk
  | trans c c2 c3 _ _ ih1 ih2 => omega

/-! ## Delivery functions as chains of steps -/

theorem tickSlot_chain (now : Nat) (c : connection) (i : Nat) (hi : i < queueSize) :
    Chain c (tickSlot now c i) := by
  rcases tickSlot_cases now c i with h | ⟨k, hk, ha, _, _, _, h⟩
  · rw [h]; exact Chain_refl c
  · rw [h]; exact Chain.claim c i 0 k _ hi hk ha

theorem onErrorSlot_chain (e : Err) (c : connection) (i : Nat) (hi : i < queueSize) :
    Chain c (onErrorSlot e c i) := by
  rcases onErrorSlot_cases e c i with h | ⟨k, hk, ha, h⟩
  · rw [h]; exact Chain_refl c
  · rw [h]; exact Chain.claim c i _ k _ hi hk ha

theorem foldl_chain (f : connection → Nat → connection)
    (hf : ∀ c i, i < queueSize → Chain c (f c i)) (l : List Nat) (hl : ∀ i, i ∈ l → i < queueSize)
    (c : connection) : Chain c (l.foldl f c) := by
  induction l generalizing c with
  | nil => exact Chain_refl c
  | cons a t ih =>
    rw [List.foldl_cons]
    exact Chain.trans _ _ _ (hf c a (hl a (List.mem_cons_self a t)))
      (ih (fun i hi => hl i (List.mem_cons_of_mem a hi)) _)

theorem deadlineTick_chain (c : connection) : Chain c (deadlineTick c) := by
  unfold deadlineTick
  split
  · exact Chain_refl c
  · refine Chain.trans _ _ _ (Chain.same c _ ?_)
      (foldl_chain _ (fun c i hi => tickSlot_chain _ c i hi) _ (fun i hi => List.mem_range.1 hi) _)
    exact ⟨rfl, rfl, fun _ _ => ⟨rfl, fun _ => ⟨rfl, rfl⟩⟩⟩

theorem onError_chain (c : connection) (e : Err) : Chain c (onError c e) := by
  unfold onError
  split
  · refine Chain.trans _ _ _ (Chain.same c _ ?_)
      (foldl_chain _ (fun c i hi => onErrorSlot_chain e c i hi) _
        (fun i hi => List.mem_range.1 hi) _)
    exact ⟨rfl, rfl, fun _ _ => ⟨rfl, fun _ => ⟨rfl, rfl⟩⟩⟩
  · exact Chain_refl c

theorem setReq_repl_same (c : connection) (i : Nat) (q : Option (List bufPtr)) :
    SameTable c (c.setReq i { c.requests i with repl := q }) := by
  refine ⟨rfl, rfl, fun j _ => ?_⟩
  by_cases hji : j = i
  · subst hji
    simp [connection.setReq]
  · simp [connection.setReq, Function.update_noteq hji]

theorem deliverReply_chain (c : connection) (rseq : Nat) (answ : NetBuffer) :
    Chain c (deliverReply c rseq answ).2 := by
  have hq : rseq % queueSize < queueSize := Nat.mod_lt _ (by decide)
  rcases deliverReply_cases c rseq answ with h | h | ⟨k, hk, ha, _, h⟩ | ⟨q, _, _, h⟩
  · rw [h]; exact Chain_refl c
  · rw [h]; exact Chain_refl c
  · rw [h]; exact Chain.claim c _ _ k _ hq hk ha
  · rw [h]; exact Chain.same _ _ (setReq_repl_same c _ _)

theorem same_rdBuf (c : connection) (r : List Nat) : SameTable c { c with rdBuf := r } :=
  ⟨rfl, rfl, fun _ _ => ⟨rfl, fun _ => ⟨rfl, rfl⟩⟩⟩

theorem same_noteSnappy (c : connection) (v : Nat) : SameTable c (noteSnappy c v) := by
  rw [noteSnappy_eq]
  exact ⟨rfl, rfl, fun _ _ => ⟨rfl, fun _ => ⟨rfl, rfl⟩⟩⟩

theorem SameTable_trans (c c2 c3 : connection) (h1 : SameTable c c2) (h2 : SameTable c2 c3) :
    SameTable c c3 := by
  refine ⟨h2.1.trans h1.1, h2.2.1.trans h1.2.1, fun i hi => ?_⟩
  obtain ⟨a1, b1⟩ := h1.2.2 i hi
  obtain ⟨a2, b2⟩ := h2.2.2 i hi
  refine ⟨a2.trans a1, fun hne => ?_⟩
  have hb1 := b1 hne
  have hb2 := b2 (by rw [a1]; exact hne)
  exact ⟨hb2.1.trans hb1.1, hb2.2.trans hb1.2⟩

theorem readReply_chain (c : connection) : Chain c (readReply c).2 := by
  unfold readReply
  split
  · exact Chain.same _ _ (same_rdBuf c _)
  · dsimp only
    split
    · exact Chain.same _ _ (same_rdBuf c _)
    · split
      · exact Chain.same _ _ (same_rdBuf c _)
      · have hs : ∀ r v, SameTable c (noteSnappy { c with rdBuf := r } v) := fun r v =>
          SameTable_trans _ _ _ (same_rdBuf c r) (same_noteSnappy _ v)
        split
        · exact Chain.same _ _ (hs _ _)
        · split
          · exact Chain.same _ _ (SameTable_trans _ _ _ (hs _ _) (same_rdBuf _ _))
          · split
            · exact Chain.same _ _ (SameTable_trans _ _ _ (hs _ _) (same_rdBuf _ _))
            · exact Chain.trans _ _ _
                (Chain.same _ _ (SameTable_trans _ _ _ (hs _ _) (same_rdBuf _ _)))
                (deliverReply_chain _ _ _)

theorem readLoopStep_chain (c : connection) : Chain c (readLoopStep c) := by
  unfold readLoopStep
  have h := readReply_chain c
  split
  · next e c1 heq =>
    rw [heq] at h
    exact Chain.trans _ _ _ h (onError_chain c1 e)
  · next c1 heq =>
    rw [heq] at h
    exact h

theorem Delivery_chain (d : Delivery) (c : connection) : Chain c (d.run c) := by
  cases d with
  | arrive bytes => exact Chain.same _ _ (same_rdBuf c _)
  | readLoop => exact readLoopStep_chain c
  | tick => exact deadlineTick_chain c
  | fail e => exact onError_chain c e

theorem runDelivery_chain (steps : List Delivery) (c : connection) :
    Chain c (runDelivery steps c) := by
  induction steps generalizing c with
  | nil => exact Chain_refl c
  | cons d t ih =>
    exact Chain.trans _ _ _ (Delivery_chain d c) (ih _)

/-! ## Acquiring -/

theorem asyncHeld_init (b : Bool) : asyncHeld (initConnection b) = [] := by
  unfold asyncHeld
  rw [List.filterMap_eq_nil_iff]
  intro i _
  rfl

theorem map_mod_range (n : Nat) : (List.range n).map (· % n) = List.range n := by
  conv_rhs => rw [← List.map_id (List.range n)]
  apply List.map_congr_left
  intro i hi
  exact Nat.mod_eq_of_lt (List.mem_range.1 hi)

theorem TableInv_init (b : Bool) : TableInv (initConnection b) [] := by
  refine ⟨?_, ?_, ?_⟩
  · have hseqs : (initConnection b).seqs = List.range queueSize := by
      simp only [initConnection]
    rw [asyncHeld_init, hseqs, List.append_nil, List.append_nil, map_mod_range]
  · intro x hx
    have hseqs : (initConnection b).seqs = List.range queueSize := by
      simp only [initConnection]
    rw [hseqs, List.append_nil] at hx
    have := List.mem_range.1 hx
    simp only [maxSeqNum, queueSize] at *
    omega
  · intro i _ k hk
    cases hk

/-- A caller's sequence number keeps its slot free of completions. -/
theorem held_slot_free (c : connection) (held : List Nat) (hinv : TableInv c held) (seq : Nat)
    (hs : seq ∈ held) : (c.requests (seq % queueSize)).cmpl = none := by
  obtain ⟨h1, _, h3⟩ := hinv
  cases hc : (c.requests (seq % queueSize)).cmpl with
  | none => rfl
  | some k =>
    exfalso
    have hq : seq % queueSize < queueSize := Nat.mod_lt _ (by decide)
    obtain ⟨_, _, hmod⟩ := h3 _ hq k hc
    have hnd : ((c.seqs ++ held ++ asyncHeld c).map (· % queueSize)).Nodup :=
      h1.nodup_iff.2 (List.nodup_range _)
    rw [List.map_append, List.map_append, List.append_assoc] at hnd
    have hnd2 := (List.nodup_append.1 hnd).2.1
    have hdis := (List.nodup_append.1 hnd2).2.2
    have hmem1 : seq % queueSize ∈ held.map (· % queueSize) := List.mem_map.2 ⟨seq, hs, rfl⟩
    have hmem2 : seq % queueSize ∈ (asyncHeld c).map (· % queueSize) := by
      refine List.mem_map.2 ⟨(c.requests (seq % queueSize)).seqNum, ?_, hmod⟩
      unfold asyncHeld
      rw [List.mem_filterMap]
      exact ⟨seq % queueSize, List.mem_range.2 hq, by simp [hc]⟩
    exact hdis hmem1 hmem2

theorem awaitSeqNum_cases (c : connection) (ctx : Context) (now : Int) (pick : Bool)
    (a : Acquired) (c1 : connection) (h : awaitSeqNum c ctx now pick = some (a, c1)) :
    (a.err ≠ none ∧ c1 = c) ∨
    (∃ seq rest, c.seqs = seq :: rest ∧ a.err ≠ none ∧ c1 = { c with seqs := rest ++ [seq] }) ∨
    (∃ rest, c.seqs = a.seq :: rest ∧ a.err = none ∧ ctx.err = none ∧
      c1 = { c with seqs := rest } ∧
      ((ctx.deadline = none ∧ a.remainingTimeout = 0) ∨
       (∃ dl, ctx.deadline = some dl ∧ a.remainingTimeout = dl - now ∧ 0 < dl - now))) := by
  unfold awaitSeqNum at h
  split at h
  · split at h
    · cases h
    · cases h; left; exact ⟨by simp, rfl⟩
  · next seq rest hseqs =>
    split at h
    · next hctx =>
      cases h; left
      refine ⟨?_, rfl⟩
      intro hn
      have hn2 : ctx.err = none := hn
      rw [hn2] at hctx
      simp at hctx
    · dsimp only at h
      split at h
      · cases h; right; left; exact ⟨seq, rest, hseqs, by simp, rfl⟩
      · next hce =>
        split at h
        · next dl hdl =>
          split at h
          · cases h; right; left; exact ⟨seq, rest, hseqs, by simp, rfl⟩
          · next hpos =>
            cases h; right; right
            exact ⟨rest, hseqs, rfl, hce, rfl, Or.inr ⟨dl, hdl, rfl, by omega⟩⟩
        · next hdl =>
          cases h; right; right
          exact ⟨rest, hseqs, rfl, hce, rfl, Or.inl ⟨hdl, rfl⟩⟩

theorem asyncHeld_seqs (c : connection) (l : List Nat) :
    asyncHeld { c with seqs := l } = asyncHeld c := rfl

theorem TableInv_requeue (c : connection) (held : List Nat) (seq : Nat) (rest : List Nat)
    (hs : c.seqs = seq :: rest) (hinv : TableInv c held) :
    TableInv { c with seqs := rest ++ [seq] } held := by
  obtain ⟨h1, h2, h3⟩ := hinv
  refine ⟨?_, ?_, h3⟩
  · refine List.Perm.trans ?_ h1
    rw [asyncHeld_seqs, hs]
    show ((rest ++ [seq] ++ held ++ asyncHeld c).map (· % queueSize)).Perm _
    rw [List.perm_iff_count]
    intro x
    simp only [List.map_append, List.count_append, List.map_cons, List.map_nil, List.count_cons,
      List.count_nil]
    omega
  · intro x hx
    apply h2
    rw [hs]
    have hx2 : x ∈ rest ++ [seq] ++ held := hx
    simp only [List.mem_append, List.mem_singleton, List.mem_cons] at hx2 ⊢
    tauto

theorem TableInv_acquire (c : connection) (held : List Nat) (seq : Nat) (rest : List Nat)
    (hs : c.seqs = seq :: rest) (hinv : TableInv c held) :
    TableInv { c with seqs := rest } (seq :: held) := by
  obtain ⟨h1, h2, h3⟩ := hinv
  refine ⟨?_, ?_, h3⟩
  · refine List.Perm.trans ?_ h1
    rw [asyncHeld_seqs, hs]
    show ((rest ++ (seq :: held) ++ asyncHeld c).map (· % queueSize)).Perm _
    rw [List.perm_iff_count]
    intro x
    simp only [List.map_append, List.count_append, List.map_cons, List.map_nil, List.count_cons,
      List.count_nil]
    omega
  · intro x hx
    apply h2
    rw [hs]
    have hx2 : x ∈ rest ++ (seq :: held) := hx
    simp only [List.mem_append, List.mem_singleton, List.mem_cons] at hx2 ⊢
    tauto

/-! ## Callers -/

theorem same_packRPC (c : connection) (cmd seq : Nat) (t : Int) (args : List Arg) :
    SameTable c (packRPC c cmd seq t args) :=
  ⟨rfl, rfl, fun _ _ => ⟨rfl, fun _ => ⟨rfl, rfl⟩⟩⟩

/-- Stamping a slot that holds no completion leaves the table as it is. -/
theorem same_stamp (c : connection) (i s : Nat) (h : (c.requests i).cmpl = none) :
    SameTable c (c.setReq i { c.requests i with seqNum := s }) := by
  refine ⟨rfl, rfl, fun j _ => ?_⟩
  by_cases hji : j = i
  · subst hji
    simp [connection.setReq, h]
  · simp [connection.setReq, Function.update_noteq hji]

theorem same_recvReply (c : connection) (seq : Nat) : SameTable c (recvReply c seq) := by
  unfold recvReply
  dsimp only
  split
  · exact setReq_repl_same c _ _
  · exact SameTable_refl c

theorem TableInv_seqs_push (c : connection) (held : List Nat) (seq : Nat)
    (hs : seq ∈ held) (hinv : TableInv c held) :
    TableInv { c with seqs := c.seqs ++ [nextSeqNum seq] } (held.erase seq) := by
  obtain ⟨h1, h2, h3⟩ := hinv
  have hlt : seq < maxSeqNum := h2 seq (List.mem_append.2 (Or.inr hs))
  have hp : held.Perm (seq :: held.erase seq) := List.perm_cons_erase hs
  refine ⟨?_, ?_, h3⟩
  · refine List.Perm.trans ?_ h1
    rw [asyncHeld_seqs]
    have hp2 := hp.map (· % queueSize)
    show ((c.seqs ++ [nextSeqNum seq] ++ held.erase seq ++ asyncHeld c).map
      (· % queueSize)).Perm _
    rw [List.perm_iff_count] at hp2 ⊢
    intro x
    have := hp2 x
    simp only [List.map_append, List.count_append, List.map_cons, List.map_nil, List.count_cons,
      List.count_nil, nextSeqNum_mod _ hlt] at this ⊢
    omega
  · intro x hx
    have hx2 : x ∈ c.seqs ++ [nextSeqNum seq] ++ held.erase seq := hx
    simp only [List.mem_append, List.mem_singleton] at hx2
    rcases hx2 with (hx2 | hx2) | hx2
    · exact h2 x (List.mem_append.2 (Or.inl hx2))
    · rw [hx2]; exact nextSeqNum_lt _ hlt
    · exact h2 x (List.mem_append.2 (Or.inr (List.mem_of_mem_erase hx2)))

theorem same_release_table (c : connection) (seq : Nat)
    (h : (c.requests (seq % queueSize)).cmpl = none) :
    ∃ c2, SameTable c c2 ∧ release c seq = { c2 with seqs := c2.seqs ++ [nextSeqNum seq] } := by
  unfold release
  dsimp only
  have h1 := same_stamp c (seq % queueSize) maxSeqNum h
  split
  · exact ⟨_, SameTable_trans _ _ _ h1 (setReq_repl_same _ _ _), rfl⟩
  · exact ⟨_, h1, rfl⟩

theorem TableInv_release (c : connection) (held : List Nat) (seq : Nat)
    (hs : seq ∈ held) (hinv : TableInv c held) :
    TableInv (release c seq) (held.erase seq) := by
  obtain ⟨c2, hsame, heq⟩ := same_release_table c seq (held_slot_free c held hinv seq hs)
  rw [heq]
  exact TableInv_seqs_push c2 held seq hs (TableInv_same c c2 held hsame hinv)

theorem asyncHeld_register (c : connection) (seq : Nat) (timeout : Int) (k : Nat)
    (h : (c.requests (seq % queueSize)).cmpl = none) :
    (asyncHeld (registerAsync c seq timeout k)).Perm (seq :: asyncHeld c) := by
  unfold asyncHeld
  apply filterMap_update_perm _ (List.nodup_range _) (seq % queueSize)
    (List.mem_range.2 (Nat.mod_lt _ (by decide)))
  · simp [registerAsync, connection.setReq]
  · simp [h]
  · intro j hj
    simp [registerAsync, connection.setReq, Function.update_noteq hj]

theorem TableInv_register (c : connection) (held : List Nat) (seq : Nat) (timeout : Int)
    (k : Nat) (hs : seq ∈ held) (hinv : TableInv c held) :
    TableInv (registerAsync c seq timeout k) (held.erase seq) := by
  have hfree := held_slot_free c held hinv seq hs
  obtain ⟨h1, h2, h3⟩ := hinv
  have hlt : seq < maxSeqNum := h2 seq (List.mem_append.2 (Or.inr hs))
  have hp : held.Perm (seq :: held.erase seq) := List.perm_cons_erase hs
  have ha := asyncHeld_register c seq timeout k hfree
  have hseqs : (registerAsync c seq timeout k).seqs = c.seqs := rfl
  refine ⟨?_, ?_, ?_⟩
  · refine List.Perm.trans ?_ h1
    have hp2 := hp.map (· % queueSize)
    have ha2 := ha.map (· % queueSize)
    rw [hseqs]
    rw [List.perm_iff_count] at hp2 ha2 ⊢
    intro x
    have e1 := hp2 x
    have e2 := ha2 x
    simp only [List.map_append, List.count_append, List.map_cons, List.map_nil, List.count_cons,
      List.count_nil] at e1 e2 ⊢
    omega
  · intro x hx
    rw [hseqs] at hx
    rcases List.mem_append.1 hx with hx2 | hx2
    · exact h2 x (List.mem_append.2 (Or.inl hx2))
    · exact h2 x (List.mem_append.2 (Or.inr (List.mem_of_mem_erase hx2)))
  · intro j hj k2 hk2
    by_cases hji : j = seq % queueSize
    · subst hji
      have hr : (registerAsync c seq timeout k).requests (seq % queueSize) =
          { c.requests (seq % queueSize) with
            cmpl := some k
            deadline := if timeout = 0 then 0 else (c.now + secondsU32 timeout) % u32
            isAsync := 1
            seqNum := seq } := by
        simp [registerAsync, connection.setReq]
      rw [hr]
      refine ⟨?_, hlt, rfl⟩
      show (1 : Int) ≠ 0
      decide
    · have hreq : (registerAsync c seq timeout k).requests j = c.requests j := by
        simp [registerAsync, connection.setReq, Function.update_noteq hji]
      rw [hreq] at hk2 ⊢
      exact h3 j hj k2 hk2

theorem TableInv_op (op : Op) (s : Sys) (hinv : TableInv s.c s.held) :
    TableInv (op.run s).c (op.run s).held := by
  cases op with
  | acquire ctx now pick =>
    simp only [Op.run]
    split
    · exact hinv
    · next a c1 heq =>
      rcases awaitSeqNum_cases _ _ _ _ _ _ heq with ⟨he, hc⟩ | ⟨seq, rest, hs, he, hc⟩ |
        ⟨rest, hs, he, _, hc, _⟩
      · split
        · rw [hc]; exact hinv
        · next hn => exact absurd hn he
      · split
        · rw [hc]; exact TableInv_requeue _ _ _ _ hs hinv
        · next hn => exact absurd hn he
      · split
        · next e hn => rw [he] at hn; cases hn
        · rw [hc]; exact TableInv_acquire _ _ _ _ hs hinv
  | stampSync seq cmd t args =>
    simp only [Op.run]
    split
    · next hs =>
      exact TableInv_same _ _ _ (SameTable_trans _ _ _
        (same_stamp s.c _ seq (held_slot_free _ _ hinv seq hs)) (same_packRPC _ _ _ _ _)) hinv
    · exact hinv
  | recvSync seq =>
    simp only [Op.run]
    split
    · exact TableInv_same _ _ _ (same_recvReply s.c seq) hinv
    · exact hinv
  | releaseSync seq =>
    simp only [Op.run]
    split
    · next hs => exact TableInv_release _ _ _ hs hinv
    · exact hinv
  | registerAsync seq timeout k cmd args =>
    simp only [Op.run]
    split
    · next hs =>
      exact TableInv_same _ _ _ (same_packRPC _ _ _ _ _)
        (TableInv_register _ _ _ timeout k hs hinv)
    · exact hinv
  | arrive bytes => exact TableInv_same _ _ _ (same_rdBuf s.c _) hinv
  | readLoop => exact TableInv_chain _ _ _ (readLoopStep_chain s.c) hinv
  | tick => exact TableInv_chain _ _ _ (deadlineTick_chain s.c) hinv
  | fail e => exact TableInv_chain _ _ _ (onError_chain s.c e) hinv

theorem TableInv_runOps (ops : List Op) (s : Sys) (hinv : TableInv s.c s.held) :
    TableInv (runOps ops s).c (runOps ops s).held := by
  induction ops generalizing s with
  | nil => exact hinv
  | cons op t ih => exact ih (op.run s) (TableInv_op op s hinv)

/-! ## Completions are delivered once -/

/-- A loop over the slots reaches slot `i`: when the steps for other slots leave slot `i`
alone, the step for slot `i` establishes `R` under the guard `G`, and `R` is stable, the
whole loop establishes `R`. -/
theorem foldl_reaches (f : connection → Nat → connection) (i : Nat)
    (G : requestInfo → Prop) (R : connection → Prop)
    (h1 : ∀ c j, j ≠ i → (f c j).requests i = c.requests i)
    (h2 : ∀ c, G (c.requests i) → R (f c i))
    (h3 : ∀ c j, R c → R (f c j))
    (l : List Nat) (hi : i ∈ l) (c : connection) (hG : G (c.requests i)) :
    R (l.foldl f c) := by
  have stable : ∀ (t : List Nat) (c : connection), R c → R (t.foldl f c) := by
    intro t
    induction t with
    | nil => intro c h; exact h
    | cons a t ih => intro c h; exact ih _ (h3 c a h)
  induction l generalizing c with
  | nil => cases hi
  | cons a t ih =>
    rw [List.foldl_cons]
    by_cases ha : a = i
    · subst ha
      exact stable t _ (h2 c hG)
    · have hi2 : i ∈ t := by
        rcases List.mem_cons.1 hi with h | h
        · exact absurd h.symm ha
        · exact h
      exact ih hi2 _ (by rw [h1 c a ha]; exact hG)

theorem claimSlot_other (c : connection) (i d k : Nat) (out : Outcome) (j : Nat) (h : j ≠ i) :
    (claimSlot c i d k out).requests j = c.requests j := by
  simp [claimSlot, Function.update_noteq h]

theorem claimSlot_cmpl (c : connection) (i d k : Nat) (out : Outcome) :
    ((claimSlot c i d k out).requests i).cmpl = none := by
  simp [claimSlot]

theorem onErrorSlot_other (e : Err) (c : connection) (j i : Nat) (h : i ≠ j) :
    (onErrorSlot e c j).requests i = c.requests i := by
  rcases onErrorSlot_cases e c j with h1 | ⟨k, _, _, h1⟩
  · rw [h1]
  · rw [h1]; exact claimSlot_other c j _ k _ i h

theorem tickSlot_other (now : Nat) (c : connection) (j i : Nat) (h : i ≠ j) :
    (tickSlot now c j).requests i = c.requests i := by
  rcases tickSlot_cases now c j with h1 | ⟨k, _, _, _, _, _, h1⟩
  · rw [h1]
  · rw [h1]; exact claimSlot_other c j _ k _ i h

/-- After `onErrorSlot` has visited slot `i`, the slot holds no completion that was marked
asynchronous. -/
theorem onErrorSlot_clears (e : Err) (k : Nat) (c : connection) (i : Nat)
    (h : (c.requests i).cmpl = some k → (c.requests i).isAsync ≠ 0) :
    ((onErrorSlot e c i).requests i).cmpl ≠ some k := by
  rcases onErrorSlot_cases e c i with h1 | ⟨k2, _, _, h1⟩
  · rw [h1]
    intro hk
    have ha := h hk
    unfold onErrorSlot at h1
    simp only [ne_eq, ha, not_false_eq_true, if_true, hk] at h1
    have hc := congrArg (fun x => (x.requests i).cmpl) h1
    simp [connection.setReq, hk] at hc
  · rw [h1, claimSlot_cmpl]; simp

theorem onErrorSlot_keeps (e : Err) (k : Nat) (c : connection) (i j : Nat)
    (h : (c.requests i).cmpl ≠ some k) : ((onErrorSlot e c j).requests i).cmpl ≠ some k := by
  by_cases hij : i = j
  · subst hij
    rcases onErrorSlot_cases e c i with h1 | ⟨k2, _, _, h1⟩
    · rw [h1]; exact h
    · rw [h1, claimSlot_cmpl]; simp
  · rw [onErrorSlot_other e c j i hij]; exact h

theorem onError_clears (c : connection) (e : Err) (k : Nat) (hc : c.err = none)
    (hk : ∀ i, i < queueSize → (c.requests i).cmpl = some k → (c.requests i).isAsync ≠ 0) :
    pending k (onError c e) = 0 := by
  unfold pending
  rw [List.length_eq_zero, List.filter_eq_nil_iff]
  intro i hi
  have hi2 := List.mem_range.1 hi
  simp only [decide_eq_true_eq]
  unfold onError
  simp only [hc]
  exact foldl_reaches (onErrorSlot e) i
    (fun r => r.cmpl = some k → r.isAsync ≠ 0) (fun c => (c.requests i).cmpl ≠ some k)
    (fun c j hj => onErrorSlot_other e c j i (Ne.symm hj))
    (fun c h => onErrorSlot_clears e k c i h)
    (fun c j h => onErrorSlot_keeps e k c i j h)
    (List.range queueSize) hi _ (hk i hi2)

theorem MarkedAsync_chain (k : Nat) (c c2 : connection) (h : Chain c c2)
    (hm : MarkedAsync k c) : MarkedAsync k c2 := by
  induction h with
  | same c c2 hs =>
    intro i hi hk
    obtain ⟨a, b⟩ := hs.2.2 i hi
    rw [a] at hk
    rw [(b (by simp [hk])).2]
    exact hm i hi hk
  | claim c i d k2 out hi hk2 _ =>
    intro j hj hk
    by_cases hji : j = i
    · subst hji
      rw [claimSlot_cmpl] at hk; cases hk
    · rw [claimSlot_other c i d k2 out j hji] at hk ⊢
      exact hm j hj hk
  | trans c c2 c3 _ _ ih1 ih2 => exact ih2 (ih1 hm)

theorem pending_zero (k : Nat) (c : connection) (h : pending k c = 0) (i : Nat)
    (hi : i < queueSize) : (c.requests i).cmpl ≠ some k := by
  unfold pending at h
  rw [List.length_eq_zero, List.filter_eq_nil_iff] at h
  simpa using h i (List.mem_range.2 hi)

theorem pending_register (k : Nat) (c : connection) (seq : Nat) (timeout : Int)
    (h : pending k c = 0) : pending k (registerAsync c seq timeout k) = 1 := by
  have hq : seq % queueSize < queueSize := Nat.mod_lt _ (by decide)
  have := filter_update_length (List.range queueSize) (List.nodup_range _) (seq % queueSize)
    (List.mem_range.2 hq)
    (fun i => decide (((registerAsync c seq timeout k).requests i).cmpl = some k))
    (fun i => decide ((c.requests i).cmpl = some k))
    (by simp [registerAsync, connection.setReq])
    (by simpa using pending_zero k c h _ hq)
    (by
      intro j hj
      simp [registerAsync, connection.setReq, Function.update_noteq hj])
  unfold pending at h ⊢
  rw [this, h]

theorem invocations_push (k k2 : Nat) (c : connection) (out : Outcome) :
    invocations k { c with calls := c.calls ++ [⟨k2, out⟩] } =
      invocations k c + (if k2 = k then 1 else 0) := by
  unfold invocations
  by_cases h : k2 = k <;> simp [List.filter_append, h]

/-- What `rpcCallAsync` leaves: the completion was called once with an error, or it sits in
exactly one slot, marked asynchronous. -/
theorem rpcCallAsync_law (c0 c : connection) (ctx : Context) (t0 t1 : Int) (pick : Bool)
    (cmd nt k : Nat) (args : List Arg)
    (hfresh : invocations k c0 = 0 ∧ pending k c0 = 0)
    (hcall : rpcCallAsync c0 ctx t0 t1 pick cmd nt k args = some c) :
    invocations k c + pending k c = 1 ∧ MarkedAsync k c := by
  have hnone : ∀ c1 : connection, c1.requests = c0.requests → pending k c1 = 0 := by
    intro c1 h; unfold pending at *; rw [h]; exact hfresh.2
  have hfail : ∀ (c1 : connection) (e : Err), c1.requests = c0.requests → c1.calls = c0.calls →
      invocations k { c1 with calls := c1.calls ++ [⟨k, Outcome.failed e⟩] } +
        pending k { c1 with calls := c1.calls ++ [⟨k, Outcome.failed e⟩] } = 1 ∧
      MarkedAsync k { c1 with calls := c1.calls ++ [⟨k, Outcome.failed e⟩] } := by
    intro c1 e hr hcl
    have hp : pending k { c1 with calls := c1.calls ++ [⟨k, Outcome.failed e⟩] } = 0 :=
      hnone _ hr
    have hi : invocations k c1 = 0 := by unfold invocations at *; rw [hcl]; exact hfresh.1
    refine ⟨?_, ?_⟩
    · rw [invocations_push, hp, hi]; simp
    · intro i hi hk
      exact absurd hk (pending_zero k _ hp i hi)
  unfold rpcCallAsync at hcall
  split at hcall
  · cases hcall
    exact hfail c0 _ rfl rfl
  · dsimp only at hcall
    split at hcall
    · cases hcall
    · next a c1 heq =>
      have hc1 : c1.requests = c0.requests ∧ c1.calls = c0.calls := by
        rcases awaitSeqNum_cases _ _ _ _ _ _ heq with ⟨_, hc⟩ | ⟨_, _, _, _, hc⟩ |
          ⟨_, _, _, _, hc, _⟩ <;> rw [hc] <;> exact ⟨rfl, rfl⟩
      split at hcall
      · cases hcall
        exact hfail c1 _ hc1.1 hc1.2
      · cases hcall
        have hp1 : pending k c1 = 0 := hnone c1 hc1.1
        have hi1 : invocations k c1 = 0 := by
          unfold invocations at *; rw [hc1.2]; exact hfresh.1
        have hsame := same_packRPC (registerAsync c1 a.seq a.remainingTimeout k) cmd a.seq
          (milliseconds a.remainingTimeout) args
        obtain ⟨e1, e2⟩ := law_same k _ _ hsame
        have hreg := pending_register k c1 a.seq a.remainingTimeout hp1
        have hinv : invocations k (registerAsync c1 a.seq a.remainingTimeout k) = 0 := hi1
        refine ⟨by rw [e1, e2, hreg, hinv], ?_⟩
        apply MarkedAsync_chain k _ _ (Chain.same _ _ hsame)
        intro i hi hk
        by_cases hji : i = a.seq % queueSize
        · subst hji
          simp [registerAsync, connection.setReq]
        · have hreq : (registerAsync c1 a.seq a.remainingTimeout k).requests i = c1.requests i := by
            simp [registerAsync, connection.setReq, Function.update_noteq hji]
          rw [hreq] at hk
          exact absurd hk (pending_zero k c1 hp1 i hi)

theorem runDelivery_append (s1 s2 : List Delivery) (c : connection) :
    runDelivery (s1 ++ s2) c = runDelivery s2 (runDelivery s1 c) := by
  unfold runDelivery
  rw [List.foldl_append]

/-! ## The ticker -/

theorem foldl_inv (f : connection → Nat → connection) (P : connection → Prop)
    (hP : ∀ c j, P c → P (f c j)) (l : List Nat) (c : connection) (h : P c) :
    P (l.foldl f c) := by
  induction l generalizing c with
  | nil => exact h
  | cons a t ih => exact ih _ (hP c a h)

theorem head_append (l : List Nat) (x s : Nat) (h : l.head? = some s) :
    (l ++ [x]).head? = some s := by
  cases l with
  | nil => cases h
  | cons a t => exact h

theorem tickSlot_serving (n seq now : Nat) (c : connection) (i : Nat) (h : Serving n seq c) :
    Serving n seq (tickSlot now c i) := by
  rcases tickSlot_cases now c i with h1 | ⟨k, _, _, _, _, _, h1⟩
  · rw [h1]; exact h
  · rw [h1]
    obtain ⟨a, b, d, e, g⟩ := h
    exact ⟨a, b, d, e, head_append _ _ _ g⟩

theorem deadlineTick_running (c : connection) (h1 : c.errCh = false) (h2 : c.termCh = false) :
    deadlineTick c = (List.range queueSize).foldl
      (tickSlot ((c.now + deadlineCheckPeriodSec) % u32))
      { c with now := (c.now + deadlineCheckPeriodSec) % u32 } := by
  unfold deadlineTick
  simp [h1, h2]

theorem deadlineTick_serving (n seq : Nat) (c : connection) (h : Serving n seq c)
    (hn : n + 1 < u32) : Serving (n + 1) seq (deadlineTick c) := by
  rw [deadlineTick_running c h.2.1 h.2.2.1]
  apply foldl_inv _ _ (fun c j hc => tickSlot_serving (n + 1) seq _ c j hc)
  obtain ⟨a, b, d, e, g⟩ := h
  refine ⟨a, b, d, ?_, g⟩
  show (c.now + deadlineCheckPeriodSec) % u32 = n + 1
  rw [e]
  exact Nat.mod_eq_of_lt hn

theorem runTicks_serving (m n seq : Nat) (c : connection) (h : Serving n seq c)
    (hn : n + m < u32) : Serving (n + m) seq (runTicks m c) := by
  induction m generalizing n c with
  | zero => exact h
  | succ m ih =>
    rw [runTicks]
    have := ih (n + 1) (deadlineTick c) (deadlineTick_serving n seq c h (by omega)) (by omega)
    rw [show n + (m + 1) = n + 1 + m by omega]
    exact this

theorem runTicks_chain (m : Nat) (c : connection) : Chain c (runTicks m c) := by
  induction m generalizing c with
  | zero => exact Chain_refl c
  | succ m ih => exact Chain.trans _ _ _ (deadlineTick_chain c) (ih _)

theorem tickSlot_calls (now : Nat) (c : connection) (j : Nat) (x : Invocation)
    (h : x ∈ c.calls) : x ∈ (tickSlot now c j).calls := by
  rcases tickSlot_cases now c j with h1 | ⟨k, _, _, _, _, _, h1⟩
  · rw [h1]; exact h
  · rw [h1]; exact List.mem_append.2 (Or.inl h)

theorem deadlineTick_calls (c : connection) (x : Invocation) (h : x ∈ c.calls) :
    x ∈ (deadlineTick c).calls := by
  unfold deadlineTick
  split
  · exact h
  · exact foldl_inv _ (fun c => x ∈ c.calls) (fun c j hc => tickSlot_calls _ c j x hc) _ _ h

theorem runTicks_calls (m : Nat) (c : connection) (x : Invocation) (h : x ∈ c.calls) :
    x ∈ (runTicks m c).calls := by
  induction m generalizing c with
  | zero => exact h
  | succ m ih => exact ih _ (deadlineTick_calls c x h)

theorem tickSlot_delivers (now : Nat) (c : connection) (i k : Nat)
    (hG : (c.requests i).cmpl = some k ∧ (c.requests i).isAsync ≠ 0 ∧
      seqNumIsValid (c.requests i).seqNum = true ∧ (c.requests i).deadline ≠ 0 ∧
      (c.requests i).deadline ≤ now) :
    ⟨k, Outcome.failed Err.deadlineExceeded⟩ ∈ (tickSlot now c i).calls := by
  obtain ⟨gk, ga, gv, gd, gn⟩ := hG
  rcases tickSlot_cases now c i with h | ⟨k2, hk2, _, _, _, _, h⟩
  · exfalso
    have hc := congrArg (fun x => (x.requests i).cmpl) h
    unfold tickSlot at hc
    simp [gv, gd, gn, ga, gk, connection.setReq] at hc
  · rw [h]
    rw [gk] at hk2
    cases hk2
    exact List.mem_append.2 (Or.inr (List.mem_singleton.2 rfl))

theorem tickFold_delivers (now : Nat) (l : List Nat) (c : connection) (i k : Nat) (hi : i ∈ l)
    (hG : (c.requests i).cmpl = some k ∧ (c.requests i).isAsync ≠ 0 ∧
      seqNumIsValid (c.requests i).seqNum = true ∧ (c.requests i).deadline ≠ 0 ∧
      (c.requests i).deadline ≤ now) :
    ⟨k, Outcome.failed Err.deadlineExceeded⟩ ∈ (l.foldl (tickSlot now) c).calls :=
  foldl_reaches (tickSlot now) i
    (fun r => r.cmpl = some k ∧ r.isAsync ≠ 0 ∧ seqNumIsValid r.seqNum = true ∧ r.deadline ≠ 0 ∧
      r.deadline ≤ now)
    (fun c => ⟨k, Outcome.failed Err.deadlineExceeded⟩ ∈ c.calls)
    (fun c j hj => tickSlot_other _ c j i (Ne.symm hj))
    (fun c h => tickSlot_delivers now c i k h)
    (fun c j h => tickSlot_calls _ c j _ h) l hi c hG

/-- A running ticker expires a slot whose guard holds. -/
theorem deadlineTick_delivers (c : connection) (i k : Nat) (hi : i < queueSize)
    (h1 : c.errCh = false) (h2 : c.termCh = false)
    (hk : (c.requests i).cmpl = some k) (ha : (c.requests i).isAsync ≠ 0)
    (hv : seqNumIsValid (c.requests i).seqNum = true) (hd : (c.requests i).deadline ≠ 0)
    (hnow : (c.requests i).deadline ≤ (c.now + deadlineCheckPeriodSec) % u32) :
    ⟨k, Outcome.failed Err.deadlineExceeded⟩ ∈ (deadlineTick c).calls := by
  rw [deadlineTick_running c h1 h2]
  exact tickFold_delivers _ _ _ i k (List.mem_range.2 hi) ⟨hk, ha, hv, hd, hnow⟩

theorem secondsU32_le (r : Int) (h0 : 0 < r) (h1 : r ≤ second) : secondsU32 r ≤ 1 := by
  unfold secondsU32
  have h2 : (r / second).toNat ≤ 1 := by
    unfold second at *
    omega
  exact le_trans (Nat.mod_le _ _) h2

/-! ## Deadline of an asynchronous call -/

theorem rpcCallAsync_registers (c : connection) (seq : Nat) (rest : List Nat) (t0 t1 : Int)
    (pick : Bool) (cmd k : Nat) (args : List Arg) (herr : c.err = none)
    (hseqs : c.seqs = seq :: rest) (ht : t1 < t0 + second) :
    rpcCallAsync c ⟨none, none⟩ t0 t1 pick cmd 1 k args =
      some (packRPC (registerAsync { c with seqs := rest } seq (t0 + second - t1) k) cmd seq
        (milliseconds (t0 + second - t1)) args) := by
  have hpos : ¬ (t0 + second - t1 ≤ 0) := by omega
  have hsec : ¬ (second ≤ 0) := by unfold second; omega
  unfold rpcCallAsync
  simp only [herr, applyTimeout, withTimeout, awaitSeqNum, hseqs]
  simp [hpos, hsec]

theorem invocations_pos (k : Nat) (c : connection) (out : Outcome)
    (h : (⟨k, out⟩ : Invocation) ∈ c.calls) : 0 < invocations k c := by
  unfold invocations
  rw [List.length_pos]
  intro hnil
  rw [List.filter_eq_nil_iff] at hnil
  have := hnil _ h
  simp at this

theorem head_cons (l : List Nat) (s : Nat) (h : l.head? = some s) : ∃ rest, l = s :: rest := by
  cases l with
  | nil => cases h
  | cons a t =>
    simp only [List.head?_cons, Option.some.injEq] at h
    exact ⟨t, by rw [h]⟩

/-- The deadline `rpcCallAsync` stores for a one-second timeout: the coarse clock plus the
whole seconds of what remains of the timeout. -/
theorem rpcCallAsync_deadline (c : connection) (n seq : Nat) (t0 t1 : Int) (pick : Bool)
    (cmd k : Nat) (args : List Arg) (hs : Serving n seq c) (ht1 : t1 < t0 + second) :
    ∃ c1, rpcCallAsync c ⟨none, none⟩ t0 t1 pick cmd 1 k args = some c1 ∧ c1.now = n ∧
      (c1.requests (seq % queueSize)).deadline = (n + secondsU32 (t0 + second - t1)) % u32 := by
  obtain ⟨rest, hrest⟩ := head_cons _ _ hs.2.2.2.2
  have hr : t0 + second - t1 ≠ 0 := by omega
  refine ⟨_, rpcCallAsync_registers c seq rest t0 t1 pick cmd k args hs.1 hrest ht1,
    hs.2.2.2.1, ?_⟩
  simp [packRPC, write, registerAsync, connection.setReq, hr, hs.2.2.2.1]

/-- Asynchronous call with a one-second timeout on a silent connection: the completion is
not called before the first tick after the call and is called with `DeadlineExceeded` from
that tick on. -/
theorem silentAsyncCall_delivery (c : connection) (n seq : Nat) (t0 t1 : Int) (cmd k : Nat)
    (args : List Arg) (hs : Serving n seq c) (hn : 1 ≤ n) (hvalid : seq < maxSeqNum)
    (hfresh : invocations k c = 0 ∧ pending k c = 0)
    (ht : t0 ≤ t1) (ht1 : t1 < t0 + second) (hwrap : n + ticksBy t1 + 1 < u32) (t : Int) :
    (silentAsyncCall c t0 t1 t cmd k args).map (timedOut k) =
      some (decide (ticksBy t1 < ticksBy t)) := by
  have hs2 := runTicks_serving (ticksBy t1) n seq c hs (by omega)
  obtain ⟨rest, hrest⟩ := head_cons _ _ hs2.2.2.2.2
  have hreg := rpcCallAsync_registers (runTicks (ticksBy t1) c) seq rest t0 t1 true cmd k args
    hs2.1 hrest ht1
  have hlaw := (law_chain k c _ (runTicks_chain (ticksBy t1) c)).1
  have hinv0 : invocations k (runTicks (ticksBy t1) c) = 0 := by omega
  unfold silentAsyncCall
  rw [hreg, Option.map_some', Option.map_some']
  refine congrArg some ?_
  generalize hc1 : packRPC (registerAsync { runTicks (ticksBy t1) c with seqs := rest } seq
    (t0 + second - t1) k) cmd seq (milliseconds (t0 + second - t1)) args = c1
  have hq : seq % queueSize < queueSize := Nat.mod_lt _ (by decide)
  have hr : t0 + second - t1 ≠ 0 := by omega
  have hslot : c1.requests (seq % queueSize) =
      { (runTicks (ticksBy t1) c).requests (seq % queueSize) with
        cmpl := some k
        deadline := (n + ticksBy t1 + secondsU32 (t0 + second - t1)) % u32
        isAsync := 1
        seqNum := seq } := by
    rw [← hc1]
    simp [packRPC, write, registerAsync, connection.setReq, hr, hs2.2.2.2.1]
  have hcalls : c1.calls = (runTicks (ticksBy t1) c).calls := by rw [← hc1]; rfl
  have herrCh : c1.errCh = false := by rw [← hc1]; exact hs2.2.1
  have htermCh : c1.termCh = false := by rw [← hc1]; exact hs2.2.2.1
  have hnow : c1.now = n + ticksBy t1 := by rw [← hc1]; exact hs2.2.2.2.1
  have hsec := secondsU32_le (t0 + second - t1) (by omega) (by omega)
  by_cases hlt : ticksBy t1 < ticksBy t
  · simp only [hlt, decide_True]
    unfold timedOut
    rw [decide_eq_true_eq]
    obtain ⟨m, hm⟩ : ∃ m, ticksBy t - ticksBy t1 = m + 1 := ⟨ticksBy t - ticksBy t1 - 1, by omega⟩
    rw [hm, runTicks]
    apply runTicks_calls
    apply deadlineTick_delivers c1 (seq % queueSize) k hq herrCh htermCh
    · rw [hslot]
    · rw [hslot]; show (1 : Int) ≠ 0; decide
    · rw [hslot]; simp [seqNumIsValid, hvalid]
    · rw [hslot]
      show (n + ticksBy t1 + secondsU32 (t0 + second - t1)) % u32 ≠ 0
      rw [Nat.mod_eq_of_lt (by omega)]
      omega
    · rw [hslot, hnow]
      show (n + ticksBy t1 + secondsU32 (t0 + second - t1)) % u32 ≤
        (n + ticksBy t1 + deadlineCheckPeriodSec) % u32
      rw [Nat.mod_eq_of_lt (by omega), Nat.mod_eq_of_lt (by unfold deadlineCheckPeriodSec; omega)]
      unfold deadlineCheckPeriodSec
      omega
  · simp only [hlt, decide_False]
    have hm : ticksBy t - ticksBy t1 = 0 := by omega
    rw [hm, runTicks]
    unfold timedOut
    rw [decide_eq_false_iff_not]
    intro hmem
    rw [hcalls] at hmem
    have := invocations_pos k _ _ hmem
    omega

theorem tick_after (t1 : Int) (h : 0 ≤ t1) :
    t1 < tickTime (ticksBy t1 + 1) ∧ tickTime (ticksBy t1 + 1) ≤ t1 + second := by
  unfold tickTime ticksBy second deadlineCheckPeriodSec
  constructor <;> omega

/-! ## Sticky error -/

theorem rpcCallAsync_sticky (c : connection) (e : Err) (herr : c.err = some e) (ctx : Context)
    (t0 t1 : Int) (pick : Bool) (cmd nt k : Nat) (args : List Arg) :
    rpcCallAsync c ctx t0 t1 pick cmd nt k args =
      some { c with calls := c.calls ++ [⟨k, Outcome.failed e⟩] } := by
  unfold rpcCallAsync
  simp only [herr]

theorem awaitSeqNum_live (c : connection) (ctx : Context) (now : Int) (pick : Bool)
    (seq : Nat) (rest : List Nat) (hseqs : c.seqs = seq :: rest) (hctx : ctx.err = none)
    (hdl : ∀ dl, ctx.deadline = some dl → now < dl) :
    ∃ r, awaitSeqNum c ctx now pick = some (⟨seq, r, none⟩, { c with seqs := rest }) := by
  unfold awaitSeqNum
  simp only [hseqs, hctx]
  cases hd : ctx.deadline with
  | none => exact ⟨0, by simp⟩
  | some dl =>
    have := hdl dl hd
    have hpos : ¬ (dl - now ≤ 0) := by omega
    exact ⟨dl - now, by simp [hpos]⟩

theorem release_frame (c : connection) (seq : Nat) : (release c seq).conn = c.conn := by
  unfold release
  dsimp only
  split <;> rfl

theorem release_frame2 (c : connection) (seq : Nat) : (release c seq).err = c.err := by
  unfold release
  dsimp only
  split <;> rfl

theorem rpcCall_sticky (dec : Decoder) (c : connection) (e : Err) (herr : c.err = some e)
    (hch : c.errCh = true) (ctx : Context) (t0 t1 : Int) (pick : Bool) (sched : List Sched)
    (cmd nt : Nat) (args : List Arg) (hctx : (applyTimeout ctx nt t0).err = none)
    (hdl : ∀ dl, (applyTimeout ctx nt t0).deadline = some dl → t1 < dl)
    (hseqs : c.seqs ≠ []) :
    ∃ c2, rpcCall dec c ctx t0 t1 pick (Sched.errSignal :: sched) cmd nt args =
        some ((none, some e), c2) ∧ c2.conn = c.conn ∧ c2.err = some e := by
  obtain ⟨seq, rest, hsr⟩ : ∃ seq rest, c.seqs = seq :: rest := by
    cases hs : c.seqs with
    | nil => exact absurd hs hseqs
    | cons a t => exact ⟨a, t, rfl⟩
  obtain ⟨r, hr⟩ := awaitSeqNum_live c (applyTimeout ctx nt t0) t1 pick seq rest hsr hctx hdl
  have hw : ∀ c3 : connection, c3.errCh = true →
      waitReply seq (seq % queueSize) (Sched.errSignal :: sched) c3 = some ((none, c3.err), c3) := by
    intro c3 h
    simp [waitReply, h]
  generalize hc3 : packRPC ({ c with seqs := rest }.setReq (seq % queueSize)
    { c.requests (seq % queueSize) with seqNum := seq }) cmd seq (milliseconds r) args = c3
  have h3 : c3.errCh = true ∧ c3.err = some e ∧ c3.conn = c.conn := by
    rw [← hc3]; exact ⟨hch, herr, rfl⟩
  refine ⟨release c3 seq, ?_, ?_, ?_⟩
  · unfold rpcCall
    simp only [hr]
    rw [hc3, hw c3 h3.1]
    simp only [h3.2.1]
  · rw [release_frame]; exact h3.2.2
  · rw [(release_frame2 c3 seq)]; exact h3.2.1

theorem rpcCall_ctx_done (dec : Decoder) (c : connection) (ctx : Context) (e : Err)
    (hctx : ctx.err = some e) (t0 t1 : Int) (sched : List Sched) (cmd : Nat)
    (args : List Arg) :
    rpcCall dec c ctx t0 t1 false sched cmd 0 args = some ((none, some e), c) := by
  unfold rpcCall
  simp only [applyTimeout, if_true]
  unfold awaitSeqNum
  cases hs : c.seqs with
  | nil => simp [hctx]
  | cons a t => simp [hctx]

theorem awaitSeqNum_done (c : connection) (ctx : Context) (e : Err) (hctx : ctx.err = some e)
    (now : Int) (pick : Bool) :
    ∃ a c1, awaitSeqNum c ctx now pick = some (a, c1) ∧ a.err = some e ∧
      c1.conn = c.conn ∧ c1.requests = c.requests ∧ c1.wrBuf = c.wrBuf := by
  unfold awaitSeqNum
  cases hs : c.seqs with
  | nil =>
    refine ⟨⟨0, 0, some e⟩, c, ?_, rfl, rfl, rfl, rfl⟩
    simp only [hctx]
  | cons s rest =>
    cases pick with
    | false =>
      refine ⟨⟨0, 0, some e⟩, c, ?_, rfl, rfl, rfl, rfl⟩
      simp [hctx]
    | true =>
      refine ⟨⟨s, 0, some e⟩, { c with seqs := rest ++ [s] }, ?_, rfl, rfl, rfl, rfl⟩
      simp [hctx]

theorem rpcCall_done (dec : Decoder) (c : connection) (ctx : Context) (t0 t1 : Int)
    (pick : Bool) (sched : List Sched) (cmd nt : Nat) (args : List Arg) (e : Err)
    (hctx : (applyTimeout ctx nt t0).err = some e) :
    ∃ c2, rpcCall dec c ctx t0 t1 pick sched cmd nt args = some ((none, some e), c2) ∧
      c2.conn = c.conn ∧ c2.requests = c.requests ∧ c2.wrBuf = c.wrBuf := by
  obtain ⟨a, c1, h, ha, h1, h2, h3⟩ := awaitSeqNum_done c (applyTimeout ctx nt t0) e hctx t1 pick
  refine ⟨c1, ?_, h1, h2, h3⟩
  unfold rpcCall
  simp only [h, ha]

theorem onErrorSlot_frame (e : Err) (c : connection) (j : Nat) :
    (onErrorSlot e c j).err = c.err ∧ (onErrorSlot e c j).errCh = c.errCh ∧
      (onErrorSlot e c j).conn = c.conn := by
  rcases onErrorSlot_cases e c j with h | ⟨k, _, _, h⟩
  · rw [h]; exact ⟨rfl, rfl, rfl⟩
  · rw [h]; exact ⟨rfl, rfl, rfl⟩

/-- What `onError` records on a connection without an error. -/
theorem onError_records (c : connection) (e : Err) (h : c.err = none) :
    (onError c e).err = some e ∧ (onError c e).errCh = true ∧
      (onError c e).conn = closeSock c.conn := by
  unfold onError
  simp only [h]
  exact foldl_inv (onErrorSlot e)
    (fun x => x.err = some e ∧ x.errCh = true ∧ x.conn = closeSock c.conn)
    (fun x j hx => by
      obtain ⟨a, b, d⟩ := onErrorSlot_frame e x j
      exact ⟨a.trans hx.1, b.trans hx.2.1, d.trans hx.2.2⟩)
    _ _ ⟨rfl, rfl, rfl⟩

theorem onError_noop (c : connection) (e e2 : Err) (h : c.err = some e) : onError c e2 = c := by
  unfold onError
  simp only [h]

/-! ## Claim C2 as stated -/

theorem dialled_seqs : dialled.seqs = 0 :: (List.range queueSize).tail := by decide

theorem pending_no_cmpl (k : Nat) (c : connection) (h : ∀ i, (c.requests i).cmpl = none) :
    pending k c = 0 := by
  unfold pending
  rw [List.length_eq_zero, List.filter_eq_nil_iff]
  intro i _
  simp [h i]

theorem dialled_serving : Serving 1 0 dialled :=
  ⟨rfl, rfl, rfl, rfl, by rw [dialled_seqs]; rfl⟩

theorem ticked_iff (t1 t : Int) :
    ticksBy t1 < ticksBy t ↔ tickTime (ticksBy t1 + 1) ≤ t := by
  unfold tickTime ticksBy second deadlineCheckPeriodSec
  constructor <;> intro h2 <;> omega

/-- C2 (as stated, refuted): a frame with the right magic and a compatible version whose
sequence number 512000001 differs from the stamp of its slot is not discarded silently:
`readReply` returns the error "invalid seq num". -/
theorem C2_counterexample :
    field headerSeqBeyond 0 4 = cprotoMagic ∧
    cprotoMinCompatVersion ≤ (field headerSeqBeyond 4 2 &&& cprotoVersionMask) ∧
    (dialled.requests (field headerSeqBeyond 12 4 % queueSize)).seqNum ≠
      field headerSeqBeyond 12 4 ∧
    (readReply { dialled with rdBuf := headerSeqBeyond }).1 =
      some (Err.invalidSeqNum 512000001) := by
  decide

/-! ## Claim C3 as stated, claim C4 -/

/-- C3 (as stated, refuted): on a connection whose sticky error is `io 1`, an `rpcCall` with
an already cancelled context returns `Canceled`, not the sticky error. -/
theorem C3_counterexample :
    (onError dialled (Err.io 1)).err = some (Err.io 1) ∧
    (onError dialled (Err.io 1)).errCh = true ∧
    rpcCall sampleDecoder (onError dialled (Err.io 1)) ⟨some Err.canceled, none⟩ 0 0 false []
      0 0 [] = some ((none, some Err.canceled), onError dialled (Err.io 1)) ∧
    Err.canceled ≠ Err.io 1 :=
  ⟨(onError_records dialled (Err.io 1) rfl).1, (onError_records dialled (Err.io 1) rfl).2.1,
    rpcCall_ctx_done sampleDecoder _ ⟨some Err.canceled, none⟩ Err.canceled rfl 0 0 [] 0 [],
    by decide⟩

/-- C4 (code at the failing input): when the dial succeeds and login fails, by a reply with
a remote error or by its context timing out, `newConnection` returns that error and
records it as `err`, but the socket stays open and `errCh` stays open: `login` has set
`c.err` already, so the `onError` that follows does nothing.  When the dial itself fails,
`onError` does record the error and close `errCh`. -/
theorem C4_login_failure_not_fatal :
    (newConnection sampleDecoder false 0 ⟨none, none⟩ none 0 0 true
        [Sched.arrive loginRefused, Sched.readLoop, Sched.recv] [] 0).map
        (fun r => (r.2, r.1.err, r.1.errCh, r.1.conn)) =
      some (some (Err.remote 5), some (Err.remote 5), false, Sock.isOpen) ∧
    (newConnection sampleDecoder false 1 ⟨none, none⟩ none 0 0 true
        [Sched.ctxDone Err.deadlineExceeded] [] 0).map
        (fun r => (r.2, r.1.err, r.1.errCh, r.1.conn)) =
      some (some Err.deadlineExceeded, some Err.deadlineExceeded, false, Sock.isOpen) ∧
    (newConnection sampleDecoder false 1 ⟨none, none⟩ (some (Err.dial 1)) 0 0 true [] [] 0).map
        (fun r => (r.2, r.1.err, r.1.errCh, r.1.conn)) =
      some (some (Err.dial 1), some (Err.dial 1), true, Sock.isNil) := by
  refine ⟨by decide, by decide, ?_⟩
  obtain ⟨h1, h2, h3⟩ :=
    onError_records (deadlineTickerStart (initConnection false)) (Err.dial 1) rfl
  show some (some (Err.dial 1),
    (onError (deadlineTickerStart (initConnection false)) (Err.dial 1)).err,
    (onError (deadlineTickerStart (initConnection false)) (Err.dial 1)).errCh,
    (onError (deadlineTickerStart (initConnection false)) (Err.dial 1)).conn) = _
  rw [h1, h2, h3]
  rfl

/-! ## Claims C5 to C10 -/

/-- C5: in every state reachable from a new connection by the operations of `Op` (acquire
with its abort paths, stamping, receiving and release of a synchronous call, registration
of an asynchronous call, arrival of bytes, a read-loop step, a tick, an error fan-out), the
sequence numbers in the pool, those held by callers and those stamped on slots with a
completion cover every slot index `0..queueSize-1` exactly once; hence the pool together
with the outstanding numbers counts `queueSize` and the pool never exceeds `queueSize`. -/
theorem C5_pool_covers_slots (b : Bool) (ops : List Op) :
    (ownedSlots (runOps ops (newSys b))).Perm (List.range queueSize) ∧
    (runOps ops (newSys b)).c.seqs.length + (runOps ops (newSys b)).held.length +
      (asyncHeld (runOps ops (newSys b)).c).length = queueSize ∧
    (runOps ops (newSys b)).c.seqs.length ≤ queueSize := by
  have hinv := TableInv_runOps ops (newSys b) (TableInv_init b)
  have hlen := hinv.1.length_eq
  simp only [List.length_map, List.length_append, List.length_range] at hlen
  exact ⟨hinv.1, hlen, by omega⟩

/-- C6: for a valid sequence number, `nextSeqNum` in 32-bit arithmetic is valid again, equals
`(seq + queueSize) mod maxSeqNum`, and is never the idle sentinel `maxSeqNum`. -/
theorem C6_nextSeqNum_valid (seq : Nat) (h : seqNumIsValid seq = true) :
    seqNumIsValid (nextSeqNum seq) = true ∧ nextSeqNum seq < maxSeqNum ∧
      nextSeqNum seq = (seq + queueSize) % maxSeqNum ∧ nextSeqNum seq ≠ maxSeqNum := by
  have h2 : seq < maxSeqNum := by
    unfold seqNumIsValid at h
    split at h
    · assumption
    · cases h
  have hlt := nextSeqNum_lt seq h2
  refine ⟨?_, hlt, nextSeqNum_eq seq h2, Nat.ne_of_lt hlt⟩
  simp [seqNumIsValid, hlt]

theorem C6_witness :
    seqNumIsValid 511999999 = true ∧ nextSeqNum 511999999 = 511 ∧
      nextSeqNum 511999999 < maxSeqNum :=
  ⟨by decide, by decide, (C6_nextSeqNum_valid 511999999 (by decide)).2.1⟩

/-- C7: for a valid sequence number, `nextSeqNum` keeps the slot index, so does every
iterate, and 1000000 applications return the sequence number itself. -/
theorem C7_nextSeqNum_keeps_slot (seq : Nat) (h : seqNumIsValid seq = true) :
    nextSeqNum seq % queueSize = seq % queueSize ∧
    (∀ k, nextSeqNumIter k seq % queueSize = seq % queueSize) ∧
    nextSeqNumIter 1000000 seq = seq := by
  have h2 : seq < maxSeqNum := by
    unfold seqNumIsValid at h
    split at h
    · assumption
    · cases h
  refine ⟨nextSeqNum_mod seq h2, ?_, ?_⟩
  · intro k
    rw [nextSeqNumIter_eq k seq h2]
    simp only [maxSeqNum, queueSize] at *
    omega
  · rw [nextSeqNumIter_eq _ _ h2]
    simp only [maxSeqNum, queueSize] at *
    omega

theorem C7_witness :
    seqNumIsValid 511999999 = true ∧ nextSeqNum 511999999 % queueSize = 511999999 % queueSize ∧
      nextSeqNumIter 1000000 511999999 = 511999999 :=
  ⟨by decide, (C7_nextSeqNum_keeps_slot 511999999 (by decide)).1,
    (C7_nextSeqNum_keeps_slot 511999999 (by decide)).2.2⟩

/-- C8 (as stated, refuted): the ticker started at time 0, an asynchronous call with
`net_timeout = 1` is made 1.5 s later to a silent server; at 2.0 s, half a second after the
call, the completion has already been called with `DeadlineExceeded`. -/
theorem C8_counterexample :
    (silentAsyncCall dialled 1500000000 1500000000 2000000000 0 7 []).map (timedOut 7) =
      some true ∧
    (2000000000 : Int) - 1500000000 < second := by
  refine ⟨?_, by decide⟩
  rw [silentAsyncCall_delivery dialled 1 0 1500000000 1500000000 0 7 [] dialled_serving
    (by decide) (by decide) ⟨rfl, pending_no_cmpl 7 dialled (fun _ => rfl)⟩ (by decide)
    (by decide) (by decide) 2000000000]
  decide

/-- C8 (amended): for an asynchronous call with `net_timeout = 1` to a silent server (call
at `t0`, clock read by `awaitSeqNum` at `t1 < t0 + 1s`, ticker started at time 0 and
firing every second), the stored deadline is the coarse clock plus the whole seconds of the
remaining timeout, which are at most 1, so the completion is called with
`DeadlineExceeded` by the first tick after `t1` and not before: at time `t` it has been
called exactly when `t ≥ tickTime (ticksBy t1 + 1)`, and that tick comes after `t1` and at
most one second after it. -/
theorem C8_deadline_at_next_tick (c : connection) (n seq : Nat) (t0 t1 : Int) (cmd k : Nat)
    (args : List Arg) (hs : Serving n seq c) (hn : 1 ≤ n) (hvalid : seq < maxSeqNum)
    (hfresh : invocations k c = 0 ∧ pending k c = 0) (h0 : 0 ≤ t0)
    (ht : t0 ≤ t1) (ht1 : t1 < t0 + second) (hwrap : n + ticksBy t1 + 1 < u32) :
    (∃ c1, rpcCallAsync (runTicks (ticksBy t1) c) ⟨none, none⟩ t0 t1 true cmd 1 k args =
        some c1 ∧
      (c1.requests (seq % queueSize)).deadline = c1.now + secondsU32 (t0 + second - t1) ∧
      secondsU32 (t0 + second - t1) ≤ 1) ∧
    (∀ t : Int, (silentAsyncCall c t0 t1 t cmd k args).map (timedOut k) =
      some (decide (tickTime (ticksBy t1 + 1) ≤ t))) ∧
    t1 < tickTime (ticksBy t1 + 1) ∧ tickTime (ticksBy t1 + 1) ≤ t1 + second := by
  have hsec := secondsU32_le (t0 + second - t1) (by omega) (by omega)
  refine ⟨?_, ?_, tick_after t1 (by omega)⟩
  · obtain ⟨c1, h1, h2, h3⟩ := rpcCallAsync_deadline (runTicks (ticksBy t1) c) (n + ticksBy t1)
      seq t0 t1 true cmd k args (runTicks_serving (ticksBy t1) n seq c hs (by omega)) ht1
    refine ⟨c1, h1, ?_, hsec⟩
    rw [h3, h2]
    exact Nat.mod_eq_of_lt (by omega)
  · intro t
    rw [silentAsyncCall_delivery c n seq t0 t1 cmd k args hs hn hvalid hfresh ht ht1 hwrap t]
    refine congrArg some ?_
    rw [decide_eq_decide]
    exact ticked_iff t1 t

theorem C8_witness :
    Serving 1 0 dialled ∧ (invocations 7 dialled = 0 ∧ pending 7 dialled = 0) ∧
    (silentAsyncCall dialled 1500000000 1500000001 1999999999 0 7 []).map (timedOut 7) =
      some (decide (tickTime (ticksBy 1500000001 + 1) ≤ 1999999999)) ∧
    tickTime (ticksBy 1500000001 + 1) ≤ 1500000001 + second :=
  have h := C8_deadline_at_next_tick dialled 1 0 1500000000 1500000001 0 7 [] dialled_serving
    (by decide) (by decide) ⟨rfl, pending_no_cmpl 7 dialled (fun _ => rfl)⟩ (by decide)
    (by decide) (by decide) (by decide)
  ⟨dialled_serving, ⟨rfl, pending_no_cmpl 7 dialled (fun _ => rfl)⟩, h.2.1 1999999999, h.2.2.2⟩

/-- C9 (code at the failing input): with an already cancelled context and the scheduler
taking the pool case of the second `select`, `awaitSeqNum` on a new connection returns
`Canceled`, but sequence number 0 has been dequeued and queued again at the tail: the pool
now starts with 1, 2 and ends with 511, 0. -/
theorem C9_cancelled_context_rotates_pool :
    (awaitSeqNum (initConnection false) ⟨some Err.canceled, none⟩ 0 true).map
        (fun r => (r.1.err, r.2.seqs.take 2, r.2.seqs.drop 510, r.2.seqs.length)) =
      some (some Err.canceled, [1, 2], [511, 0], 512) ∧
    (initConnection false).seqs.take 2 = [0, 1] := by
  constructor <;> decide

/-- C10: a header whose magic is not `0xEEDD1132`, or whose version masked to its low 10 bits
is below `0x101`, makes `readReply` return an error having consumed the 16 header bytes
only and changed nothing else, no slot in particular; and a header that differs only in
the compression flag (bit 10 of the version field) is refused with the same error. -/
theorem C10_header_rejected (c : connection) (hdr rest : List Nat)
    (hlen : hdr.length = cprotoHdrLen) (hrd : c.rdBuf = hdr ++ rest)
    (hbad : field hdr 0 4 ≠ cprotoMagic ∨
      (field hdr 4 2 &&& cprotoVersionMask) < cprotoMinCompatVersion) :
    ∃ e, readReply c = (some e, { c with rdBuf := rest }) ∧
      ∀ hdr2 rest2 : List Nat, hdr2.length = cprotoHdrLen →
        field hdr2 0 4 = field hdr 0 4 →
        field hdr2 4 2 = field hdr 4 2 ^^^ cprotoVersionCompressionFlag →
        readReply { c with rdBuf := hdr2 ++ rest2 } = (some e, { c with rdBuf := rest2 }) := by
  refine ⟨_, readReply_reject c hdr rest hlen hrd hbad, ?_⟩
  intro hdr2 rest2 hlen2 hm2 hv2
  have hbad2 : field hdr2 0 4 ≠ cprotoMagic ∨
      (field hdr2 4 2 &&& cprotoVersionMask) < cprotoMinCompatVersion := by
    rw [hm2, hv2, flag_mask]; exact hbad
  have := readReply_reject { c with rdBuf := hdr2 ++ rest2 } hdr2 rest2 hlen2 rfl hbad2
  rw [this, hm2, hv2, flag_mask]

theorem C10_witness :
    field headerBadMagic 0 4 ≠ cprotoMagic ∧
    ∃ e, readReply { dialled with rdBuf := headerBadMagic ++ [1, 2] } =
      (some e, { dialled with rdBuf := [1, 2] }) :=
  ⟨by decide,
    (C10_header_rejected { dialled with rdBuf := headerBadMagic ++ [1, 2] } headerBadMagic [1, 2]
      (by decide) rfl (Or.inl (by decide))).imp (fun _ h => h.1)⟩

/-! ## Claims C11 and C12 -/

/-- C11 (code at the failing input): `newConnection` leaves every stamp at 0, the zero
value, not at `maxSeqNum`; 0 is a valid sequence number, so on a connection that has issued
no request a frame with sequence number 0 matches slot 0 and is handed to its reply
channel. -/
theorem C11_new_slots_stamped_zero :
    (∀ (b : Bool) (i : Nat), ((initConnection b).requests i).seqNum = 0) ∧
    (∀ i : Nat, (dialled.requests i).seqNum = 0) ∧
    (0 : Nat) ≠ maxSeqNum ∧ seqNumIsValid 0 = true ∧
    (readReply { dialled with rdBuf := replySeqZero }).1 = none ∧
    ((readReply { dialled with rdBuf := replySeqZero }).2.requests 0).repl =
      some [⟨0, ⟨[0], false⟩⟩] :=
  ⟨fun _ _ => rfl, fun _ => rfl, by decide, by decide, by decide, by decide⟩

theorem Visit_chain (v : Visit) (c : connection) : Chain c (v.run c) := by
  cases v with
  | tickBegin => exact Chain.same _ _ ⟨rfl, rfl, fun _ _ => ⟨rfl, fun _ => ⟨rfl, rfl⟩⟩⟩
  | tickSlot i =>
    simp only [Visit.run]
    split
    · next hi => exact tickSlot_chain _ c i hi
    · exact Chain_refl c
  | fanOutBegin e => exact Chain.same _ _ ⟨rfl, rfl, fun _ _ => ⟨rfl, fun _ => ⟨rfl, rfl⟩⟩⟩
  | fanOutSlot e i =>
    simp only [Visit.run]
    split
    · next hi => exact onErrorSlot_chain e c i hi
    · exact Chain_refl c

theorem runVisits_chain (vs : List Visit) (c : connection) : Chain c (runVisits vs c) := by
  induction vs generalizing c with
  | nil => exact Chain_refl c
  | cons v t ih => exact Chain.trans _ _ _ (Visit_chain v c) (ih _)

/-- The table invariant in every state a run of operations reaches, also inside the loops
of the ticker and of `onError`. -/
theorem TableInv_reached (b : Bool) (ops : List Op) (vs : List Visit) :
    TableInv (runVisits vs (runOps ops (newSys b)).c) (runOps ops (newSys b)).held :=
  TableInv_chain _ _ _ (runVisits_chain vs _) (TableInv_runOps ops (newSys b) (TableInv_init b))

theorem onErrorSlot_claims (e : Err) (c : connection) (i k : Nat)
    (hk : (c.requests i).cmpl = some k) (ha : (c.requests i).isAsync ≠ 0) :
    onErrorSlot e c i = claimSlot c i (c.requests i).deadline k (Outcome.failed e) := by
  unfold onErrorSlot
  simp only [ha, ne_eq, not_false_eq_true, if_true, hk]
  rfl

/-- C12: in every state reached from a new connection by the table operations, also inside
the loops of the ticker and of the error fan-out, a slot that holds a completion is marked
asynchronous and carries a valid stamp of its own index, so the stamp is not `maxSeqNum`
and its successor is valid; every pooled number is valid; and each delivery site, when it
claims the completion, reads this stamp and recycles its successor (`claimSlot`). -/
theorem C12_completion_slot_stamp_valid (b : Bool) (ops : List Op) (vs : List Visit)
    (c : connection) (hc : c = runVisits vs (runOps ops (newSys b)).c) (i k : Nat)
    (hi : i < queueSize) (hk : (c.requests i).cmpl = some k) :
    (c.requests i).isAsync ≠ 0 ∧ (c.requests i).seqNum < maxSeqNum ∧
    (c.requests i).seqNum ≠ maxSeqNum ∧ (c.requests i).seqNum % queueSize = i ∧
    seqNumIsValid (nextSeqNum (c.requests i).seqNum) = true ∧
    (∀ x, x ∈ c.seqs → x < maxSeqNum) ∧
    (∀ now, tickSlot now c i = c ∨
      tickSlot now c i = claimSlot c i 0 k (Outcome.failed Err.deadlineExceeded)) ∧
    (∀ e, onErrorSlot e c i = claimSlot c i (c.requests i).deadline k (Outcome.failed e)) ∧
    (∀ rseq answ, rseq % queueSize = i →
      deliverReply c rseq answ = (none, c) ∨
      (rseq = (c.requests i).seqNum ∧ deliverReply c rseq answ =
        (none, claimSlot c i (c.requests i).deadline k (Outcome.answer answ)))) := by
  have hinv := TableInv_reached b ops vs
  rw [← hc] at hinv
  obtain ⟨_, h2, h3⟩ := hinv
  obtain ⟨ha, hlt, hmod⟩ := h3 i hi k hk
  refine ⟨ha, hlt, Nat.ne_of_lt hlt, hmod, ?_, ?_, ?_, ?_, ?_⟩
  · simp [seqNumIsValid, nextSeqNum_lt _ hlt]
  · intro x hx
    exact h2 x (List.mem_append.2 (Or.inl hx))
  · intro now
    rcases tickSlot_cases now c i with h | ⟨k2, hk2, _, _, _, _, h⟩
    · exact Or.inl h
    · rw [hk] at hk2
      cases hk2
      exact Or.inr h
  · intro e
    exact onErrorSlot_claims e c i k hk ha
  · intro rseq answ hr
    subst hr
    rcases deliverReply_cases c rseq answ with h | h | ⟨k2, hk2, _, hs, h⟩ | ⟨q, h0, _, _⟩
    · exact Or.inl h
    · exfalso
      unfold deliverReply at h
      simp only [ha, ne_eq, not_false_eq_true, if_true, hk] at h
      split at h <;> cases h
    · rw [hk] at hk2
      cases hk2
      exact Or.inr ⟨hs.symm, h⟩
    · exact absurd h0 ha

theorem C12_witness :
    ((runVisits [] (runOps [Op.acquire ⟨none, none⟩ 0 true, Op.registerAsync 0 0 7 0 []]
        (newSys false)).c).requests 0).cmpl = some 7 ∧
    ((runVisits [] (runOps [Op.acquire ⟨none, none⟩ 0 true, Op.registerAsync 0 0 7 0 []]
        (newSys false)).c).requests 0).seqNum < maxSeqNum :=
  ⟨by decide,
    (C12_completion_slot_stamp_valid false
      [Op.acquire ⟨none, none⟩ 0 true, Op.registerAsync 0 0 7 0 []] [] _ rfl 0 7 (by decide)
      (by decide)).2.1⟩

/-! ## Release and wait of a synchronous call -/

theorem setReq_same (c : connection) (i : Nat) (r : requestInfo) :
    (c.setReq i r).requests i = r := by
  simp [connection.setReq]

theorem setReq_other (c : connection) (i j : Nat) (r : requestInfo) (h : j ≠ i) :
    (c.setReq i r).requests j = c.requests j := by
  simp [connection.setReq, Function.update_noteq h]

/-- What `release` leaves: the slot stamped idle with its other fields but the reply
channel kept, the successor appended to the pool, every other slot as it was. -/
theorem release_effect (c : connection) (seq : Nat) :
    ((release c seq).requests (seq % queueSize)).seqNum = maxSeqNum ∧
    ((release c seq).requests (seq % queueSize)).cmpl = (c.requests (seq % queueSize)).cmpl ∧
    ((release c seq).requests (seq % queueSize)).isAsync =
      (c.requests (seq % queueSize)).isAsync ∧
    ((release c seq).requests (seq % queueSize)).deadline =
      (c.requests (seq % queueSize)).deadline ∧
    (release c seq).seqs = c.seqs ++ [nextSeqNum seq] ∧
    (∀ j, j ≠ seq % queueSize → (release c seq).requests j = c.requests j) := by
  unfold release
  dsimp only
  split
  · refine ⟨?_, ?_, ?_, ?_, rfl, ?_⟩
    · simp [connection.setReq]
    · simp [connection.setReq]
    · simp [connection.setReq]
    · simp [connection.setReq]
    · intro j hj
      simp [connection.setReq, Function.update_noteq hj]
  · refine ⟨?_, ?_, ?_, ?_, rfl, ?_⟩
    · simp [connection.setReq]
    · simp [connection.setReq]
    · simp [connection.setReq]
    · simp [connection.setReq]
    · intro j hj
      simp [connection.setReq, Function.update_noteq hj]

/-- Every return of `rpcCall` after a successful `awaitSeqNum` goes through `release`. -/
theorem rpcCall_exit (dec : Decoder) (c : connection) (ctx : Context) (t0 t1 : Int)
    (pick : Bool) (sched : List Sched) (cmd nt : Nat) (args : List Arg) (a : Acquired)
    (c1 : connection) (res : Option NetBuffer × Option Err) (c2 : connection)
    (hacq : awaitSeqNum c (applyTimeout ctx nt t0) t1 pick = some (a, c1))
    (hok : a.err = none)
    (hret : rpcCall dec c ctx t0 t1 pick sched cmd nt args = some (res, c2)) :
    ∃ w c4, waitReply a.seq (a.seq % queueSize) sched
        (packRPC (c1.setReq (a.seq % queueSize)
          { c1.requests (a.seq % queueSize) with seqNum := a.seq }) cmd a.seq
          (milliseconds a.remainingTimeout) args) = some (w, c4) ∧
      c2 = release c4 a.seq := by
  unfold rpcCall at hret
  simp only [hacq, hok] at hret
  split at hret
  · cases hret
  · next buf err c4 hw =>
    refine ⟨(buf, err), c4, hw, ?_⟩
    split at hret
    · cases hret; rfl
    · split at hret
      · split at hret
        · cases hret; rfl
        · cases hret; rfl
      · cases hret; rfl

/-- While only the caller's own `select` cases fire, the wait changes nothing but the reply
channel of the caller's slot. -/
theorem waitReply_own (seq reqID : Nat) (sched : List Sched)
    (hown : ∀ x, x ∈ sched → x.isOwn = true) (c : connection)
    (w : Option NetBuffer × Option Err) (c4 : connection)
    (h : waitReply seq reqID sched c = some (w, c4)) :
    c4.seqs = c.seqs ∧ (∀ j, j ≠ reqID → c4.requests j = c.requests j) ∧
    (c4.requests reqID).seqNum = (c.requests reqID).seqNum ∧
    (c4.requests reqID).cmpl = (c.requests reqID).cmpl ∧
    (c4.requests reqID).isAsync = (c.requests reqID).isAsync ∧
    (c4.requests reqID).deadline = (c.requests reqID).deadline := by
  induction sched generalizing c with
  | nil => simp [waitReply] at h
  | cons x t ih =>
    have hown2 : ∀ y, y ∈ t → y.isOwn = true := fun y hy => hown y (List.mem_cons_of_mem x hy)
    have hx := hown x (List.mem_cons_self x t)
    cases x with
    | recv =>
      rw [waitReply] at h
      split at h
      · next b q hq =>
        have key : ∀ c5 : connection,
            c5 = c.setReq reqID { c.requests reqID with repl := some q } →
            c5.seqs = c.seqs ∧ (∀ j, j ≠ reqID → c5.requests j = c.requests j) ∧
            (c5.requests reqID).seqNum = (c.requests reqID).seqNum ∧
            (c5.requests reqID).cmpl = (c.requests reqID).cmpl ∧
            (c5.requests reqID).isAsync = (c.requests reqID).isAsync ∧
            (c5.requests reqID).deadline = (c.requests reqID).deadline := by
          intro c5 h5
          subst h5
          refine ⟨rfl, fun j hj => setReq_other c reqID j _ hj, ?_, ?_, ?_, ?_⟩ <;>
            rw [setReq_same]
        dsimp only at h
        split at h
        · cases h
          exact key _ rfl
        · obtain ⟨a1, a2, a3, a4, a5, a6⟩ := ih hown2 _ h
          obtain ⟨b1, b2, b3, b4, b5, b6⟩ := key _ rfl
          exact ⟨a1.trans b1, fun j hj => (a2 j hj).trans (b2 j hj), a3.trans b3, a4.trans b4,
            a5.trans b5, a6.trans b6⟩
      · exact ih hown2 _ h
    | errSignal =>
      rw [waitReply] at h
      split at h
      · cases h
        exact ⟨rfl, fun _ _ => rfl, rfl, rfl, rfl, rfl⟩
      · exact ih hown2 _ h
    | ctxDone e =>
      rw [waitReply] at h
      cases h
      exact ⟨rfl, fun _ _ => rfl, rfl, rfl, rfl, rfl⟩
    | arrive bytes => cases hx
    | readLoop => cases hx
    | tick => cases hx
    | fail e => cases hx

/-! ## Claim C13 -/

/-- C13: an `rpcCall` that acquired `seq` (the head of the pool) leaves, on every return,
its slot stamped `maxSeqNum` and `nextSeqNum seq` as the last number sent to the pool; when
no other goroutine acts during the call, the pool is the rest of the old pool plus exactly
that one number, every other slot is as it was, and the slot's own completion,
asynchronous flag and deadline are untouched. -/
theorem C13_rpcCall_releases_slot (dec : Decoder) (c : connection) (ctx : Context)
    (t0 t1 : Int) (pick : Bool) (sched : List Sched) (cmd nt : Nat) (args : List Arg)
    (a : Acquired) (c1 : connection) (res : Option NetBuffer × Option Err) (c2 : connection)
    (hacq : awaitSeqNum c (applyTimeout ctx nt t0) t1 pick = some (a, c1))
    (hok : a.err = none)
    (hret : rpcCall dec c ctx t0 t1 pick sched cmd nt args = some (res, c2)) :
    c.seqs = a.seq :: c1.seqs ∧
    (c2.requests (a.seq % queueSize)).seqNum = maxSeqNum ∧
    (∃ pool, c2.seqs = pool ++ [nextSeqNum a.seq]) ∧
    ((∀ x, x ∈ sched → x.isOwn = true) →
      c2.seqs = c1.seqs ++ [nextSeqNum a.seq] ∧
      (∀ j, j ≠ a.seq % queueSize → c2.requests j = c.requests j) ∧
      (c2.requests (a.seq % queueSize)).cmpl = (c.requests (a.seq % queueSize)).cmpl ∧
      (c2.requests (a.seq % queueSize)).isAsync = (c.requests (a.seq % queueSize)).isAsync ∧
      (c2.requests (a.seq % queueSize)).deadline =
        (c.requests (a.seq % queueSize)).deadline) := by
  obtain ⟨w, c4, hw, hc2⟩ :=
    rpcCall_exit dec c ctx t0 t1 pick sched cmd nt args a c1 res c2 hacq hok hret
  obtain ⟨r1, r2, r3, r4, r5, r6⟩ := release_effect c4 a.seq
  have hc1 : c.seqs = a.seq :: c1.seqs ∧ c1.requests = c.requests := by
    rcases awaitSeqNum_cases _ _ _ _ _ _ hacq with ⟨he, _⟩ | ⟨_, _, _, he, _⟩ |
      ⟨rest, hs, _, _, hc, _⟩
    · exact absurd hok he
    · exact absurd hok he
    · rw [hc]; exact ⟨hs, rfl⟩
  subst hc2
  refine ⟨hc1.1, r1, ⟨c4.seqs, r5⟩, ?_⟩
  intro hown
  obtain ⟨w1, w2, _, w4, w5, w6⟩ := waitReply_own _ _ sched hown _ w c4 hw
  have p1 : ∀ j, j ≠ a.seq % queueSize →
      (packRPC (c1.setReq (a.seq % queueSize)
        { c1.requests (a.seq % queueSize) with seqNum := a.seq }) cmd a.seq
        (milliseconds a.remainingTimeout) args).requests j = c.requests j := by
    intro j hj
    rw [← hc1.2]
    exact setReq_other c1 _ j _ hj
  have p2 : (packRPC (c1.setReq (a.seq % queueSize)
        { c1.requests (a.seq % queueSize) with seqNum := a.seq }) cmd a.seq
        (milliseconds a.remainingTimeout) args).requests (a.seq % queueSize) =
      { c.requests (a.seq % queueSize) with seqNum := a.seq } := by
    rw [← hc1.2]
    exact setReq_same c1 _ _
  refine ⟨?_, ?_, ?_, ?_, ?_⟩
  · rw [r5, w1]; rfl
  · intro j hj
    rw [r6 j hj, w2 j hj, p1 j hj]
  · rw [r2, w4, p2]
  · rw [r3, w5, p2]
  · rw [r4, w6, p2]

theorem C13_witness :
    awaitSeqNum dialled (applyTimeout ⟨none, none⟩ 0 0) 0 true =
      some (⟨0, 0, none⟩, { dialled with seqs := (List.range queueSize).tail }) ∧
    rpcCall sampleDecoder dialled ⟨none, none⟩ 0 0 true [Sched.ctxDone Err.canceled] 0 0 [] =
      some ((none, some Err.canceled), releasedSample) ∧
    (releasedSample.requests (0 % queueSize)).seqNum = maxSeqNum ∧
    releasedSample.seqs = (List.range queueSize).tail ++ [nextSeqNum 0] :=
  have h := C13_rpcCall_releases_slot sampleDecoder dialled ⟨none, none⟩ 0 0 true
    [Sched.ctxDone Err.canceled] 0 0 [] ⟨0, 0, none⟩
    { dialled with seqs := (List.range queueSize).tail } (none, some Err.canceled)
    releasedSample rfl rfl rfl
  ⟨rfl, rfl, h.2.1, (h.2.2.2 (by decide)).1⟩

/-! ## The ticker's loop against the specification -/

theorem connection_eq (c d : connection) (h1 : c.conn = d.conn) (h2 : c.wrBuf = d.wrBuf)
    (h3 : c.wrBuf2 = d.wrBuf2) (h4 : c.wrKick = d.wrKick) (h5 : c.rdBuf = d.rdBuf)
    (h6 : c.seqs = d.seqs) (h7 : c.err = d.err) (h8 : c.errCh = d.errCh) (h9 : c.now = d.now)
    (h10 : c.termCh = d.termCh) (h11 : c.requests = d.requests)
    (h12 : c.enableSnappy = d.enableSnappy) (h13 : c.isServerChanged = d.isServerChanged)
    (h14 : c.enableCompression = d.enableCompression) (h15 : c.calls = d.calls) : c = d := by
  cases c
  cases d
  simp only [connection.mk.injEq]
  exact ⟨h1, h2, h3, h4, h5, h6, h7, h8, h9, h10, h11, h12, h13, h14, h15⟩

theorem expiresBySpec_iff (now : Nat) (r : requestInfo) :
    expiresBySpec now r = true ↔
      seqNumIsValid r.seqNum = true ∧ r.deadline ≠ 0 ∧ now ≥ r.deadline ∧ r.isAsync ≠ 0 ∧
        r.cmpl.isSome = true := by
  unfold expiresBySpec
  simp only [Bool.and_eq_true, decide_eq_true_eq]
  tauto

theorem tickSlot_expires (now : Nat) (c : connection) (i : Nat)
    (h : expiresBySpec now (c.requests i) = true) :
    ∃ k, (c.requests i).cmpl = some k ∧
      tickSlot now c i = claimSlot c i 0 k (Outcome.failed Err.deadlineExceeded) := by
  obtain ⟨hv, hd, hn, ha, hc⟩ := (expiresBySpec_iff now _).1 h
  obtain ⟨k, hk⟩ := Option.isSome_iff_exists.1 hc
  refine ⟨k, hk, ?_⟩
  rcases tickSlot_cases now c i with h1 | ⟨k2, hk2, _, _, _, _, h1⟩
  · exfalso
    have hmem := tickSlot_delivers now c i k ⟨hk, ha, hv, hd, hn⟩
    rw [h1] at hmem
    have hcm := congrArg (fun x => (x.requests i).cmpl) h1
    unfold tickSlot at hcm
    simp [hv, hd, hn, ha, hk, connection.setReq] at hcm
  · rw [hk] at hk2
    cases hk2
    exact h1

theorem tickSlot_keeps (now : Nat) (c : connection) (i : Nat)
    (h : expiresBySpec now (c.requests i) = false) : tickSlot now c i = c := by
  rcases tickSlot_cases now c i with h1 | ⟨k, hk, ha, hv, hd, hn, _⟩
  · exact h1
  · exfalso
    have : expiresBySpec now (c.requests i) = true :=
      (expiresBySpec_iff now _).2 ⟨hv, hd, hn, ha, by simp [hk]⟩
    rw [h] at this
    cases this

/-- The ticker's loop over a list of distinct slots, described from the state it starts in. -/
theorem tickFold_spec (now : Nat) (l : List Nat) (hl : l.Nodup) (c : connection) :
    l.foldl (tickSlot now) c =
      { c with
        requests := fun i =>
          if i ∈ l ∧ expiresBySpec now (c.requests i) = true then expiredSlot (c.requests i)
          else c.requests i
        seqs := c.seqs ++ (l.filter (fun i => expiresBySpec now (c.requests i))).map
          (fun i => nextSeqNum (c.requests i).seqNum)
        calls := c.calls ++ (l.filter (fun i => expiresBySpec now (c.requests i))).filterMap
          (fun i => (c.requests i).cmpl.map
            (fun k => ⟨k, Outcome.failed Err.deadlineExceeded⟩)) } := by
  induction l generalizing c with
  | nil =>
    apply connection_eq <;> simp
  | cons a t ih =>
    rw [List.nodup_cons] at hl
    rw [List.foldl_cons, ih hl.2]
    cases he : expiresBySpec now (c.requests a) with
    | false =>
      rw [tickSlot_keeps now c a he]
      apply connection_eq <;> try rfl
      · show c.seqs ++ _ = c.seqs ++ _
        rw [List.filter_cons_of_neg (by simp [he])]
      · funext i
        by_cases hia : i = a
        · subst hia
          simp [he]
        · simp [hia]
      · show c.calls ++ _ = c.calls ++ _
        rw [List.filter_cons_of_neg (by simp [he])]
    | true =>
      obtain ⟨k, hk, hclaim⟩ := tickSlot_expires now c a he
      rw [hclaim]
      have hother : ∀ i, i ∈ t → (claimSlot c a 0 k (Outcome.failed Err.deadlineExceeded)).requests i =
          c.requests i := by
        intro i hi
        exact claimSlot_other c a 0 k _ i (fun h => hl.1 (h ▸ hi))
      have hfilter : t.filter (fun i => expiresBySpec now
          ((claimSlot c a 0 k (Outcome.failed Err.deadlineExceeded)).requests i)) =
          t.filter (fun i => expiresBySpec now (c.requests i)) := by
        apply List.filter_congr
        intro i hi
        rw [hother i hi]
      apply connection_eq <;> try rfl
      · show (c.seqs ++ [nextSeqNum (c.requests a).seqNum]) ++ _ = c.seqs ++ _
        rw [hfilter, List.filter_cons_of_pos (by exact he), List.map_cons, List.append_assoc,
          List.singleton_append]
        congr 2
        apply List.map_congr_left
        intro i hi
        rw [hother i (List.mem_of_mem_filter hi)]
      · funext i
        by_cases hia : i = a
        · subst hia
          have hself : (claimSlot c i 0 k (Outcome.failed Err.deadlineExceeded)).requests i =
              expiredSlot (c.requests i) := by
            simp [claimSlot, expiredSlot]
          simp [hl.1, he, hself]
        · have hreq := claimSlot_other c a 0 k (Outcome.failed Err.deadlineExceeded) i hia
          simp only [hreq, List.mem_cons, hia, false_or]
      · show (c.calls ++ [⟨k, Outcome.failed Err.deadlineExceeded⟩]) ++ _ = c.calls ++ _
        rw [hfilter, List.filter_cons_of_pos (by exact he), List.filterMap_cons_some (by rw [hk]; rfl),
          List.append_assoc, List.singleton_append]
        congr 2
        apply List.filterMap_congr
        intro i hi
        rw [hother i (List.mem_of_mem_filter hi)]

/-! ## Claim C14 -/

/-- A running ticker does in one tick what the specification says. -/
theorem deadlineTick_eq_spec (c : connection) (hrun : c.errCh = false)
    (hterm : c.termCh = false) : deadlineTick c = tickBySpec c := by
  rw [deadlineTick_running c hrun hterm, tickFold_spec _ _ (List.nodup_range _)]
  unfold tickBySpec
  apply connection_eq <;> try rfl
  funext i
  simp only [List.mem_range]
  rfl

/-- C14: one tick of a running ticker advances the clock by one (in `uint32`, so by exactly
one unless the counter wraps) and does what `tickBySpec` says: a slot is expired if and only
if its stamp is valid, its deadline is not zero, the new clock value has reached the
deadline, it is asynchronous and holds a completion; an expired slot ends with deadline 0,
no completion, stamp `maxSeqNum` and the asynchronous flag cleared, the successor of its
stamp is in the pool and its completion has been called with `DeadlineExceeded`; every
other slot, in particular every slot that is not asynchronous, is unchanged, and the pool
and the invocations grow by exactly the expired slots' entries. -/
theorem C14_tick_as_specified (c : connection) (hrun : c.errCh = false)
    (hterm : c.termCh = false) :
    deadlineTick c = tickBySpec c ∧
    (deadlineTick c).now = (c.now + 1) % u32 ∧
    (c.now + 1 < u32 → (deadlineTick c).now = c.now + 1) ∧
    (∀ i, expiresBySpec (deadlineTick c).now (c.requests i) = true ↔
      (seqNumIsValid (c.requests i).seqNum = true ∧ (c.requests i).deadline ≠ 0 ∧
        (deadlineTick c).now ≥ (c.requests i).deadline ∧ (c.requests i).isAsync ≠ 0 ∧
        (c.requests i).cmpl.isSome = true)) ∧
    (∀ i, i < queueSize → expiresBySpec (deadlineTick c).now (c.requests i) = true →
      (deadlineTick c).requests i =
        { c.requests i with deadline := 0, cmpl := none, seqNum := maxSeqNum, isAsync := 0 } ∧
      nextSeqNum (c.requests i).seqNum ∈ (deadlineTick c).seqs ∧
      ∃ k, (c.requests i).cmpl = some k ∧
        ⟨k, Outcome.failed Err.deadlineExceeded⟩ ∈ (deadlineTick c).calls) ∧
    (∀ i, expiresBySpec (deadlineTick c).now (c.requests i) = false →
      (deadlineTick c).requests i = c.requests i) ∧
    (∀ i, (c.requests i).isAsync = 0 → (deadlineTick c).requests i = c.requests i) := by
  have heq := deadlineTick_eq_spec c hrun hterm
  have hnow : (deadlineTick c).now = (c.now + 1) % u32 := by rw [heq]; rfl
  have hreq : ∀ i, (deadlineTick c).requests i =
      if i < queueSize ∧ expiresBySpec ((c.now + 1) % u32) (c.requests i) = true then
        expiredSlot (c.requests i)
      else c.requests i := by
    intro i; rw [heq]; rfl
  have hkeep : ∀ i, expiresBySpec (deadlineTick c).now (c.requests i) = false →
      (deadlineTick c).requests i = c.requests i := by
    intro i he
    rw [hnow] at he
    rw [hreq i]
    simp [he]
  refine ⟨heq, hnow, ?_, ?_, ?_, hkeep, ?_⟩
  · intro h
    rw [hnow]
    exact Nat.mod_eq_of_lt h
  · intro i
    exact expiresBySpec_iff _ _
  · intro i hi he
    have he2 := he
    rw [hnow] at he2
    obtain ⟨_, _, _, _, hc⟩ := (expiresBySpec_iff _ _).1 he2
    obtain ⟨k, hk⟩ := Option.isSome_iff_exists.1 hc
    have hmem : i ∈ (List.range queueSize).filter
        (fun i => expiresBySpec ((c.now + 1) % u32) (c.requests i)) :=
      List.mem_filter.2 ⟨List.mem_range.2 hi, he2⟩
    refine ⟨?_, ?_, k, hk, ?_⟩
    · rw [hreq i]
      simp only [hi, he2, and_self, if_true]
      rfl
    · rw [heq]
      exact List.mem_append.2 (Or.inr (List.mem_map.2 ⟨i, hmem, rfl⟩))
    · rw [heq]
      refine List.mem_append.2 (Or.inr (List.mem_filterMap.2 ⟨i, hmem, ?_⟩))
      rw [hk]
      rfl
  · intro i h0
    apply hkeep
    cases he : expiresBySpec (deadlineTick c).now (c.requests i) with
    | false => rfl
    | true =>
      obtain ⟨_, _, _, ha, _⟩ := (expiresBySpec_iff _ _).1 he
      exact absurd h0 ha

theorem C14_witness :
    registeredSample.errCh = false ∧ registeredSample.termCh = false ∧
    (deadlineTick registeredSample).now = (registeredSample.now + 1) % u32 ∧
    (deadlineTick registeredSample).now = registeredSample.now + 1 ∧
    (deadlineTick registeredSample).requests 1 = registeredSample.requests 1 :=
  have h := C14_tick_as_specified registeredSample rfl rfl
  ⟨rfl, rfl, h.2.1, h.2.2.1 (by decide), h.2.2.2.2.2.2 1 (by decide)⟩

/-! ## A frame with an invalid sequence number -/

/-- What `readReply` does with a frame whose magic and version pass and whose sequence
number is not valid: the error, with only the header consumed. -/
theorem readReply_invalid (c : connection) (hdr rest : List Nat)
    (hlen : hdr.length = cprotoHdrLen) (hrd : c.rdBuf = hdr ++ rest)
    (hmagic : field hdr 0 4 = cprotoMagic)
    (hver : cprotoMinCompatVersion ≤ (field hdr 4 2 &&& cprotoVersionMask))
    (hinv : seqNumIsValid (field hdr 12 4) = false) :
    readReply c =
      (some (Err.invalidSeqNum (field hdr 12 4)),
       { noteSnappy c (field hdr 4 2 &&& cprotoVersionMask) with rdBuf := rest }) := by
  unfold readReply
  rw [hrd, readFull_append hdr _ _ hlen]
  have hv : ¬ (field hdr 4 2 &&& cprotoVersionMask) < cprotoMinCompatVersion := by omega
  simp only [noteSnappy_eq, hmagic, ne_eq, not_true_eq_false, if_false, hv, hinv, Bool.not_false,
    if_true]

/-! ## Error, signal and socket under the steps of the loops -/

theorem deliverReply_frame (c : connection) (rseq : Nat) (answ : NetBuffer) :
    (deliverReply c rseq answ).2.err = c.err ∧ (deliverReply c rseq answ).2.errCh = c.errCh ∧
      (deliverReply c rseq answ).2.conn = c.conn := by
  rcases deliverReply_cases c rseq answ with h | h | ⟨k, _, _, _, h⟩ | ⟨q, _, _, h⟩ <;>
    (rw [h]; exact ⟨rfl, rfl, rfl⟩)

theorem readReply_frame (c : connection) :
    (readReply c).2.err = c.err ∧ (readReply c).2.errCh = c.errCh ∧
      (readReply c).2.conn = c.conn := by
  unfold readReply
  split
  · exact ⟨rfl, rfl, rfl⟩
  · dsimp only
    split
    · exact ⟨rfl, rfl, rfl⟩
    · split
      · exact ⟨rfl, rfl, rfl⟩
      · simp only [noteSnappy_eq]
        split
        · exact ⟨rfl, rfl, rfl⟩
        · split
          · exact ⟨rfl, rfl, rfl⟩
          · split
            · exact ⟨rfl, rfl, rfl⟩
            · exact deliverReply_frame _ _ _

theorem tickSlot_frame (now : Nat) (c : connection) (j : Nat) :
    (tickSlot now c j).conn = c.conn := by
  rcases tickSlot_cases now c j with h | ⟨k, _, _, _, _, _, h⟩
  · rw [h]
  · rw [h]; rfl

theorem deadlineTick_frame (c : connection) : (deadlineTick c).conn = c.conn := by
  unfold deadlineTick
  split
  · rfl
  · exact foldl_inv (tickSlot _) (fun c2 => c2.conn = c.conn)
      (fun c2 j h => (tickSlot_frame _ c2 j).trans h) _ _ rfl

theorem closeSock_shut (s : Sock) : closeSock s ≠ Sock.isOpen := by
  cases s <;> simp [closeSock]

/-- A socket that is not open stays so under `onError`. -/
theorem onError_shut (c : connection) (e : Err) (h : c.conn ≠ Sock.isOpen) :
    (onError c e).conn ≠ Sock.isOpen := by
  cases he : c.err with
  | none => rw [(onError_records c e he).2.2]; exact closeSock_shut _
  | some e0 => rw [onError_noop c e0 e he]; exact h

theorem readLoopStep_shut (c : connection) (h : c.conn ≠ Sock.isOpen) :
    (readLoopStep c).conn ≠ Sock.isOpen := by
  unfold readLoopStep
  have hf := (readReply_frame c).2.2
  split
  · next e c1 heq =>
    rw [heq] at hf
    exact onError_shut c1 e (by rw [hf]; exact h)
  · next c1 heq =>
    rw [heq] at hf
    rw [hf]; exact h

/-- A sticky error with its signal stays as it is under a step of the read loop. -/
theorem readLoopStep_stuck (c : connection) (e : Err) (herr : c.err = some e) :
    (readLoopStep c).err = c.err ∧ (readLoopStep c).errCh = c.errCh ∧
      (readLoopStep c).conn = c.conn := by
  unfold readLoopStep
  have hf := readReply_frame c
  split
  · next e2 c1 heq =>
    rw [heq] at hf
    rw [onError_noop c1 e e2 (hf.1.trans herr)]
    exact hf
  · next c1 heq =>
    rw [heq] at hf
    exact hf

theorem deadlineTick_stuck (c : connection) (hch : c.errCh = true) : deadlineTick c = c := by
  unfold deadlineTick
  simp [hch]

/-! ## The wait of a synchronous call under a sticky error -/

theorem waitReply_stuck (seq reqID : Nat) (e : Err) (sched : List Sched) :
    ∀ c : connection, c.err = some e → c.errCh = true →
      waitWake seq reqID sched c = some Sched.errSignal →
      ∃ c2, waitReply seq reqID sched c = some ((none, some e), c2) ∧ c2.err = some e ∧
        c2.conn = c.conn := by
  induction sched with
  | nil => intro c _ _ h; simp [waitWake] at h
  | cons s t ih =>
    intro c herr hch hw
    cases s with
    | recv =>
      simp only [waitWake] at hw
      simp only [waitReply]
      cases hq : (c.requests reqID).repl with
      | none =>
        rw [hq] at hw
        exact ih c herr hch hw
      | some l =>
        cases l with
        | nil =>
          rw [hq] at hw
          exact ih c herr hch hw
        | cons b q =>
          rw [hq] at hw
          by_cases hb : b.rseq = seq
          · simp [hb] at hw
          · simp only [hb, if_false] at hw ⊢
            exact ih _ herr hch hw
    | errSignal =>
      refine ⟨c, ?_, herr, rfl⟩
      simp [waitReply, hch, herr]
    | ctxDone e2 => simp [waitWake] at hw
    | arrive bytes =>
      simp only [waitWake] at hw
      simp only [waitReply]
      exact ih _ herr hch hw
    | readLoop =>
      simp only [waitWake] at hw
      simp only [waitReply]
      have hs := readLoopStep_stuck c e herr
      obtain ⟨c2, h1, h2, h3⟩ := ih _ (hs.1.trans herr) (hs.2.1.trans hch) hw
      exact ⟨c2, h1, h2, h3.trans hs.2.2⟩
    | tick =>
      simp only [waitWake] at hw
      simp only [waitReply]
      rw [deadlineTick_stuck c hch] at hw ⊢
      exact ih c herr hch hw
    | fail e2 =>
      simp only [waitWake] at hw
      simp only [waitReply]
      rw [onError_noop c e e2 herr] at hw ⊢
      exact ih c herr hch hw

theorem awaitSeqNum_frame (c : connection) (ctx : Context) (now : Int) (pick : Bool)
    (a : Acquired) (c1 : connection) (h : awaitSeqNum c ctx now pick = some (a, c1)) :
    c1.err = c.err ∧ c1.errCh = c.errCh ∧ c1.conn = c.conn := by
  rcases awaitSeqNum_cases c ctx now pick a c1 h with ⟨_, h1⟩ | ⟨_, _, _, _, h1⟩ |
    ⟨_, _, _, _, h1, _⟩ <;> rw [h1] <;> exact ⟨rfl, rfl, rfl⟩

/-- An `rpcCall` on a connection with a sticky error that is woken by `errCh` returns the
sticky error. -/
theorem rpcCall_woken (dec : Decoder) (c : connection) (e : Err) (herr : c.err = some e)
    (hch : c.errCh = true) (ctx : Context) (t0 t1 : Int) (pick : Bool) (sched : List Sched)
    (cmd nt : Nat) (args : List Arg)
    (hw : rpcCallWake c ctx t0 t1 pick sched cmd nt args = some Sched.errSignal) :
    ∃ c2, rpcCall dec c ctx t0 t1 pick sched cmd nt args = some ((none, some e), c2) ∧
      c2.conn = c.conn ∧ c2.err = some e := by
  unfold rpcCallWake at hw
  unfold rpcCall
  dsimp only at hw ⊢
  cases ha : awaitSeqNum c (applyTimeout ctx nt t0) t1 pick with
  | none => rw [ha] at hw; simp at hw
  | some p =>
    obtain ⟨a, c1⟩ := p
    rw [ha] at hw
    dsimp only at hw ⊢
    have hf := awaitSeqNum_frame c _ t1 pick a c1 ha
    cases hae : a.err with
    | some e1 => rw [hae] at hw; simp at hw
    | none =>
      rw [hae] at hw
      dsimp only at hw ⊢
      generalize hc3 : packRPC (c1.setReq (a.seq % queueSize)
        { c1.requests (a.seq % queueSize) with seqNum := a.seq }) cmd a.seq
        (milliseconds a.remainingTimeout) args = c3 at hw ⊢
      have h3 : c3.err = some e ∧ c3.errCh = true ∧ c3.conn = c.conn := by
        rw [← hc3]; exact ⟨hf.1.trans herr, hf.2.1.trans hch, hf.2.2⟩
      obtain ⟨c4, h4, h5, h6⟩ := waitReply_stuck a.seq (a.seq % queueSize) e sched c3 h3.1 h3.2.1 hw
      refine ⟨release c4 a.seq, ?_, ?_, ?_⟩
      · rw [h4]
      · rw [release_frame]; exact h6.trans h3.2.2
      · rw [release_frame2]; exact h5

/-! ## A socket that is not open carries nothing -/

theorem release_shut (c : connection) (seq : Nat) (h : c.conn ≠ Sock.isOpen) :
    (release c seq).conn ≠ Sock.isOpen := by
  rw [release_frame]; exact h

theorem recvReply_frame (c : connection) (seq : Nat) : (recvReply c seq).conn = c.conn := by
  unfold recvReply
  dsimp only
  split <;> rfl

theorem Delivery_shut (d : Delivery) (c : connection) (h : c.conn ≠ Sock.isOpen) :
    (d.run c).conn ≠ Sock.isOpen := by
  cases d with
  | arrive bytes => exact h
  | readLoop => exact readLoopStep_shut c h
  | tick =>
    simp only [Delivery.run]
    rw [deadlineTick_frame]; exact h
  | fail e => exact onError_shut c e h

theorem Op_shut (o : Op) (s : Sys) (h : s.c.conn ≠ Sock.isOpen) :
    (o.run s).c.conn ≠ Sock.isOpen := by
  cases o with
  | acquire ctx now pick =>
    simp only [Op.run]
    cases ha : awaitSeqNum s.c ctx now pick with
    | none => exact h
    | some p =>
      obtain ⟨a, c1⟩ := p
      have hf := (awaitSeqNum_frame s.c ctx now pick a c1 ha).2.2
      dsimp only
      split <;> (dsimp only; rw [hf]; exact h)
  | stampSync seq cmd t args =>
    simp only [Op.run]
    split
    · exact h
    · exact h
  | recvSync seq =>
    simp only [Op.run]
    split
    · dsimp only
      rw [recvReply_frame]; exact h
    · exact h
  | releaseSync seq =>
    simp only [Op.run]
    split
    · exact release_shut s.c seq h
    · exact h
  | registerAsync seq timeout cmpl cmd args =>
    simp only [Op.run]
    split
    · exact h
    · exact h
  | arrive bytes => exact h
  | readLoop => exact readLoopStep_shut s.c h
  | tick =>
    simp only [Op.run]
    rw [deadlineTick_frame]; exact h
  | fail e => exact onError_shut s.c e h

/-- On a socket that is not open a pass of the write loop writes nothing and leaves the
socket as it is: not open. -/
theorem writeLoopPass_shut (c : connection) (pk : Bool) (we : Option (Nat × Err)) (ce : Err)
    (h : c.conn ≠ Sock.isOpen) :
    (writeLoopPass c pk we ce).sent = [] ∧
      (writeLoopPass c pk we ce).c.conn ≠ Sock.isOpen := by
  unfold writeLoopPass
  dsimp only
  split
  · exact ⟨rfl, h⟩
  · split
    · exact ⟨rfl, h⟩
    · split
      · split
        · exact ⟨rfl, h⟩
        · exact ⟨rfl, h⟩
      · split
        · next hopen => exact absurd hopen h
        · exact ⟨rfl, onError_shut _ ce (by exact h)⟩

theorem Act_shut (a : Act) (w : Wire) (h : w.s.c.conn ≠ Sock.isOpen) :
    (a.run w).sent = w.sent ∧ (a.run w).s.c.conn ≠ Sock.isOpen := by
  cases a with
  | table o => exact ⟨rfl, Op_shut o w.s h⟩
  | writePass pk we ce =>
    have hp := writeLoopPass_shut w.s.c pk we ce h
    simp only [Act.run]
    rw [hp.1]
    exact ⟨List.append_nil _, hp.2⟩

/-- Nothing is written while the socket is not open, and no step opens it. -/
theorem runActs_shut (acts : List Act) :
    ∀ w : Wire, w.s.c.conn ≠ Sock.isOpen →
      (runActs acts w).sent = w.sent ∧ (runActs acts w).s.c.conn ≠ Sock.isOpen := by
  induction acts with
  | nil => intro w h; exact ⟨rfl, h⟩
  | cons a t ih =>
    intro w h
    have ha := Act_shut a w h
    have ht := ih (a.run w) ha.2
    exact ⟨ht.1.trans ha.1, ht.2⟩

theorem waitReply_shut (seq reqID : Nat) (sched : List Sched) :
    ∀ (c : connection) (r : Option NetBuffer × Option Err) (c2 : connection),
      c.conn ≠ Sock.isOpen → waitReply seq reqID sched c = some (r, c2) →
      c2.conn ≠ Sock.isOpen := by
  induction sched with
  | nil => intro c r c2 _ h; simp [waitReply] at h
  | cons s t ih =>
    intro c r c2 hc hw
    cases s with
    | recv =>
      simp only [waitReply] at hw
      cases hq : (c.requests reqID).repl with
      | none => rw [hq] at hw; exact ih c r c2 hc hw
      | some l =>
        cases l with
        | nil => rw [hq] at hw; exact ih c r c2 hc hw
        | cons b q =>
          rw [hq] at hw
          dsimp only at hw
          split at hw
          · simp only [Option.some.injEq, Prod.mk.injEq] at hw
            rw [← hw.2]; exact hc
          · exact ih _ r c2 (by exact hc) hw
    | errSignal =>
      simp only [waitReply] at hw
      split at hw
      · simp only [Option.some.injEq, Prod.mk.injEq] at hw
        rw [← hw.2]; exact hc
      · exact ih c r c2 hc hw
    | ctxDone e2 =>
      simp only [waitReply, Option.some.injEq, Prod.mk.injEq] at hw
      rw [← hw.2]; exact hc
    | arrive bytes =>
      simp only [waitReply] at hw
      exact ih _ r c2 (by exact hc) hw
    | readLoop =>
      simp only [waitReply] at hw
      exact ih _ r c2 (readLoopStep_shut c hc) hw
    | tick =>
      simp only [waitReply] at hw
      exact ih _ r c2 (by rw [deadlineTick_frame]; exact hc) hw
    | fail e2 =>
      simp only [waitReply] at hw
      exact ih _ r c2 (onError_shut c e2 hc) hw

/-- An `rpcCall` on a connection whose socket is not open leaves it so, whatever the
schedule. -/
theorem rpcCall_shut (dec : Decoder) (c : connection) (ctx : Context) (t0 t1 : Int)
    (pick : Bool) (sched : List Sched) (cmd nt : Nat) (args : List Arg)
    (r : Option NetBuffer × Option Err) (c2 : connection) (hc : c.conn ≠ Sock.isOpen)
    (h : rpcCall dec c ctx t0 t1 pick sched cmd nt args = some (r, c2)) :
    c2.conn ≠ Sock.isOpen := by
  unfold rpcCall at h
  dsimp only at h
  cases ha : awaitSeqNum c (applyTimeout ctx nt t0) t1 pick with
  | none => rw [ha] at h; simp at h
  | some p =>
    obtain ⟨a, c1⟩ := p
    rw [ha] at h
    dsimp only at h
    have hf := (awaitSeqNum_frame c _ t1 pick a c1 ha).2.2
    have hc1 : c1.conn ≠ Sock.isOpen := by rw [hf]; exact hc
    cases hae : a.err with
    | some e1 =>
      rw [hae] at h
      simp only [Option.some.injEq, Prod.mk.injEq] at h
      rw [← h.2]; exact hc1
    | none =>
      rw [hae] at h
      dsimp only at h
      cases hwr : waitReply a.seq (a.seq % queueSize) sched
          (packRPC (c1.setReq (a.seq % queueSize)
            { c1.requests (a.seq % queueSize) with seqNum := a.seq }) cmd a.seq
            (milliseconds a.remainingTimeout) args) with
      | none => rw [hwr] at h; simp at h
      | some q =>
        obtain ⟨⟨buf, err⟩, c4⟩ := q
        rw [hwr] at h
        have h4 : c4.conn ≠ Sock.isOpen :=
          waitReply_shut _ _ sched _ _ c4 (by exact hc1) hwr
        have h5 := release_shut c4 a.seq h4
        dsimp only at h
        split at h
        · simp only [Option.some.injEq, Prod.mk.injEq] at h
          rw [← h.2]; exact h5
        · split at h
          · split at h
            · simp only [Option.some.injEq, Prod.mk.injEq] at h
              rw [← h.2]; exact h5
            · simp only [Option.some.injEq, Prod.mk.injEq] at h
              rw [← h.2]; exact h5
          · simp only [Option.some.injEq, Prod.mk.injEq] at h
            rw [← h.2]; exact h5

/-! ## The wake case and the result of a wait -/

/-- A wait ends under a schedule exactly when one of its `select` cases wakes it. -/
theorem waitWake_none (seq reqID : Nat) (sched : List Sched) :
    ∀ c : connection, waitWake seq reqID sched c = none ↔ waitReply seq reqID sched c = none := by
  induction sched with
  | nil => intro c; simp [waitWake, waitReply]
  | cons s t ih =>
    intro c
    cases s with
    | recv =>
      simp only [waitWake, waitReply]
      cases hq : (c.requests reqID).repl with
      | none => exact ih c
      | some l =>
        cases l with
        | nil => exact ih c
        | cons b q =>
          dsimp only
          split
          · simp
          · exact ih _
    | errSignal =>
      simp only [waitWake, waitReply]
      split
      · simp
      · exact ih c
    | ctxDone e2 => simp [waitWake, waitReply]
    | arrive bytes => simp only [waitWake, waitReply]; exact ih _
    | readLoop => simp only [waitWake, waitReply]; exact ih _
    | tick => simp only [waitWake, waitReply]; exact ih _
    | fail e2 => simp only [waitWake, waitReply]; exact ih _

/-- The result of a wait is the one of the case that wakes it: the buffer for `recv`, the
connection's error with `errCh` closed for `errSignal`, the context's error for `ctxDone`. -/
theorem waitWake_result (seq reqID : Nat) (sched : List Sched) :
    ∀ (c : connection) (r : Option NetBuffer × Option Err) (c2 : connection),
      waitReply seq reqID sched c = some (r, c2) →
      (waitWake seq reqID sched c = some Sched.recv ∧ ∃ b, r = (some b, none)) ∨
      (waitWake seq reqID sched c = some Sched.errSignal ∧ r = (none, c2.err) ∧
        c2.errCh = true) ∨
      (∃ e, waitWake seq reqID sched c = some (Sched.ctxDone e) ∧ r = (none, some e)) := by
  induction sched with
  | nil => intro c r c2 h; simp [waitReply] at h
  | cons s t ih =>
    intro c r c2 hw
    cases s with
    | recv =>
      simp only [waitReply] at hw
      simp only [waitWake]
      cases hq : (c.requests reqID).repl with
      | none => rw [hq] at hw; exact ih c r c2 hw
      | some l =>
        cases l with
        | nil => rw [hq] at hw; exact ih c r c2 hw
        | cons b q =>
          rw [hq] at hw
          dsimp only at hw ⊢
          by_cases hb : b.rseq = seq
          · simp only [hb, if_true, Option.some.injEq, Prod.mk.injEq] at hw ⊢
            exact Or.inl ⟨trivial, b.buf, hw.1.symm⟩
          · simp only [hb, if_false] at hw ⊢
            exact ih _ r c2 hw
    | errSignal =>
      simp only [waitReply] at hw
      simp only [waitWake]
      by_cases hch : c.errCh = true
      · simp only [hch, if_true, Option.some.injEq, Prod.mk.injEq] at hw ⊢
        refine Or.inr (Or.inl ⟨trivial, ?_, ?_⟩)
        · rw [← hw.2]; exact hw.1.symm
        · rw [← hw.2]; exact hch
      · simp only [hch, Bool.false_eq_true, if_false] at hw ⊢
        exact ih c r c2 hw
    | ctxDone e2 =>
      simp only [waitReply, Option.some.injEq, Prod.mk.injEq] at hw
      simp only [waitWake]
      exact Or.inr (Or.inr ⟨e2, rfl, hw.1.symm⟩)
    | arrive bytes =>
      simp only [waitReply] at hw
      simp only [waitWake]
      exact ih _ r c2 hw
    | readLoop =>
      simp only [waitReply] at hw
      simp only [waitWake]
      exact ih _ r c2 hw
    | tick =>
      simp only [waitReply] at hw
      simp only [waitWake]
      exact ih _ r c2 hw
    | fail e2 =>
      simp only [waitReply] at hw
      simp only [waitWake]
      exact ih _ r c2 hw

/-! ## Asynchronous call with steps in between -/

theorem rpcCallAsyncRacing_nil (c : connection) (ctx : Context) (t0 t1 : Int) (pick : Bool)
    (cmd nt k : Nat) (args : List Arg) :
    rpcCallAsyncRacing c ctx t0 t1 pick cmd nt k args [] [] [] =
      rpcCallAsync c ctx t0 t1 pick cmd nt k args := rfl

theorem fresh_chain (k : Nat) (c c2 : connection) (h : Chain c c2)
    (hf : invocations k c = 0 ∧ pending k c = 0) :
    invocations k c2 = 0 ∧ pending k c2 = 0 := by
  have := (law_chain k c c2 h).1
  omega

theorem fresh_acquire (k : Nat) (c : connection) (ctx : Context) (now : Int) (pick : Bool)
    (a : Acquired) (c1 : connection) (h : awaitSeqNum c ctx now pick = some (a, c1))
    (hf : invocations k c = 0 ∧ pending k c = 0) :
    invocations k c1 = 0 ∧ pending k c1 = 0 := by
  have hc1 : c1.requests = c.requests ∧ c1.calls = c.calls := by
    rcases awaitSeqNum_cases _ _ _ _ _ _ h with ⟨_, hc⟩ | ⟨_, _, _, _, hc⟩ |
      ⟨_, _, _, _, hc, _⟩ <;> rw [hc] <;> exact ⟨rfl, rfl⟩
  unfold invocations pending at *
  rw [hc1.1, hc1.2]
  exact hf

/-- A completion that has not been seen before and is called at once is called once and
held by no slot. -/
theorem law_fail (k : Nat) (c1 : connection) (e : Err)
    (hf : invocations k c1 = 0 ∧ pending k c1 = 0) :
    invocations k { c1 with calls := c1.calls ++ [⟨k, Outcome.failed e⟩] } +
      pending k { c1 with calls := c1.calls ++ [⟨k, Outcome.failed e⟩] } = 1 ∧
    MarkedAsync k { c1 with calls := c1.calls ++ [⟨k, Outcome.failed e⟩] } := by
  have hp : pending k { c1 with calls := c1.calls ++ [⟨k, Outcome.failed e⟩] } = 0 := hf.2
  refine ⟨?_, ?_⟩
  · rw [invocations_push, hp, hf.1]; simp
  · intro i hi hk
    exact absurd hk (pending_zero k _ hp i hi)

/-- A completion that has not been seen before and is registered sits in exactly one slot,
marked asynchronous, and has not been called. -/
theorem law_register (k : Nat) (c1 : connection) (seq : Nat) (timeout : Int)
    (hf : invocations k c1 = 0 ∧ pending k c1 = 0) :
    invocations k (registerAsync c1 seq timeout k) +
      pending k (registerAsync c1 seq timeout k) = 1 ∧
    MarkedAsync k (registerAsync c1 seq timeout k) := by
  have hreg := pending_register k c1 seq timeout hf.2
  have hinv : invocations k (registerAsync c1 seq timeout k) = 0 := hf.1
  refine ⟨by rw [hreg, hinv], ?_⟩
  intro i hi hk
  by_cases hji : i = seq % queueSize
  · subst hji
    simp [registerAsync, connection.setReq]
  · have hreq : (registerAsync c1 seq timeout k).requests i = c1.requests i := by
      simp [registerAsync, connection.setReq, Function.update_noteq hji]
    rw [hreq] at hk
    exact absurd hk (pending_zero k c1 hf.2 i hi)

/-- What `rpcCallAsync` leaves when other goroutines act while it runs: the completion was
called once, or it sits in exactly one slot, marked asynchronous. -/
theorem rpcCallAsyncRacing_law (c0 c : connection) (ctx : Context) (t0 t1 : Int) (pick : Bool)
    (cmd nt k : Nat) (args : List Arg) (b1 b2 b3 : List Delivery)
    (hfresh : invocations k c0 = 0 ∧ pending k c0 = 0)
    (hcall : rpcCallAsyncRacing c0 ctx t0 t1 pick cmd nt k args b1 b2 b3 = some c) :
    invocations k c + pending k c = 1 ∧ MarkedAsync k c := by
  unfold rpcCallAsyncRacing at hcall
  split at hcall
  · cases hcall
    exact law_fail k c0 _ hfresh
  · dsimp only at hcall
    split at hcall
    · cases hcall
    · next a c1 heq =>
      have h1 := fresh_chain k _ _ (runDelivery_chain b1 c0) hfresh
      have h2 := fresh_acquire k _ _ _ _ a c1 heq h1
      split at hcall
      · cases hcall
        exact law_fail k c1 _ h2
      · cases hcall
        have h3 := law_register k _ a.seq a.remainingTimeout
          (fresh_chain k _ _ (runDelivery_chain b2 c1) h2)
        have hch : Chain (registerAsync (runDelivery b2 c1) a.seq a.remainingTimeout k)
            (packRPC (runDelivery b3 (registerAsync (runDelivery b2 c1) a.seq
              a.remainingTimeout k)) cmd a.seq (milliseconds a.remainingTimeout) args) :=
          Chain.trans _ _ _ (runDelivery_chain b3 _) (Chain.same _ _ (same_packRPC _ _ _ _ _))
        have h4 := (law_chain k _ _ hch).1
        exact ⟨by omega, MarkedAsync_chain k _ _ hch h3.2⟩

/-! ## The guards of the three delivery sites -/

theorem pending_pos (k : Nat) (c : connection) (i : Nat) (hi : i < queueSize)
    (hk : (c.requests i).cmpl = some k) : 0 < pending k c := by
  unfold pending
  apply List.length_pos_of_mem
  exact List.mem_filter.2 ⟨List.mem_range.2 hi, by simpa using hk⟩

theorem pending_holder (k : Nat) (c : connection) (h : 0 < pending k c) :
    ∃ i, i < queueSize ∧ (c.requests i).cmpl = some k := by
  unfold pending at h
  obtain ⟨i, hi⟩ := List.exists_mem_of_length_pos h
  rw [List.mem_filter] at hi
  exact ⟨i, List.mem_range.1 hi.1, by simpa using hi.2⟩

theorem onErrorSlot_calls (e : Err) (c : connection) (j : Nat) (x : Invocation)
    (h : x ∈ c.calls) : x ∈ (onErrorSlot e c j).calls := by
  rcases onErrorSlot_cases e c j with h2 | ⟨k, _, _, h2⟩
  · rw [h2]; exact h
  · rw [h2]; exact List.mem_append.2 (Or.inl h)

theorem onErrorFold_delivers (e : Err) (l : List Nat) (c : connection) (i k : Nat) (hi : i ∈ l)
    (hG : (c.requests i).cmpl = some k ∧ (c.requests i).isAsync ≠ 0) :
    ⟨k, Outcome.failed e⟩ ∈ (l.foldl (onErrorSlot e) c).calls :=
  foldl_reaches (onErrorSlot e) i
    (fun r => r.cmpl = some k ∧ r.isAsync ≠ 0)
    (fun c => ⟨k, Outcome.failed e⟩ ∈ c.calls)
    (fun c j hj => onErrorSlot_other e c j i (Ne.symm hj))
    (fun c h => by
      rw [onErrorSlot_claims e c i k h.1 h.2]
      exact List.mem_append.2 (Or.inr (List.mem_singleton.2 rfl)))
    (fun c j h => onErrorSlot_calls e c j _ h) l hi c hG

/-- The error fan-out on a connection without an error calls a registered completion with
the error. -/
theorem onError_delivers (c : connection) (e : Err) (i k : Nat) (hi : i < queueSize)
    (hc : c.err = none) (hk : (c.requests i).cmpl = some k)
    (ha : (c.requests i).isAsync ≠ 0) :
    ⟨k, Outcome.failed e⟩ ∈ (onError c e).calls := by
  unfold onError
  simp only [hc]
  exact onErrorFold_delivers e _ _ i k (List.mem_range.2 hi) ⟨hk, ha⟩

theorem deliverReply_claims (c : connection) (rseq : Nat) (answ : NetBuffer) (k : Nat)
    (hk : (c.requests (rseq % queueSize)).cmpl = some k)
    (ha : (c.requests (rseq % queueSize)).isAsync ≠ 0)
    (hs : (c.requests (rseq % queueSize)).seqNum = rseq) :
    deliverReply c rseq answ = (none, claimSlot c (rseq % queueSize)
      (c.requests (rseq % queueSize)).deadline k (Outcome.answer answ)) := by
  unfold deliverReply claimSlot
  simp only [ha, ne_eq, not_false_eq_true, if_true, hk, hs, connection.setReq]

/-- What `readReply` does with a complete frame whose header passes every check and whose
sequence number is the stamp of its slot: the payload goes to `deliverReply`. -/
theorem readReply_match (c : connection) (hdr payload rest : List Nat)
    (hlen : hdr.length = cprotoHdrLen) (hrd : c.rdBuf = hdr ++ payload ++ rest)
    (hmagic : field hdr 0 4 = cprotoMagic)
    (hver : cprotoMinCompatVersion ≤ (field hdr 4 2 &&& cprotoVersionMask))
    (hsize : payload.length = field hdr 8 4)
    (hvalid : seqNumIsValid (field hdr 12 4) = true)
    (hstamp : (c.requests (field hdr 12 4 % queueSize)).seqNum = field hdr 12 4) :
    readReply c =
      deliverReply { noteSnappy c (field hdr 4 2 &&& cprotoVersionMask) with rdBuf := rest }
        (field hdr 12 4)
        ⟨payload, decide ((field hdr 4 2 &&& cprotoVersionCompressionFlag) ≠ 0)⟩ := by
  unfold readReply
  rw [hrd, List.append_assoc, readFull_append hdr _ _ hlen]
  have hv : ¬ (field hdr 4 2 &&& cprotoVersionMask) < cprotoMinCompatVersion := by omega
  simp only [noteSnappy_eq, hmagic, ne_eq, not_true_eq_false, if_false, hv, hvalid, Bool.not_true,
    hstamp, readFull_append payload rest _ hsize]
  trivial

/-! ## Claims C2 and C3, amended -/

/-- C2 (amended): for a frame with the right magic and a compatible version, (1) if the frame
is complete and its sequence number is valid (below `maxSeqNum`) and differs from the stamp
of its slot, `readReply` discards it silently: no error, no slot and no reply channel
changed, no completion invoked, the pool unchanged, and exactly the header and `size`
payload bytes consumed; (2) if its sequence number is not valid, `readReply` returns the
error "invalid seq num", whatever the stamp of the slot, with no slot changed, no
completion invoked, the pool unchanged and only the header consumed. -/
theorem C2_stale_reply_discarded (c : connection) (hdr : List Nat)
    (hlen : hdr.length = cprotoHdrLen)
    (hmagic : field hdr 0 4 = cprotoMagic)
    (hver : cprotoMinCompatVersion ≤ (field hdr 4 2 &&& cprotoVersionMask)) :
    (∀ payload rest : List Nat, c.rdBuf = hdr ++ payload ++ rest →
      payload.length = field hdr 8 4 →
      seqNumIsValid (field hdr 12 4) = true →
      (c.requests (field hdr 12 4 % queueSize)).seqNum ≠ field hdr 12 4 →
      (readReply c).1 = none ∧ (readReply c).2.requests = c.requests ∧
        (readReply c).2.calls = c.calls ∧ (readReply c).2.seqs = c.seqs ∧
        (readReply c).2.rdBuf = rest) ∧
    (∀ rest : List Nat, c.rdBuf = hdr ++ rest →
      seqNumIsValid (field hdr 12 4) = false →
      (readReply c).1 = some (Err.invalidSeqNum (field hdr 12 4)) ∧
        (readReply c).2.requests = c.requests ∧ (readReply c).2.calls = c.calls ∧
        (readReply c).2.seqs = c.seqs ∧ (readReply c).2.rdBuf = rest) := by
  constructor
  · intro payload rest hrd hsize hvalid hstale
    rw [readReply_stale c hdr payload rest hlen hrd hmagic hver hsize hvalid hstale,
      noteSnappy_eq]
    exact ⟨rfl, rfl, rfl, rfl, rfl⟩
  · intro rest hrd hinv
    rw [readReply_invalid c hdr rest hlen hrd hmagic hver hinv, noteSnappy_eq]
    exact ⟨rfl, rfl, rfl, rfl, rfl⟩

theorem C2_witness :
    (dialled.requests (field headerSeqFive 12 4 % queueSize)).seqNum ≠ field headerSeqFive 12 4 ∧
    (readReply { dialled with rdBuf := headerSeqFive ++ [1, 2] ++ [9] }).1 = none ∧
    (readReply { dialled with rdBuf := headerSeqFive ++ [1, 2] ++ [9] }).2.rdBuf = [9] ∧
    seqNumIsValid (field headerSeqBeyond 12 4) = false ∧
    (readReply { dialled with rdBuf := headerSeqBeyond ++ [9] }).1 =
      some (Err.invalidSeqNum (field headerSeqBeyond 12 4)) ∧
    (readReply { dialled with rdBuf := headerSeqBeyond ++ [9] }).2.rdBuf = [9] :=
  have h := (C2_stale_reply_discarded { dialled with rdBuf := headerSeqFive ++ [1, 2] ++ [9] }
    headerSeqFive (by decide) (by decide) (by decide)).1 [1, 2] [9] rfl (by decide) (by decide)
    (by decide)
  have h2 := (C2_stale_reply_discarded { dialled with rdBuf := headerSeqBeyond ++ [9] }
    headerSeqBeyond (by decide) (by decide) (by decide)).2 [9] rfl (by decide)
  ⟨by decide, h.1, h.2.2.2.2, by decide, h2.1, h2.2.2.2.2⟩

/-- C3 (amended): once the sticky error `e` is recorded and `errCh` is closed, (1) every
`rpcCallAsync`, for any context, command and arguments, calls its completion with exactly
`e` and changes nothing else; (2) every `rpcCall` whose context is not done when it
acquires its sequence number and whose first `select` case tried is `errCh` returns exactly
`e`; (3) an `rpcCall` whose context is already done returns the context's error, queues
nothing and stamps no slot; (4) under every schedule, an `rpcCall` that is woken by `errCh`
returns exactly `e`; (5) when the socket is not open, nothing is written to it and nothing
opens it: not in any sequence of table operations and write-loop passes, not after an
`rpcCallAsync`, which queues no frame, and not after an `rpcCall`, whatever its context and
schedule, whose queued frame is therefore never transmitted; (6) `onError` with `e` on an
error-free connection records `e`, closes `errCh` and leaves the socket not open: closed
if it was open. -/
theorem C3_sticky_error_delivered (c : connection) (e : Err) (herr : c.err = some e)
    (hch : c.errCh = true) :
    (∀ (ctx : Context) (t0 t1 : Int) (pick : Bool) (cmd nt k : Nat) (args : List Arg),
      rpcCallAsync c ctx t0 t1 pick cmd nt k args =
        some { c with calls := c.calls ++ [⟨k, Outcome.failed e⟩] }) ∧
    (∀ (dec : Decoder) (ctx : Context) (t0 t1 : Int) (pick : Bool) (sched : List Sched)
      (cmd nt : Nat) (args : List Arg),
      (applyTimeout ctx nt t0).err = none →
      (∀ dl, (applyTimeout ctx nt t0).deadline = some dl → t1 < dl) →
      c.seqs ≠ [] →
      ∃ c2, rpcCall dec c ctx t0 t1 pick (Sched.errSignal :: sched) cmd nt args =
          some ((none, some e), c2) ∧ c2.conn = c.conn ∧ c2.err = some e) ∧
    (∀ (dec : Decoder) (ctx : Context) (t0 t1 : Int) (pick : Bool) (sched : List Sched)
      (cmd nt : Nat) (args : List Arg) (e2 : Err),
      (applyTimeout ctx nt t0).err = some e2 →
      ∃ c2, rpcCall dec c ctx t0 t1 pick sched cmd nt args = some ((none, some e2), c2) ∧
        c2.conn = c.conn ∧ c2.requests = c.requests ∧ c2.wrBuf = c.wrBuf) ∧
    (∀ (dec : Decoder) (ctx : Context) (t0 t1 : Int) (pick : Bool) (sched : List Sched)
      (cmd nt : Nat) (args : List Arg),
      rpcCallWake c ctx t0 t1 pick sched cmd nt args = some Sched.errSignal →
      ∃ c2, rpcCall dec c ctx t0 t1 pick sched cmd nt args = some ((none, some e), c2) ∧
        c2.conn = c.conn ∧ c2.err = some e) ∧
    (c.conn ≠ Sock.isOpen →
      (∀ (held : List Nat) (acts : List Act),
        (runActs acts ⟨⟨c, held⟩, []⟩).sent = [] ∧
          (runActs acts ⟨⟨c, held⟩, []⟩).s.c.conn ≠ Sock.isOpen) ∧
      (∀ (ctx : Context) (t0 t1 : Int) (pick : Bool) (cmd nt k : Nat) (args : List Arg)
        (c2 : connection), rpcCallAsync c ctx t0 t1 pick cmd nt k args = some c2 →
        c2.wrBuf = c.wrBuf ∧ c2.wrKick = c.wrKick ∧
          ∀ (held : List Nat) (acts : List Act), (runActs acts ⟨⟨c2, held⟩, []⟩).sent = []) ∧
      (∀ (dec : Decoder) (ctx : Context) (t0 t1 : Int) (pick : Bool) (sched : List Sched)
        (cmd nt : Nat) (args : List Arg) (r : Option NetBuffer × Option Err) (c2 : connection),
        rpcCall dec c ctx t0 t1 pick sched cmd nt args = some (r, c2) →
        ∀ (held : List Nat) (acts : List Act), (runActs acts ⟨⟨c2, held⟩, []⟩).sent = [])) ∧
    (∀ c0 : connection, c0.err = none →
      (onError c0 e).err = some e ∧ (onError c0 e).errCh = true ∧
        (onError c0 e).conn ≠ Sock.isOpen ∧
        (c0.conn = Sock.isOpen → (onError c0 e).conn = Sock.closed)) := by
  refine ⟨fun ctx t0 t1 pick cmd nt k args =>
      rpcCallAsync_sticky c e herr ctx t0 t1 pick cmd nt k args,
    fun dec ctx t0 t1 pick sched cmd nt args hctx hdl hseqs =>
      rpcCall_sticky dec c e herr hch ctx t0 t1 pick sched cmd nt args hctx hdl hseqs,
    fun dec ctx t0 t1 pick sched cmd nt args e2 hctx =>
      rpcCall_done dec c ctx t0 t1 pick sched cmd nt args e2 hctx,
    fun dec ctx t0 t1 pick sched cmd nt args hw =>
      rpcCall_woken dec c e herr hch ctx t0 t1 pick sched cmd nt args hw,
    ?_, ?_⟩
  · intro hc
    refine ⟨fun held acts => runActs_shut acts ⟨⟨c, held⟩, []⟩ hc, ?_, ?_⟩
    · intro ctx t0 t1 pick cmd nt k args c2 h
      rw [rpcCallAsync_sticky c e herr ctx t0 t1 pick cmd nt k args] at h
      have h2 : c2 = { c with calls := c.calls ++ [⟨k, Outcome.failed e⟩] } :=
        (Option.some.inj h).symm
      subst h2
      exact ⟨rfl, rfl, fun held acts =>
        (runActs_shut acts
          ⟨⟨{ c with calls := c.calls ++ [⟨k, Outcome.failed e⟩] }, held⟩, []⟩ hc).1⟩
    · intro dec ctx t0 t1 pick sched cmd nt args r c2 h held acts
      exact (runActs_shut acts ⟨⟨c2, held⟩, []⟩
        (rpcCall_shut dec c ctx t0 t1 pick sched cmd nt args r c2 hc h)).1
  · intro c0 h0
    have h := onError_records c0 e h0
    refine ⟨h.1, h.2.1, ?_, ?_⟩
    · rw [h.2.2]; exact closeSock_shut _
    · intro hopen
      rw [h.2.2, hopen]
      rfl

theorem C3_witness :
    (onError dialled (Err.io 1)).err = some (Err.io 1) ∧
    (onError dialled (Err.io 1)).errCh = true ∧
    (onError dialled (Err.io 1)).conn = Sock.closed ∧
    rpcCallAsync (onError dialled (Err.io 1)) ⟨some Err.canceled, none⟩ 0 0 true 0 1 7 [] =
      some { onError dialled (Err.io 1) with
        calls := (onError dialled (Err.io 1)).calls ++ [⟨7, Outcome.failed (Err.io 1)⟩] } ∧
    (runActs [Act.table (Op.acquire ⟨none, none⟩ 0 true), Act.table (Op.stampSync 0 1 0 []),
        Act.writePass true none (Err.io 2)] ⟨⟨onError dialled (Err.io 1), []⟩, []⟩).sent = [] ∧
    (runActs [Act.table (Op.acquire ⟨none, none⟩ 0 true), Act.table (Op.stampSync 0 1 0 []),
        Act.writePass true none (Err.io 2)] ⟨⟨dialled, []⟩, []⟩).sent =
      [⟨1, 0, false, [], 0⟩] :=
  have hs := (onError_records dialled (Err.io 1) rfl).2.2.trans
    (rfl : closeSock dialled.conn = Sock.closed)
  have h := C3_sticky_error_delivered (onError dialled (Err.io 1)) (Err.io 1)
    (onError_records dialled (Err.io 1) rfl).1 (onError_records dialled (Err.io 1) rfl).2.1
  ⟨(onError_records dialled (Err.io 1) rfl).1, (onError_records dialled (Err.io 1) rfl).2.1, hs,
    h.1 ⟨some Err.canceled, none⟩ 0 0 true 0 1 7 [],
    ((h.2.2.2.2.1 (by rw [hs]; decide)).1 [] _).1, by decide⟩

/-! ## Claim C1 -/

/-- C1: a completion handed to `rpcCallAsync`, whatever other goroutines do while the call
runs, is after any sequence of delivery steps either still held by exactly one slot and not
yet invoked, or invoked exactly once and held by no slot; once invoked it is never invoked
again.  While a slot still holds it, each delivery site invokes it exactly when its guard
holds: the error fan-out if and only if no error is recorded yet, with the error; the
ticker if and only if it is running and the slot's stamp is valid, its deadline is not zero
and the new clock value has reached it, with `DeadlineExceeded`; the read loop, given a
complete frame for this slot whose header passes the checks, if and only if the frame's
sequence number is the slot's stamp, with the payload. -/
theorem C1_completion_invoked_once (c0 c : connection) (ctx : Context) (t0 t1 : Int)
    (pick : Bool) (cmd nt k : Nat) (args : List Arg)
    (between1 between2 between3 : List Delivery)
    (hfresh : invocations k c0 = 0 ∧ pending k c0 = 0)
    (hcall : rpcCallAsyncRacing c0 ctx t0 t1 pick cmd nt k args between1 between2 between3 =
      some c)
    (steps : List Delivery) (c2 : connection) (hc2 : c2 = runDelivery steps c) :
    invocations k c2 + pending k c2 = 1 ∧
    (∀ more : List Delivery, invocations k c2 = 1 →
      invocations k (runDelivery more c2) = 1) ∧
    (∀ e : Err, c2.err = none → invocations k (onError c2 e) = 1) ∧
    (invocations k c2 = 0 → ∃ i, i < queueSize ∧ (c2.requests i).cmpl = some k) ∧
    (∀ i, i < queueSize → (c2.requests i).cmpl = some k →
      invocations k c2 = 0 ∧
      (∀ e : Err,
        (invocations k (onError c2 e) = 1 ↔ c2.err = none) ∧
        (c2.err = none → ⟨k, Outcome.failed e⟩ ∈ (onError c2 e).calls)) ∧
      (invocations k (deadlineTick c2) = 1 ↔
        (c2.errCh = false ∧ c2.termCh = false ∧
          seqNumIsValid (c2.requests i).seqNum = true ∧ (c2.requests i).deadline ≠ 0 ∧
          (c2.requests i).deadline ≤ (c2.now + deadlineCheckPeriodSec) % u32)) ∧
      (invocations k (deadlineTick c2) = 1 →
        ⟨k, Outcome.failed Err.deadlineExceeded⟩ ∈ (deadlineTick c2).calls) ∧
      (∀ hdr payload rest : List Nat, hdr.length = cprotoHdrLen →
        c2.rdBuf = hdr ++ payload ++ rest →
        field hdr 0 4 = cprotoMagic →
        cprotoMinCompatVersion ≤ (field hdr 4 2 &&& cprotoVersionMask) →
        payload.length = field hdr 8 4 →
        seqNumIsValid (field hdr 12 4) = true →
        field hdr 12 4 % queueSize = i →
        (invocations k (readLoopStep c2) = 1 ↔ (c2.requests i).seqNum = field hdr 12 4) ∧
        ((c2.requests i).seqNum = field hdr 12 4 →
          ⟨k, Outcome.answer
              ⟨payload, decide ((field hdr 4 2 &&& cprotoVersionCompressionFlag) ≠ 0)⟩⟩ ∈
            (readLoopStep c2).calls))) := by
  obtain ⟨hlaw, hmark0⟩ :=
    rpcCallAsyncRacing_law c0 c ctx t0 t1 pick cmd nt k args between1 between2 between3 hfresh
      hcall
  have hchain : Chain c c2 := by rw [hc2]; exact runDelivery_chain steps c
  have hsum : invocations k c2 + pending k c2 = 1 := by
    have := (law_chain k c c2 hchain).1
    omega
  have hmark : MarkedAsync k c2 := MarkedAsync_chain k c c2 hchain hmark0
  have hafter : ∀ c3 : connection, Chain c2 c3 →
      invocations k c3 + pending k c3 = 1 ∧ invocations k c2 ≤ invocations k c3 := by
    intro c3 h3
    have := law_chain k c2 c3 h3
    omega
  have honerr : ∀ e : Err, c2.err = none → invocations k (onError c2 e) = 1 := by
    intro e he
    have hp := onError_clears c2 e k he hmark
    have h2 := (hafter _ (onError_chain c2 e)).1
    omega
  refine ⟨hsum, ?_, honerr, ?_, ?_⟩
  · intro more h1
    have h2 := hafter _ (runDelivery_chain more c2)
    omega
  · intro h0
    exact pending_holder k c2 (by omega)
  · intro i hi hk
    have ha : (c2.requests i).isAsync ≠ 0 := hmark i hi hk
    have hpos := pending_pos k c2 i hi hk
    have hzero : invocations k c2 = 0 := by omega
    have htick : invocations k (deadlineTick c2) = 1 ↔
        (c2.errCh = false ∧ c2.termCh = false ∧
          seqNumIsValid (c2.requests i).seqNum = true ∧ (c2.requests i).deadline ≠ 0 ∧
          (c2.requests i).deadline ≤ (c2.now + deadlineCheckPeriodSec) % u32) := by
      constructor
      · intro h1
        by_cases hrun : c2.errCh = false ∧ c2.termCh = false
        · refine ⟨hrun.1, hrun.2, ?_⟩
          by_contra hg
          have hexp : expiresBySpec ((c2.now + 1) % u32) (c2.requests i) = false := by
            rw [Bool.eq_false_iff]
            intro ht
            rw [expiresBySpec_iff] at ht
            exact hg ⟨ht.1, ht.2.1, ht.2.2.1⟩
          have hslot : ((deadlineTick c2).requests i).cmpl = some k := by
            rw [deadlineTick_eq_spec c2 hrun.1 hrun.2]
            simp only [tickBySpec, hexp, Bool.false_eq_true, and_false, if_false]
            exact hk
          have hp2 := pending_pos k _ i hi hslot
          have h2 := (hafter _ (deadlineTick_chain c2)).1
          omega
        · have hsame : deadlineTick c2 = c2 := by
            unfold deadlineTick
            have : c2.errCh = true ∨ c2.termCh = true := by
              cases h1 : c2.errCh <;> cases h2 : c2.termCh <;> simp_all
            simp only [this, if_true]
          rw [hsame] at h1
          omega
      · intro hg
        have hm := deadlineTick_delivers c2 i k hi hg.1 hg.2.1 hk ha hg.2.2.1 hg.2.2.2.1
          hg.2.2.2.2
        have hp2 := invocations_pos k _ _ hm
        have h2 := (hafter _ (deadlineTick_chain c2)).1
        omega
    refine ⟨hzero, ?_, htick, ?_, ?_⟩
    · intro e
      refine ⟨⟨?_, honerr e⟩, fun he => onError_delivers c2 e i k hi he hk ha⟩
      intro h1
      cases he : c2.err with
      | none => rfl
      | some e0 =>
        rw [onError_noop c2 e0 e he] at h1
        omega
    · intro h1
      have hg := htick.1 h1
      exact deadlineTick_delivers c2 i k hi hg.1 hg.2.1 hk ha hg.2.2.1 hg.2.2.2.1 hg.2.2.2.2
    · intro hdr payload rest hlen hrd hmagic hver hsize hvalid hslot
      subst hslot
      have hmatch : (c2.requests (field hdr 12 4 % queueSize)).seqNum = field hdr 12 4 →
          readLoopStep c2 = claimSlot
            { noteSnappy c2 (field hdr 4 2 &&& cprotoVersionMask) with rdBuf := rest }
            (field hdr 12 4 % queueSize)
            (c2.requests (field hdr 12 4 % queueSize)).deadline k
            (Outcome.answer
              ⟨payload, decide ((field hdr 4 2 &&& cprotoVersionCompressionFlag) ≠ 0)⟩) := by
        intro hs
        have hr := readReply_match c2 hdr payload rest hlen hrd hmagic hver hsize hvalid hs
        have hd := deliverReply_claims
          { noteSnappy c2 (field hdr 4 2 &&& cprotoVersionMask) with rdBuf := rest }
          (field hdr 12 4)
          ⟨payload, decide ((field hdr 4 2 &&& cprotoVersionCompressionFlag) ≠ 0)⟩ k
          (by rw [noteSnappy_eq]; exact hk) (by rw [noteSnappy_eq]; exact ha)
          (by rw [noteSnappy_eq]; exact hs)
        unfold readLoopStep
        rw [hr, hd, noteSnappy_eq]
      have hmem : (c2.requests (field hdr 12 4 % queueSize)).seqNum = field hdr 12 4 →
          ⟨k, Outcome.answer
              ⟨payload, decide ((field hdr 4 2 &&& cprotoVersionCompressionFlag) ≠ 0)⟩⟩ ∈
            (readLoopStep c2).calls := by
        intro hs
        rw [hmatch hs]
        exact List.mem_append.2 (Or.inr (List.mem_singleton.2 rfl))
      refine ⟨⟨?_, ?_⟩, hmem⟩
      · intro h1
        by_contra hs
        have hr := readReply_stale c2 hdr payload rest hlen hrd hmagic hver hsize hvalid hs
        have hstep : readLoopStep c2 =
            { noteSnappy c2 (field hdr 4 2 &&& cprotoVersionMask) with rdBuf := rest } := by
          unfold readLoopStep
          rw [hr]
        rw [hstep, noteSnappy_eq] at h1
        have h0 : invocations k c2 = 1 := h1
        omega
      · intro hs
        have hp2 := invocations_pos k _ _ (hmem hs)
        have h2 := (hafter _ (readLoopStep_chain c2)).1
        omega

theorem C1_witness :
    (invocations 7 dialled = 0 ∧ pending 7 dialled = 0) ∧
    rpcCallAsyncRacing dialled ⟨none, none⟩ 0 0 true 0 0 7 [] [Delivery.arrive [1]]
      [Delivery.arrive [2]] [Delivery.arrive [3]] = some racedSample ∧
    invocations 7 (runDelivery [Delivery.tick, Delivery.fail (Err.io 1), Delivery.tick]
        racedSample) +
      pending 7 (runDelivery [Delivery.tick, Delivery.fail (Err.io 1), Delivery.tick]
        racedSample) = 1 :=
  ⟨⟨rfl, pending_no_cmpl 7 dialled (fun _ => rfl)⟩, rfl,
    (C1_completion_invoked_once dialled racedSample ⟨none, none⟩ 0 0 true 0 0 7 []
      [Delivery.arrive [1]] [Delivery.arrive [2]] [Delivery.arrive [3]]
      ⟨rfl, pending_no_cmpl 7 dialled (fun _ => rfl)⟩ rfl
      [Delivery.tick, Delivery.fail (Err.io 1), Delivery.tick] _ rfl).1⟩

end Cproto
